import Mathlib

/-!
Shallow embedding of the WickedRepo entity/component system core
(`src/WickedEngine/wiECS.h`) and verification of its specification.

Machine integers are modelled as `Nat`; the 32-bit entity counter
`m_nextID` wraps modulo `2 ^ 32` exactly as `uint32_t` post-increment does.
The `~0` sentinel stored in the `sparse` table is modelled as `none`
(`sparse : List (Option Nat)`), and `std::vector` contents as `List`.
-/

namespace WiECS

/-- `using Entity = uint32_t;` — entity values are 32-bit unsigned integers,
modelled as `Nat` (wraparound is applied explicitly where the code can wrap). -/
abbrev Entity := Nat

/-- `static const Entity INVALID_ENTITY = 0;` -/
def INVALID_ENTITY : Nat := 0

/-- `#define DEFAULT_RESERVED_COUNT 50000` -/
def DEFAULT_RESERVED_COUNT : Nat := 50000

/-- One past the largest `uint32_t` value; `m_nextID++` wraps modulo this. -/
def UINT32_LIMIT : Nat := 2 ^ 32

/-- Lookup in an association list (model of `std::unordered_map` access). -/
def assocFind? {α β : Type} [DecidableEq α] : List (α × β) → α → Option β
  | [], _ => none
  | (k', v') :: rest, k => if k' = k then some v' else assocFind? rest k

/-- Insert-or-assign in an association list (model of `map[k] = v`). -/
def assocSet {α β : Type} [DecidableEq α] : List (α × β) → α → β → List (α × β)
  | [], k, v => [(k, v)]
  | (k', v') :: rest, k, v =>
    if k' = k then (k, v) :: rest else (k', v') :: assocSet rest k v

/-- Erase a key from an association list (model of `map.erase(k)`). -/
def assocErase {α β : Type} [DecidableEq α] : List (α × β) → α → List (α × β)
  | [], _ => []
  | (k', v') :: rest, k => if k' = k then rest else (k', v') :: assocErase rest k

/-- `std::vector::resize(n, v)`: truncate to `n` elements or pad with `v`. -/
def vecResize {α : Type} (l : List α) (n : Nat) (v : α) : List α :=
  if n ≤ l.length then l.take n else l ++ List.replicate (n - l.length) v

/-- State of `class ECSManager`: the identifier registry. -/
structure ECSManager where
  m_freeIDs : List Nat
  m_nextID : Nat
  m_componentCounts : List (Nat × Nat)
  m_reusedIDCount : Nat
deriving DecidableEq, Repr

namespace ECSManager

/-- A default-constructed registry: `m_nextID = INVALID_ENTITY + 1`,
everything else empty/zero. -/
def fresh : ECSManager :=
  { m_freeIDs := []
    m_nextID := INVALID_ENTITY + 1
    m_componentCounts := []
    m_reusedIDCount := 0 }

/-- `ECSManager::GetReusedIDCount`. -/
def GetReusedIDCount (r : ECSManager) : Nat := r.m_reusedIDCount

/-- `ECSManager::CreateEntity`: pop the back of the free list if non-empty
(bumping the reuse counter), otherwise return `m_nextID++` (32-bit wrap). -/
def CreateEntity (r : ECSManager) : Nat × ECSManager :=
  match r.m_freeIDs.getLast? with
  | some id =>
      (id, { r with m_freeIDs := r.m_freeIDs.dropLast,
                    m_reusedIDCount := (r.m_reusedIDCount + 1) % UINT32_LIMIT })
  | none =>
      (r.m_nextID, { r with m_nextID := (r.m_nextID + 1) % UINT32_LIMIT })

/-- `ECSManager::OnComponentAdded`: `m_componentCounts[entity]++`
(`operator[]` default-inserts `0` first). -/
def OnComponentAdded (r : ECSManager) (entity : Nat) : ECSManager :=
  let c := (assocFind? r.m_componentCounts entity).getD 0
  { r with m_componentCounts := assocSet r.m_componentCounts entity (c + 1) }

/-- `ECSManager::OnComponentRemoved`: if the entity is tracked, decrement its
count; on reaching zero, push the id on the free list and erase the entry. -/
def OnComponentRemoved (r : ECSManager) (entity : Nat) : ECSManager :=
  match assocFind? r.m_componentCounts entity with
  | none => r
  | some c =>
      if c - 1 = 0 then
        { r with m_freeIDs := r.m_freeIDs ++ [entity],
                 m_componentCounts := assocErase r.m_componentCounts entity }
      else
        { r with m_componentCounts := assocSet r.m_componentCounts entity (c - 1) }

/-- `ECSManager::clear`: reset all registry state. -/
def clear (_r : ECSManager) : ECSManager := fresh

end ECSManager

/-- State of `template<typename Component> class ComponentManager`:
two parallel dense arrays plus the sparse entity → dense-index table
(`none` models the `~0` "unmapped" sentinel). -/
structure ComponentManager (C : Type) where
  components : List C
  entities : List Nat
  sparse : List (Option Nat)
deriving DecidableEq, Repr

namespace ComponentManager

variable {C : Type}

/-- `ComponentManager(size_t reservedCount = DEFAULT_RESERVED_COUNT)`:
reserves the dense arrays and sizes `sparse` to `reservedCount` slots,
all set to the `~0` sentinel. -/
def mkReserved (C : Type) (reservedCount : Nat := DEFAULT_RESERVED_COUNT) :
    ComponentManager C :=
  { components := [], entities := [], sparse := List.replicate reservedCount none }

/-- The second, parameterless constructor `ComponentManager() {}`:
performs no reservation at all, leaving `sparse` with zero slots. -/
def mkBare (C : Type) : ComponentManager C :=
  { components := [], entities := [], sparse := [] }

/-- `ComponentManager::GetCount`. -/
def GetCount (m : ComponentManager C) : Nat := m.components.length

/-- `ComponentManager::GetEntitiesCount`. -/
def GetEntitiesCount (m : ComponentManager C) : Nat := m.entities.length

/-- `ComponentManager::GetSparseCount`. -/
def GetSparseCount (m : ComponentManager C) : Nat := m.sparse.length

/-- `ComponentManager::Contains`: out-of-range entities are absent; otherwise
test `sparse[entity] != ~0`. -/
def Contains (m : ComponentManager C) (entity : Nat) : Bool :=
  if m.sparse.length ≤ entity then false
  else (m.sparse.getD entity none).isSome

/-- `ComponentManager::GetComponent`: pointer to the dense component if the
entity is mapped, else `nullptr` (modelled as `Option`). -/
def GetComponent [Inhabited C] (m : ComponentManager C) (entity : Nat) :
    Option C :=
  if entity < m.sparse.length ∧ (m.sparse.getD entity none).isSome then
    some (m.components.getD ((m.sparse.getD entity none).getD 0) default)
  else none

/-- `ComponentManager::GetIndex`: the raw sparse entry (`~0` → `none`),
with out-of-range entities mapping to the sentinel. -/
def GetIndex (m : ComponentManager C) (entity : Nat) : Option Nat :=
  if entity < m.sparse.length then m.sparse.getD entity none else none

/-- Shared body of `Create` and the `Merge` loop: grow `sparse` to
`entity + 5000` when `entity` is out of bounds, record the new dense index
in `sparse[entity]`, and append the component and entity to the dense arrays. -/
def pushEntry (m : ComponentManager C) (entity : Nat) (c : C) :
    ComponentManager C :=
  let sparse :=
    if m.sparse.length ≤ entity then vecResize m.sparse (entity + 5000) none
    else m.sparse
  { components := m.components ++ [c]
    entities := m.entities ++ [entity]
    sparse := sparse.set entity (some m.components.length) }

/-- `ComponentManager::Create`: append a default-constructed component for
`entity`, notify the registry, and return (a copy of the value behind)
`components.back()`. -/
def Create [Inhabited C] (m : ComponentManager C) (r : ECSManager)
    (entity : Nat) : (ComponentManager C × ECSManager) × C :=
  let m' := m.pushEntry entity default
  ((m', r.OnComponentAdded entity), m'.components.getLastD default)

/-- `ComponentManager::Remove`: swap-and-pop removal with registry
notification; a no-op when the entity is absent. -/
def Remove [Inhabited C] (m : ComponentManager C) (r : ECSManager)
    (entity : Nat) : ComponentManager C × ECSManager :=
  if entity < m.sparse.length ∧ (m.sparse.getD entity none).isSome then
    let index := (m.sparse.getD entity none).getD 0
    let entity_to_remove := m.entities.getD index 0
    let step :=
      if index < m.components.length - 1 then
        let components := m.components.set index (m.components.getLastD default)
        let entities := m.entities.set index (m.entities.getLastD 0)
        let sparse :=
          if m.entities.getLastD 0 < m.sparse.length then
            m.sparse.set (m.entities.getLastD 0) (some index)
          else m.sparse
        (components, entities, sparse)
      else (m.components, m.entities, m.sparse)
    let sparse' :=
      if entity_to_remove < step.2.2.length then
        step.2.2.set entity_to_remove none
      else step.2.2
    (⟨step.1.dropLast, step.2.1.dropLast, sparse'⟩,
     r.OnComponentRemoved entity_to_remove)
  else (m, r)

/-- Iterations of the `components` shifting loop of `Remove_KeepSorted`
(`components[i-1] = components[i]`), structurally recursive on the remaining
trip count (`set` never changes the length, so the count is fixed at entry). -/
def shiftComponentsGo [Inhabited C] : Nat → List C → Nat → List C
  | 0, cs, _ => cs
  | Nat.succ g, cs, i => shiftComponentsGo g (cs.set (i - 1) (cs.getD i default)) (i + 1)

/-- The `components` shifting loop of `Remove_KeepSorted`:
`for (i = start; i < len; ++i) components[i-1] = components[i]`. -/
def shiftComponentsLoop [Inhabited C] (components : List C) (i : Nat) : List C :=
  shiftComponentsGo (components.length - i) components i

/-- Iterations of the `entities` shifting loop of `Remove_KeepSorted`: shift
each entity one slot down and repoint `sparse[entities[i-1]] = i - 1`
(bounds-guarded exactly as in the source). -/
def shiftEntitiesGo :
    Nat → List Nat → List (Option Nat) → Nat →
    List Nat × List (Option Nat)
  | 0, es, sp, _ => (es, sp)
  | Nat.succ g, es, sp, i =>
    let es' := es.set (i - 1) (es.getD i 0)
    let moved := es'.getD (i - 1) 0
    let sp' := if moved < sp.length then sp.set moved (some (i - 1)) else sp
    shiftEntitiesGo g es' sp' (i + 1)

/-- The `entities` shifting loop of `Remove_KeepSorted`
(`for (i = start; i < len; ++i)`, with the sparse repointing). -/
def shiftEntitiesLoop (entities : List Nat) (sparse : List (Option Nat))
    (i : Nat) : List Nat × List (Option Nat) :=
  shiftEntitiesGo (entities.length - i) entities sparse i

/-- `ComponentManager::Remove_KeepSorted`: order-preserving removal with
registry notification; a no-op when the entity is absent. -/
def Remove_KeepSorted [Inhabited C] (m : ComponentManager C) (r : ECSManager)
    (entity : Nat) : ComponentManager C × ECSManager :=
  if entity < m.sparse.length ∧ (m.sparse.getD entity none).isSome then
    let index := (m.sparse.getD entity none).getD 0
    let entity_to_remove := m.entities.getD index 0
    let step :=
      if index < m.components.length - 1 then
        let components := shiftComponentsLoop m.components (index + 1)
        let es := shiftEntitiesLoop m.entities m.sparse (index + 1)
        (components, es.1, es.2)
      else (m.components, m.entities, m.sparse)
    let sparse' :=
      if entity_to_remove < step.2.2.length then
        step.2.2.set entity_to_remove none
      else step.2.2
    (⟨step.1.dropLast, step.2.1.dropLast, sparse'⟩,
     r.OnComponentRemoved entity_to_remove)
  else (m, r)

/-- Iterations of the `MoveItem` loop for direction `+1` (`i` runs from
`index_from` up to `index_to`): shift each element one slot down and repoint
its sparse entry. Structurally recursive on the remaining trip count. -/
def moveItemGoUp [Inhabited C] :
    Nat → List C → List Nat → List (Option Nat) → Nat →
    List C × List Nat × List (Option Nat)
  | 0, cs, es, sp, _ => (cs, es, sp)
  | Nat.succ g, cs, es, sp, i =>
    let cs' := cs.set i (cs.getD (i + 1) default)
    let es' := es.set i (es.getD (i + 1) 0)
    let moved := es'.getD i 0
    let sp' := if moved < sp.length then sp.set moved (some i) else sp
    moveItemGoUp g cs' es' sp' (i + 1)

/-- `MoveItem` loop for `index_from < index_to` (direction `+1`). -/
def moveItemLoopUp [Inhabited C] (cs : List C) (es : List Nat)
    (sp : List (Option Nat)) (i index_to : Nat) :
    List C × List Nat × List (Option Nat) :=
  moveItemGoUp (index_to - i) cs es sp i

/-- Iterations of the `MoveItem` loop for direction `-1` (`i` runs from
`index_from` down to `index_to`): shift each element one slot up and repoint
its sparse entry. -/
def moveItemGoDown [Inhabited C] :
    Nat → List C → List Nat → List (Option Nat) → Nat →
    List C × List Nat × List (Option Nat)
  | 0, cs, es, sp, _ => (cs, es, sp)
  | Nat.succ g, cs, es, sp, i =>
    let cs' := cs.set i (cs.getD (i - 1) default)
    let es' := es.set i (es.getD (i - 1) 0)
    let moved := es'.getD i 0
    let sp' := if moved < sp.length then sp.set moved (some i) else sp
    moveItemGoDown g cs' es' sp' (i - 1)

/-- `MoveItem` loop for `index_to < index_from` (direction `-1`). -/
def moveItemLoopDown [Inhabited C] (cs : List C) (es : List Nat)
    (sp : List (Option Nat)) (i index_to : Nat) :
    List C × List Nat × List (Option Nat) :=
  moveItemGoDown (i - index_to) cs es sp i

/-- `ComponentManager::MoveItem`: relocate the dense entry at `index_from` to
`index_to`, shifting everything in between and repointing `sparse`. -/
def MoveItem [Inhabited C] (m : ComponentManager C)
    (index_from index_to : Nat) : ComponentManager C :=
  if index_from = index_to then m
  else
    let component := m.components.getD index_from default
    let entity := m.entities.getD index_from 0
    let step :=
      if index_from < index_to then
        moveItemLoopUp m.components m.entities m.sparse index_from index_to
      else
        moveItemLoopDown m.components m.entities m.sparse index_from index_to
    let sp :=
      if entity < step.2.2.length then step.2.2.set entity (some index_to)
      else step.2.2
    ⟨step.1.set index_to component, step.2.1.set index_to entity, sp⟩

/-- `ComponentManager::Clear`: notify the registry of removal for every held
entity, empty the dense arrays, and reset every sparse slot to the sentinel. -/
def Clear (m : ComponentManager C) (r : ECSManager) :
    ComponentManager C × ECSManager :=
  (⟨[], [], List.replicate m.sparse.length none⟩,
   m.entities.foldl ECSManager.OnComponentRemoved r)

/-- `ComponentManager::Copy`: clear this store, then duplicate `other`'s
arrays, notifying the registry of an addition per copied entity. -/
def Copy (m other : ComponentManager C) (r : ECSManager) :
    ComponentManager C × ECSManager :=
  let cleared := m.Clear r
  (⟨other.components, other.entities, other.sparse⟩,
   other.entities.foldl ECSManager.OnComponentAdded cleared.2)

/-- Iterations of the per-entry loop of `ComponentManager::Merge`: append
`other`'s `i`-th entry (growing `sparse` as needed) and notify the registry. -/
def mergeGo [Inhabited C] (oes : List Nat) (ocs : List C) :
    Nat → ComponentManager C → ECSManager → Nat →
    ComponentManager C × ECSManager
  | 0, m, r, _ => (m, r)
  | Nat.succ g, m, r, i =>
    let entity := oes.getD i 0
    mergeGo oes ocs g (m.pushEntry entity (ocs.getD i default))
      (r.OnComponentAdded entity) (i + 1)

/-- The per-entry loop of `ComponentManager::Merge`
(`for (size_t i = 0; i < other.GetCount(); ++i)`). -/
def mergeLoop [Inhabited C] (oes : List Nat) (ocs : List C) (n : Nat)
    (m : ComponentManager C) (r : ECSManager) (i : Nat) :
    ComponentManager C × ECSManager :=
  mergeGo oes ocs (n - i) m r i

/-- `ComponentManager::Merge`: pre-grow `sparse` if `other`'s is larger,
append all of `other`'s entries, then `other.Clear()`. -/
def Merge [Inhabited C] (m other : ComponentManager C) (r : ECSManager) :
    (ComponentManager C × ComponentManager C) × ECSManager :=
  let sparse0 :=
    if m.sparse.length < other.sparse.length then
      vecResize m.sparse (other.sparse.length + 5000) none
    else m.sparse
  let loop := mergeLoop other.entities other.components other.components.length
    ⟨m.components, m.entities, sparse0⟩ r 0
  let cleared := other.Clear loop.2
  ((loop.1, cleared.1), cleared.2)

end ComponentManager

/-- Modelled from the spec: the persistence facility (`wiArchive`, not under
`src/`) is "typed stream operators for primitive values and raw entity
handles" used in "strict read/write-symmetric order"; we model the byte
stream as a list of natural-number words, one per written primitive, where
an entity handle written as one word is read back as the same 64-bit word. -/
abbrev Archive := List Nat

/-- Modelled from the spec: per-component-type payload serialization
(`Component::Serialize`, outside this core). `encode` emits the words a
payload writes; `decode` consumes a prefix of the stream and returns the
reconstructed payload plus the remaining stream. -/
structure ComponentSerializer (C : Type) where
  encode : C → Archive
  decode : Archive → C × Archive

/-- State of `struct EntitySerializer`: the external-value → fresh-entity
remap table and the `allow_remap` flag (the job-system context is out of
scope of the in-memory state). -/
structure EntitySerializer where
  remap : List (Nat × Nat)
  allow_remap : Bool
deriving DecidableEq, Repr

/-- Write branch of `SerializeEntity`: `archive << entity`. -/
def SerializeEntityWrite (entity : Nat) : Archive := [entity]

/-- Read branch of `SerializeEntity`: read a 64-bit word; with remap enabled,
look it up (allocating a fresh entity on first sight), otherwise cast the
word to `Entity` (`uint64_t` → `uint32_t`, i.e. reduce modulo `2 ^ 32`). -/
def SerializeEntityRead (r : ECSManager) (seri : EntitySerializer)
    (stream : Archive) : Nat × ECSManager × EntitySerializer × Archive :=
  let mem := stream.headD 0
  let rest := stream.tail
  if seri.allow_remap then
    match assocFind? seri.remap mem with
    | none =>
        let c := r.CreateEntity
        (c.1, c.2, { seri with remap := assocSet seri.remap mem c.1 }, rest)
    | some e => (e, r, seri, rest)
  else (mem % UINT32_LIMIT, r, seri, rest)

namespace ComponentManager

variable {C : Type}

/-- Read loop for component payloads: `components.resize(count)` followed by
`components[i].Serialize(archive, seri)` for each `i`. -/
def readComponents (cs : ComponentSerializer C) :
    Nat → Archive → List C × Archive
  | 0, s => ([], s)
  | Nat.succ n, s =>
    let d := cs.decode s
    let rest := readComponents cs n d.2
    (d.1 :: rest.1, rest.2)

/-- Read loop for entity handles: each handle goes through `SerializeEntity`,
is stored in the dense array, bumps the running maximum, and notifies the
registry of an addition. -/
def readEntities (r : ECSManager) (seri : EntitySerializer) (stream : Archive)
    (maxe : Nat) :
    Nat → List Nat × ECSManager × EntitySerializer × Nat × Archive
  | 0 => ([], r, seri, maxe, stream)
  | Nat.succ n =>
    let step := SerializeEntityRead r seri stream
    let entity := step.1
    let maxe' := if maxe < entity then entity else maxe
    let rest := readEntities (step.2.1.OnComponentAdded entity) step.2.2.1
      step.2.2.2 maxe' n
    (entity :: rest.1, rest.2)

/-- Write branch of `ComponentManager::Serialize`: the count, then every
payload in dense order, then every entity handle in dense order. -/
def SerializeWrite (m : ComponentManager C) (cs : ComponentSerializer C) :
    Archive :=
  m.components.length ::
    ((m.components.map cs.encode).flatten ++
      (m.entities.map SerializeEntityWrite).flatten)

/-- Read branch of `ComponentManager::Serialize`: clear the store, read the
count, the payloads, then the entities (tracking their maximum), grow
`sparse` to `max_entity + 5000` if needed, and rebuild `sparse` in a second
pass. -/
def SerializeRead [Inhabited C] (m : ComponentManager C) (r : ECSManager)
    (cs : ComponentSerializer C) (seri : EntitySerializer) (stream : Archive) :
    ComponentManager C × ECSManager × EntitySerializer × Archive :=
  let cleared := m.Clear r
  let count := stream.headD 0
  let comps := readComponents cs count stream.tail
  let rd := readEntities cleared.2 seri comps.2 0 count
  let entities' := rd.1
  let maxe := rd.2.2.2.1
  let sparse1 :=
    if cleared.1.sparse.length < maxe + 1 then
      vecResize cleared.1.sparse (maxe + 5000) none
    else cleared.1.sparse
  let sparse2 := (List.range count).foldl
    (fun sp i => sp.set (entities'.getD i 0) (some i)) sparse1
  (⟨comps.1, entities', sparse2⟩, rd.2.1, rd.2.2.1, rd.2.2.2.2)

/-- The dense/sparse coherence invariant of a packed component store: the
dense arrays have equal length, every dense slot's owner points back at that
slot through `sparse`, and every mapped sparse slot points at a dense slot
owned by that entity. -/
def Inv (m : ComponentManager C) : Prop :=
  m.components.length = m.entities.length ∧
  (∀ i < m.entities.length,
    m.entities.getD i 0 < m.sparse.length ∧
    m.sparse.getD (m.entities.getD i 0) none = some i) ∧
  (∀ e < m.sparse.length, ∀ j ∈ m.sparse.getD e none,
    j < m.entities.length ∧ m.entities.getD j 0 = e)

/-- Every held entity is a valid (nonzero) identifier. -/
def EntNZ (m : ComponentManager C) : Prop :=
  ∀ e ∈ m.entities, e ≠ 0

/-- Full well-formedness of a store: coherence plus nonzero held entities. -/
def WF (m : ComponentManager C) : Prop := m.Inv ∧ m.EntNZ

instance (m : ComponentManager C) : Decidable m.Inv := by
  unfold Inv; infer_instance

instance (m : ComponentManager C) : Decidable m.EntNZ := by
  unfold EntNZ; infer_instance

instance (m : ComponentManager C) : Decidable m.WF := by
  unfold WF; infer_instance

end ComponentManager

/-- The public mutating operations of a packed component store, as invoked by
a client; the `other` payload of `copy` and `merge` is the second store
involved in the call. -/
inductive StoreOp (C : Type) where
  | create (entity : Nat)
  | remove (entity : Nat)
  | removeKeepSorted (entity : Nat)
  | moveItem (index_from index_to : Nat)
  | clear
  | copy (other : ComponentManager C)
  | merge (other : ComponentManager C)

/-- Apply one public operation to a store/registry pair, exactly as the
corresponding member function does (for `merge`, this store receives the
entries and the registry is threaded through; the drained `other` is the
caller's temporary). -/
def applyOp {C : Type} [Inhabited C] (s : ComponentManager C × ECSManager) :
    StoreOp C → ComponentManager C × ECSManager
  | StoreOp.create e => (s.1.Create s.2 e).1
  | StoreOp.remove e => s.1.Remove s.2 e
  | StoreOp.removeKeepSorted e => s.1.Remove_KeepSorted s.2 e
  | StoreOp.moveItem f t => (s.1.MoveItem f t, s.2)
  | StoreOp.clear => s.1.Clear s.2
  | StoreOp.copy other => s.1.Copy other s.2
  | StoreOp.merge other =>
      ((s.1.Merge other s.2).1.1, (s.1.Merge other s.2).2)

/-- The spec's documented precondition of each public operation. -/
def opPre {C : Type} : StoreOp C → ComponentManager C × ECSManager → Prop
  | StoreOp.create e, s => e ≠ 0 ∧ s.1.Contains e = false
  | StoreOp.remove _, _ => True
  | StoreOp.removeKeepSorted _, _ => True
  | StoreOp.moveItem f t, s =>
      f < s.1.components.length ∧ t < s.1.components.length
  | StoreOp.clear, _ => True
  | StoreOp.copy other, _ => other.WF
  | StoreOp.merge other, s =>
      other.WF ∧ ∀ e ∈ other.entities, s.1.Contains e = false

instance {C : Type} (op : StoreOp C) (s : ComponentManager C × ECSManager) :
    Decidable (opPre op s) := by
  cases op <;> (unfold opPre; infer_instance)

/-- Execute a sequence of public operations left to right. -/
def execOps {C : Type} [Inhabited C] :
    List (StoreOp C) → ComponentManager C × ECSManager →
    ComponentManager C × ECSManager
  | [], s => s
  | op :: ops, s => execOps ops (applyOp s op)

/-- Every operation of the sequence runs with its precondition satisfied in
the state it actually sees. -/
def PreSeq {C : Type} [Inhabited C] :
    List (StoreOp C) → ComponentManager C × ECSManager → Prop
  | [], _ => True
  | op :: ops, s => opPre op s ∧ PreSeq ops (applyOp s op)

instance instDecidablePreSeq {C : Type} [Inhabited C] :
    ∀ (ops : List (StoreOp C)) (s : ComponentManager C × ECSManager),
    Decidable (PreSeq ops s)
  | [], _ => by
      unfold PreSeq
      infer_instance
  | op :: ops, s => by
      unfold PreSeq
      have := instDecidablePreSeq ops (applyOp s op)
      infer_instance

/-- The concrete C3 scenario, using the public API: a fresh registry, three
`CreateEntity` calls, a store with three components populated (via the
references `Create` returns, modelled as writes at the dense index recorded
in `sparse`), then `Remove` of the first entity. -/
def scnStore0 : ComponentManager Nat := ComponentManager.mkReserved Nat 8

/-- Caller-side write through the reference returned by `Create` /
`GetComponent`: store `v` in entity `e`'s dense component slot. -/
def scnPop (m : ComponentManager Nat) (e v : Nat) : ComponentManager Nat :=
  { m with components :=
      m.components.set ((m.sparse.getD e none).getD 0) v }

def scnE1 : Nat × ECSManager := ECSManager.fresh.CreateEntity

def scnE2 : Nat × ECSManager := scnE1.2.CreateEntity

def scnE3 : Nat × ECSManager := scnE2.2.CreateEntity

def scnC1 : (ComponentManager Nat × ECSManager) × Nat :=
  scnStore0.Create scnE3.2 scnE1.1

def scnC2 : (ComponentManager Nat × ECSManager) × Nat :=
  scnC1.1.1.Create scnC1.1.2 scnE2.1

def scnC3 : (ComponentManager Nat × ECSManager) × Nat :=
  scnC2.1.1.Create scnC2.1.2 scnE3.1

def scnS3 : ComponentManager Nat :=
  scnPop (scnPop (scnPop scnC3.1.1 scnE1.1 11) scnE2.1 12) scnE3.1 13

def scnRem : ComponentManager Nat × ECSManager := scnS3.Remove scnC3.1.2 1

def scnNext : Nat × ECSManager := scnRem.2.CreateEntity

/-- A run of `n` successive `CreateEntity` calls: the list of returned ids in
order, and the final registry state. -/
def createRun (r : ECSManager) : Nat → List Nat × ECSManager
  | 0 => ([], r)
  | Nat.succ n =>
    let c := r.CreateEntity
    let rest := createRun c.2 n
    (c.1 :: rest.1, rest.2)

/-- `k` successive `OnComponentAdded` notifications for one entity
(one per component insertion across any stores). -/
def attachN (r : ECSManager) (e : Nat) : Nat → ECSManager
  | 0 => r
  | Nat.succ k => attachN (r.OnComponentAdded e) e k

/-- `k` successive `OnComponentRemoved` notifications for one entity. -/
def detachN (r : ECSManager) (e : Nat) : Nat → ECSManager
  | 0 => r
  | Nat.succ k => detachN (r.OnComponentRemoved e) e k

/-- Attach `c` components to entity `e` and then remove all of them
("fully removing all components attached" to `e`). -/
def fullRelease (r : ECSManager) (e : Nat) (c : Nat) : ECSManager :=
  detachN (attachN r e c) e c

/-- Fully release, in order, each entity of `rel` (paired with how many
components it had attached). -/
def releaseRun (r : ECSManager) : List (Nat × Nat) → ECSManager
  | [] => r
  | (e, c) :: rest => releaseRun (fullRelease r e c) rest

section ListKit

variable {α : Type}

theorem getD_set_self (l : List α) (i : Nat) (v d : α) (h : i < l.length) :
    (l.set i v).getD i d = v := by
  simp [List.getD_eq_getElem?_getD, List.getElem?_set_self, h]

theorem getD_set_ne (l : List α) (i j : Nat) (v d : α) (h : i ≠ j) :
    (l.set i v).getD j d = l.getD j d := by
  simp [List.getD_eq_getElem?_getD, List.getElem?_set_ne h]

theorem getD_append_lt (l l' : List α) (i : Nat) (d : α) (h : i < l.length) :
    (l ++ l').getD i d = l.getD i d := by
  simp [List.getD_eq_getElem?_getD, List.getElem?_append_left h]

theorem getD_append_ge (l l' : List α) (i : Nat) (d : α) (h : l.length ≤ i) :
    (l ++ l').getD i d = l'.getD (i - l.length) d := by
  simp [List.getD_eq_getElem?_getD, List.getElem?_append_right h]

theorem getD_replicate (n i : Nat) (v d : α) (h : i < n) :
    (List.replicate n v).getD i d = v := by
  simp [List.getD_eq_getElem?_getD, List.getElem?_replicate, h]

theorem getD_oob (l : List α) (i : Nat) (d : α) (h : l.length ≤ i) :
    l.getD i d = d := by
  simp [List.getD_eq_getElem?_getD, List.getElem?_eq_none, h]

theorem getD_dropLast (l : List α) (i : Nat) (d : α) (h : i < l.length - 1) :
    l.dropLast.getD i d = l.getD i d := by
  have h' : i < l.length := by omega
  simp only [List.getD_eq_getElem?_getD, List.getElem?_dropLast, if_pos h,
    List.getElem?_eq_getElem h', Option.getD_some]

theorem getLastD_eq_getD (l : List α) (d : α) :
    l.getLastD d = l.getD (l.length - 1) d := by
  simp [List.getLastD_eq_getLast?, List.getLast?_eq_getElem?,
    List.getD_eq_getElem?_getD]

theorem getD_vecResize_grow (l : List α) (n i : Nat) (v d : α)
    (hn : l.length ≤ n) :
    (vecResize l n v).getD i d =
      if i < l.length then l.getD i d else if i < n then v else d := by
  unfold vecResize
  rcases Nat.eq_or_lt_of_le hn with h | h
  · simp only [h.symm, le_refl, if_pos, List.take_length]
    rcases Nat.lt_or_ge i l.length with hi | hi
    · simp [hi, h.symm]
    · rw [getD_oob _ _ _ hi, if_neg (Nat.not_lt.mpr hi), if_neg (by omega)]
  · rw [if_neg (by omega)]
    rcases Nat.lt_or_ge i l.length with hi | hi
    · rw [getD_append_lt _ _ _ _ hi, if_pos hi]
    · rw [getD_append_ge _ _ _ _ hi, if_neg (Nat.not_lt.mpr hi)]
      rcases Nat.lt_or_ge i n with hin | hin
      · rw [getD_replicate _ _ _ _ (by omega), if_pos hin]
      · rw [getD_oob _ _ _ (by simp; omega), if_neg (Nat.not_lt.mpr hin)]

theorem length_vecResize (l : List α) (n : Nat) (v : α) :
    (vecResize l n v).length = n := by
  unfold vecResize
  rcases Nat.le_total n l.length with h | h
  · simp [h]
  · rcases Nat.eq_or_lt_of_le h with h' | h'
    · simp [h'.symm]
    · rw [if_neg (by omega)]; simp; omega

end ListKit

section ListKitMore

variable {α : Type}

theorem getD_eq_getElem (l : List α) (i : Nat) (d : α) (h : i < l.length) :
    l.getD i d = l[i] := by
  simp [List.getD_eq_getElem?_getD, List.getElem?_eq_getElem h]

theorem mem_iff_getD (l : List α) (x d : α) :
    x ∈ l ↔ ∃ i, i < l.length ∧ l.getD i d = x := by
  rw [List.mem_iff_getElem]
  constructor
  · rintro ⟨i, hi, rfl⟩
    exact ⟨i, hi, getD_eq_getElem l i d hi⟩
  · rintro ⟨i, hi, rfl⟩
    exact ⟨i, hi, (getD_eq_getElem l i d hi).symm⟩

theorem ext_getD (l l' : List α) (d : α) (hlen : l.length = l'.length)
    (h : ∀ j, j < l.length → l.getD j d = l'.getD j d) : l = l' := by
  apply List.ext_getElem hlen
  intro i h1 h2
  rw [← getD_eq_getElem l i d h1, ← getD_eq_getElem l' i d h2]
  exact h i h1

theorem getD_eraseIdx_lt (l : List α) (i j : Nat) (d : α) (hj : j < i) :
    (l.eraseIdx i).getD j d = l.getD j d := by
  simp [List.getD_eq_getElem?_getD, List.getElem?_eraseIdx_of_lt l i j hj]

theorem getD_eraseIdx_ge (l : List α) (i j : Nat) (d : α) (hj : i ≤ j) :
    (l.eraseIdx i).getD j d = l.getD (j + 1) d := by
  simp [List.getD_eq_getElem?_getD, List.getElem?_eraseIdx_of_ge l i j hj]

end ListKitMore

namespace ComponentManager

variable {C : Type}

theorem Inv.len_eq {m : ComponentManager C} (h : m.Inv) :
    m.components.length = m.entities.length := h.1

theorem Inv.d2s {m : ComponentManager C} (h : m.Inv) (i : Nat)
    (hi : i < m.entities.length) :
    m.entities.getD i 0 < m.sparse.length ∧
    m.sparse.getD (m.entities.getD i 0) none = some i := h.2.1 i hi

theorem Inv.s2d {m : ComponentManager C} (h : m.Inv) (e i : Nat)
    (hsp : m.sparse.getD e none = some i) :
    i < m.entities.length ∧ m.entities.getD i 0 = e := by
  rcases Nat.lt_or_ge e m.sparse.length with he | he
  · exact h.2.2 e he i (by rw [hsp]; rfl)
  · rw [getD_oob _ _ _ he] at hsp
    cases hsp

theorem Inv.getD_inj {m : ComponentManager C} (h : m.Inv) (a b : Nat)
    (ha : a < m.entities.length) (hb : b < m.entities.length)
    (heq : m.entities.getD a 0 = m.entities.getD b 0) : a = b := by
  have h1 := (h.d2s a ha).2
  have h2 := (h.d2s b hb).2
  rw [heq] at h1
  rw [h1] at h2
  cases h2
  rfl

theorem Inv.mem_entities_iff {m : ComponentManager C} (h : m.Inv) (e : Nat) :
    e ∈ m.entities ↔ m.sparse.getD e none ≠ none := by
  constructor
  · intro hm
    obtain ⟨i, hi, hie⟩ := (mem_iff_getD m.entities e 0).mp hm
    rw [← hie, (h.d2s i hi).2]
    intro hc
    cases hc
  · intro hne
    cases hsp : m.sparse.getD e none with
    | none => exact absurd hsp hne
    | some i =>
      obtain ⟨hi, hie⟩ := h.s2d e i hsp
      exact (mem_iff_getD m.entities e 0).mpr ⟨i, hi, hie⟩

end ComponentManager

namespace ComponentManager

variable {C : Type}

theorem pushEntry_components (m : ComponentManager C) (e : Nat) (c : C) :
    (m.pushEntry e c).components = m.components ++ [c] := rfl

theorem pushEntry_entities (m : ComponentManager C) (e : Nat) (c : C) :
    (m.pushEntry e c).entities = m.entities ++ [e] := rfl

theorem pushEntry_sparse_length (m : ComponentManager C) (e : Nat) (c : C) :
    (m.pushEntry e c).sparse.length =
      if m.sparse.length ≤ e then e + 5000 else m.sparse.length := by
  unfold pushEntry
  rcases Nat.lt_or_ge e m.sparse.length with h | h
  · rw [if_neg (Nat.not_le.mpr h), if_neg (Nat.not_le.mpr h), List.length_set]
  · rw [if_pos h, if_pos h, List.length_set, length_vecResize]

theorem sparse_length_le_pushEntry (m : ComponentManager C) (e : Nat)
    (c : C) : m.sparse.length ≤ (m.pushEntry e c).sparse.length := by
  rw [pushEntry_sparse_length]
  rcases Nat.lt_or_ge e m.sparse.length with h | h
  · rw [if_neg (Nat.not_le.mpr h)]
  · rw [if_pos h]
    omega

theorem lt_pushEntry_sparse_length (m : ComponentManager C) (e : Nat)
    (c : C) : e < (m.pushEntry e c).sparse.length := by
  rw [pushEntry_sparse_length]
  rcases Nat.lt_or_ge e m.sparse.length with h | h
  · rw [if_neg (Nat.not_le.mpr h)]; exact h
  · rw [if_pos h]
    show e < e + 5000
    exact Nat.lt_add_of_pos_right (by norm_num)

theorem pushEntry_sparse_self (m : ComponentManager C) (e : Nat) (c : C) :
    (m.pushEntry e c).sparse.getD e none = some m.components.length := by
  unfold pushEntry
  apply getD_set_self
  rcases Nat.lt_or_ge e m.sparse.length with h | h
  · rw [if_neg (Nat.not_le.mpr h)]; exact h
  · rw [if_pos h, length_vecResize]; omega

theorem pushEntry_sparse_other_lt (m : ComponentManager C) (e : Nat)
    (c : C) (j : Nat) (hj : j ≠ e) (hlt : j < m.sparse.length) :
    (m.pushEntry e c).sparse.getD j none = m.sparse.getD j none := by
  unfold pushEntry
  rw [getD_set_ne _ _ _ _ _ (fun h => hj h.symm)]
  rcases Nat.lt_or_ge e m.sparse.length with h | h
  · rw [if_neg (Nat.not_le.mpr h)]
  · rw [if_pos h, getD_vecResize_grow _ _ _ _ _ (by omega), if_pos hlt]

theorem pushEntry_sparse_other_ge (m : ComponentManager C) (e : Nat)
    (c : C) (j : Nat) (hj : j ≠ e) (hge : m.sparse.length ≤ j) :
    (m.pushEntry e c).sparse.getD j none = none := by
  unfold pushEntry
  rw [getD_set_ne _ _ _ _ _ (fun h => hj h.symm)]
  rcases Nat.lt_or_ge e m.sparse.length with h | h
  · rw [if_neg (Nat.not_le.mpr h)]
    exact getD_oob _ _ _ hge
  · rw [if_pos h, getD_vecResize_grow _ _ _ _ _ (by omega), if_neg (by omega)]
    split <;> rfl

theorem Contains_false_iff (m : ComponentManager C) (e : Nat) :
    m.Contains e = false ↔ m.sparse.getD e none = none := by
  unfold Contains
  rcases Nat.lt_or_ge e m.sparse.length with h | h
  · rw [if_neg (Nat.not_le.mpr h)]
    cases m.sparse.getD e none <;> simp
  · rw [if_pos h, getD_oob _ _ _ h]
    simp

theorem Contains_true_iff (m : ComponentManager C) (e : Nat) :
    m.Contains e = true ↔ (m.sparse.getD e none).isSome := by
  unfold Contains
  rcases Nat.lt_or_ge e m.sparse.length with h | h
  · rw [if_neg (Nat.not_le.mpr h)]
  · rw [if_pos h, getD_oob _ _ _ h]
    simp

end ComponentManager

namespace ComponentManager

variable {C : Type}

theorem Remove_present [Inhabited C] (m : ComponentManager C)
    (r : ECSManager) (e i : Nat) (hInv : m.Inv)
    (hsp : m.sparse.getD e none = some i) :
    (m.Remove r e).2 = r.OnComponentRemoved e ∧
    (i + 1 = m.entities.length →
      (m.Remove r e).1 =
        ⟨m.components.dropLast, m.entities.dropLast, m.sparse.set e none⟩) ∧
    (i + 1 < m.entities.length →
      (m.Remove r e).1 =
        ⟨(m.components.set i (m.components.getLastD default)).dropLast,
         (m.entities.set i (m.entities.getLastD 0)).dropLast,
         (m.sparse.set (m.entities.getLastD 0) (some i)).set e none⟩) := by
  obtain ⟨hil, hie⟩ := hInv.s2d e i hsp
  have he_lt : e < m.sparse.length := by
    have := (hInv.d2s i hil).1
    rwa [hie] at this
  have hguard : e < m.sparse.length ∧ (m.sparse.getD e none).isSome := by
    refine ⟨he_lt, ?_⟩
    rw [hsp]
    rfl
  have hb_lt : m.entities.getLastD 0 < m.sparse.length := by
    rw [getLastD_eq_getD]
    exact (hInv.d2s (m.entities.length - 1) (by omega)).1
  unfold Remove
  rw [if_pos hguard]
  simp only [hsp, Option.getD_some, hie]
  refine ⟨trivial, ?_, ?_⟩
  · intro hlast
    have hcond : ¬(i < m.components.length - 1) := by
      rw [hInv.len_eq]
      omega
    rw [if_neg hcond, if_pos he_lt]
  · intro hlt
    have hcond : i < m.components.length - 1 := by
      rw [hInv.len_eq]
      omega
    rw [if_pos hcond, if_pos hb_lt]
    have hlen2 : e < (m.sparse.set (m.entities.getLastD 0) (some i)).length := by
      rw [List.length_set]
      exact he_lt
    rw [if_pos hlen2]

theorem Inv_remove_last [Inhabited C] (m : ComponentManager C) (e i : Nat)
    (hInv : m.Inv) (hsp : m.sparse.getD e none = some i)
    (hlast : i + 1 = m.entities.length) :
    Inv (⟨m.components.dropLast, m.entities.dropLast,
      m.sparse.set e none⟩ : ComponentManager C) := by
  obtain ⟨hil, hie⟩ := hInv.s2d e i hsp
  have he_lt : e < m.sparse.length := by
    have := (hInv.d2s i hil).1
    rwa [hie] at this
  refine ⟨?_, ?_, ?_⟩
  · show m.components.dropLast.length = m.entities.dropLast.length
    rw [List.length_dropLast, List.length_dropLast, hInv.len_eq]
  · intro j hj
    show m.entities.dropLast.getD j 0 < (m.sparse.set e none).length ∧ _
    have hj' : j < m.entities.length - 1 := by
      simpa [List.length_dropLast] using hj
    rw [getD_dropLast _ _ _ hj']
    have hjlen : j < m.entities.length := by omega
    obtain ⟨hx1, hx2⟩ := hInv.d2s j hjlen
    have hxe : m.entities.getD j 0 ≠ e := by
      intro hc
      rw [← hie] at hc
      have := hInv.getD_inj j i hjlen hil hc
      omega
    rw [List.length_set, getD_set_ne _ _ _ _ _ (fun hh => hxe hh.symm)]
    exact ⟨hx1, hx2⟩
  · intro q hq jj hjj
    have hq' : q < m.sparse.length := by
      simpa [List.length_set] using hq
    by_cases hqe : q = e
    · subst hqe
      rw [getD_set_self _ _ _ _ he_lt] at hjj
      cases hjj
    · rw [getD_set_ne _ _ _ _ _ (fun hh => hqe hh.symm)] at hjj
      have hjj' : m.sparse.getD q none = some jj := by
        cases hmem : m.sparse.getD q none with
        | none => rw [hmem] at hjj; cases hjj
        | some v =>
          rw [hmem] at hjj
          cases hjj
          rfl
      obtain ⟨hjl, hjq⟩ := hInv.s2d q jj hjj'
      have hjne : jj ≠ i := by
        intro hc
        rw [hc, hie] at hjq
        exact hqe hjq.symm
      have hjlt : jj < m.entities.length - 1 := by omega
      constructor
      · rw [List.length_dropLast]
        exact hjlt
      · rw [getD_dropLast _ _ _ hjlt]
        exact hjq

theorem Inv_remove_swap [Inhabited C] (m : ComponentManager C) (e i : Nat)
    (hInv : m.Inv) (hsp : m.sparse.getD e none = some i)
    (hlt : i + 1 < m.entities.length) :
    Inv (⟨(m.components.set i (m.components.getLastD default)).dropLast,
      (m.entities.set i (m.entities.getLastD 0)).dropLast,
      (m.sparse.set (m.entities.getLastD 0) (some i)).set e none⟩ :
        ComponentManager C) := by
  obtain ⟨hil, hie⟩ := hInv.s2d e i hsp
  have hn1 : m.entities.length - 1 < m.entities.length := by omega
  have hb : m.entities.getLastD 0 = m.entities.getD (m.entities.length - 1) 0 :=
    getLastD_eq_getD _ _
  have hb_lt : m.entities.getLastD 0 < m.sparse.length := by
    rw [hb]
    exact (hInv.d2s (m.entities.length - 1) hn1).1
  have he_lt : e < m.sparse.length := by
    have := (hInv.d2s i hil).1
    rwa [hie] at this
  have hbe : m.entities.getLastD 0 ≠ e := by
    intro hc
    rw [hb, ← hie] at hc
    have := hInv.getD_inj (m.entities.length - 1) i hn1 hil hc
    omega
  refine ⟨?_, ?_, ?_⟩
  · show ((m.components.set _ _).dropLast).length =
      ((m.entities.set _ _).dropLast).length
    rw [List.length_dropLast, List.length_dropLast, List.length_set,
      List.length_set, hInv.len_eq]
  · intro j hj
    have hj' : j < m.entities.length - 1 := by
      simpa [List.length_dropLast, List.length_set] using hj
    have hjlen : j < m.entities.length := by omega
    have hjset : j < (m.entities.set i (m.entities.getLastD 0)).length - 1 := by
      rw [List.length_set]
      exact hj'
    show ((m.entities.set i (m.entities.getLastD 0)).dropLast).getD j 0 <
      ((m.sparse.set (m.entities.getLastD 0) (some i)).set e none).length ∧ _
    rw [getD_dropLast _ _ _ hjset, List.length_set, List.length_set]
    by_cases hji : j = i
    · subst hji
      rw [getD_set_self _ _ _ _ hjlen]
      refine ⟨hb_lt, ?_⟩
      rw [getD_set_ne _ _ _ _ _ (fun hh => hbe hh.symm),
        getD_set_self _ _ _ _ hb_lt]
    · rw [getD_set_ne _ _ _ _ _ (fun hh => hji hh.symm)]
      obtain ⟨hx1, hx2⟩ := hInv.d2s j hjlen
      have hxe : m.entities.getD j 0 ≠ e := by
        intro hc
        rw [← hie] at hc
        exact hji (hInv.getD_inj j i hjlen hil hc)
      have hxb : m.entities.getD j 0 ≠ m.entities.getLastD 0 := by
        intro hc
        rw [hb] at hc
        have := hInv.getD_inj j (m.entities.length - 1) hjlen hn1 hc
        omega
      refine ⟨hx1, ?_⟩
      rw [getD_set_ne _ _ _ _ _ (fun hh => hxe hh.symm),
        getD_set_ne _ _ _ _ _ (fun hh => hxb hh.symm)]
      exact hx2
  · intro q hq jj hjj
    have hq' : q < m.sparse.length := by
      simpa [List.length_set] using hq
    by_cases hqe : q = e
    · subst hqe
      rw [getD_set_self _ _ _ _ (by rw [List.length_set]; exact he_lt)] at hjj
      cases hjj
    · rw [getD_set_ne _ _ _ _ _ (fun hh => hqe hh.symm)] at hjj
      by_cases hqb : q = m.entities.getLastD 0
      · subst hqb
        rw [getD_set_self _ _ _ _ hb_lt] at hjj
        have hjji : jj = i := by
          cases hjj
          rfl
        subst hjji
        constructor
        · rw [List.length_dropLast, List.length_set]
          omega
        · rw [getD_dropLast _ _ _ (by rw [List.length_set]; omega),
            getD_set_self _ _ _ _ hil]
      · rw [getD_set_ne _ _ _ _ _ (fun hh => hqb hh.symm)] at hjj
        have hjj' : m.sparse.getD q none = some jj := by
          cases hmem : m.sparse.getD q none with
          | none => rw [hmem] at hjj; cases hjj
          | some v =>
            rw [hmem] at hjj
            cases hjj
            rfl
        obtain ⟨hjl, hjq⟩ := hInv.s2d q jj hjj'
        have hjni : jj ≠ i := by
          intro hc
          rw [hc, hie] at hjq
          exact hqe hjq.symm
        have hjnl : jj ≠ m.entities.length - 1 := by
          intro hc
          rw [hc, ← hb] at hjq
          exact hqb hjq.symm
        have hjlt : jj < m.entities.length - 1 := by omega
        constructor
        · rw [List.length_dropLast, List.length_set]
          exact hjlt
        · rw [getD_dropLast _ _ _ (by rw [List.length_set]; exact hjlt),
            getD_set_ne _ _ _ _ _ (fun hh => hjni hh.symm)]
          exact hjq

end ComponentManager

/-- C3: for an entity `e` held at dense index `i` of a coherent store,
`Remove(e)` notifies the registry of exactly one removal, shrinks both dense
arrays by one, unmaps `sparse[e]`, and performs swap-and-pop: when `i` is not
the last slot the last dense component and entity are moved into slot `i` and
the moved entity's sparse entry is repointed to `i`; coherence is preserved.
In the concrete scenario (ids 1,2,3 created fresh, components X1=11, X2=12,
X3=13 in dense order), `Remove(1)` leaves dense order X3,X2, unmaps
`sparse[1]`, frees id 1, and the next `CreateEntity` returns 1 again with
`reused_count = 1`. -/
theorem C3_remove_swap_pop {C : Type} [Inhabited C] (m : ComponentManager C)
    (r : ECSManager) (e i : Nat) (hInv : m.Inv)
    (hsp : m.sparse.getD e none = some i) :
    ((m.Remove r e).2 = r.OnComponentRemoved e ∧
     (m.Remove r e).1.components.length = m.components.length - 1 ∧
     (m.Remove r e).1.entities.length = m.entities.length - 1 ∧
     (m.Remove r e).1.sparse.getD e none = none ∧
     (i + 1 < m.entities.length →
       (m.Remove r e).1.components =
         (m.components.set i (m.components.getLastD default)).dropLast ∧
       (m.Remove r e).1.entities =
         (m.entities.set i (m.entities.getLastD 0)).dropLast ∧
       (m.Remove r e).1.sparse.getD (m.entities.getLastD 0) none = some i) ∧
     (i + 1 = m.entities.length →
       (m.Remove r e).1.components = m.components.dropLast ∧
       (m.Remove r e).1.entities = m.entities.dropLast) ∧
     (m.Remove r e).1.Inv) ∧
    (scnE1.1 = 1 ∧ scnE2.1 = 2 ∧ scnE3.1 = 3 ∧
     scnS3.entities = [1, 2, 3] ∧ scnS3.components = [11, 12, 13] ∧
     scnRem.1.entities = [3, 2] ∧ scnRem.1.components = [13, 12] ∧
     scnRem.1.sparse.getD 1 none = none ∧
     scnRem.2.m_freeIDs = [1] ∧
     scnNext.1 = 1 ∧ scnNext.2.GetReusedIDCount = 1) := by
  obtain ⟨hil, hie⟩ := hInv.s2d e i hsp
  obtain ⟨hreg, hlast, hswap⟩ :=
    ComponentManager.Remove_present m r e i hInv hsp
  have he_lt : e < m.sparse.length := by
    have := (hInv.d2s i hil).1
    rwa [hie] at this
  have hb : m.entities.getLastD 0 = m.entities.getD (m.entities.length - 1) 0 :=
    getLastD_eq_getD _ _
  refine ⟨⟨hreg, ?_, ?_, ?_, ?_, ?_, ?_⟩, by decide⟩
  · rcases Nat.lt_or_ge (i + 1) m.entities.length with hc | hc
    · rw [hswap hc]
      show ((m.components.set _ _).dropLast).length = _
      rw [List.length_dropLast, List.length_set]
    · have hc' : i + 1 = m.entities.length := by omega
      rw [hlast hc']
      show (m.components.dropLast).length = _
      rw [List.length_dropLast]
  · rcases Nat.lt_or_ge (i + 1) m.entities.length with hc | hc
    · rw [hswap hc]
      show ((m.entities.set _ _).dropLast).length = _
      rw [List.length_dropLast, List.length_set]
    · have hc' : i + 1 = m.entities.length := by omega
      rw [hlast hc']
      show (m.entities.dropLast).length = _
      rw [List.length_dropLast]
  · rcases Nat.lt_or_ge (i + 1) m.entities.length with hc | hc
    · rw [hswap hc]
      show (((m.sparse.set (m.entities.getLastD 0) (some i)).set e none).getD
        e none) = none
      rw [getD_set_self]
      rw [List.length_set]
      exact he_lt
    · have hc' : i + 1 = m.entities.length := by omega
      rw [hlast hc']
      show ((m.sparse.set e none).getD e none) = none
      rw [getD_set_self _ _ _ _ he_lt]
  · intro hc
    rw [hswap hc]
    have hbe : m.entities.getLastD 0 ≠ e := by
      intro hcc
      rw [hb, ← hie] at hcc
      have := hInv.getD_inj (m.entities.length - 1) i (by omega) hil hcc
      omega
    have hb_lt : m.entities.getLastD 0 < m.sparse.length := by
      rw [hb]
      exact (hInv.d2s (m.entities.length - 1) (by omega)).1
    refine ⟨rfl, rfl, ?_⟩
    show (((m.sparse.set (m.entities.getLastD 0) (some i)).set e none).getD
      (m.entities.getLastD 0) none) = some i
    rw [getD_set_ne _ _ _ _ _ (fun hh => hbe (hh.symm)), getD_set_self _ _ _ _ hb_lt]
  · intro hc
    rw [hlast hc]
    exact ⟨rfl, rfl⟩
  · rcases Nat.lt_or_ge (i + 1) m.entities.length with hc | hc
    · rw [hswap hc]
      exact ComponentManager.Inv_remove_swap m e i hInv hsp hc
    · have hc' : i + 1 = m.entities.length := by omega
      rw [hlast hc']
      exact ComponentManager.Inv_remove_last m e i hInv hsp hc'

/-- Witness for C3 at a concrete input: the scenario store (entities 1,2,3)
with entity 2 at dense index 1. -/
theorem C3_remove_swap_pop_witness :
    (scnS3.Inv ∧ scnS3.sparse.getD 2 none = some 1) ∧
    ((scnS3.Remove scnC3.1.2 2).1.entities = [1, 3] ∧
      (scnS3.Remove scnC3.1.2 2).1.Inv) :=
  ⟨⟨by decide, by decide⟩, by
    have h := C3_remove_swap_pop scnS3 scnC3.1.2 2 1 (by decide) (by decide)
    refine ⟨by decide, h.1.2.2.2.2.2.2⟩⟩

namespace ComponentManager

variable {C : Type}

theorem shiftComponentsGo_spec [Inhabited C] (g : Nat) :
    ∀ (cs : List C) (i : Nat), g = cs.length - i → 1 ≤ i →
    (shiftComponentsGo g cs i).length = cs.length ∧
    ∀ j d, (shiftComponentsGo g cs i).getD j d =
      if i - 1 ≤ j ∧ j + 1 < cs.length then cs.getD (j + 1) d
      else cs.getD j d := by
  induction g with
  | zero =>
    intro cs i hg hi
    refine ⟨rfl, fun j d => ?_⟩
    rw [if_neg (by omega)]
    rfl
  | succ g ih =>
    intro cs i hg hi
    have hilen : i < cs.length := by omega
    have hi1 : i - 1 < cs.length := by omega
    simp only [shiftComponentsGo]
    obtain ⟨ihl, ihg⟩ := ih (cs.set (i - 1) (cs.getD i default)) (i + 1)
      (by rw [List.length_set]; omega) (by omega)
    rw [List.length_set] at ihl
    refine ⟨ihl, fun j d => ?_⟩
    rw [ihg j d, List.length_set]
    by_cases h1 : i ≤ j ∧ j + 1 < cs.length
    · rw [if_pos (by omega), if_pos (by omega),
        getD_set_ne _ _ _ _ _ (by omega)]
    · rw [if_neg (by omega)]
      by_cases h2 : j = i - 1
      · subst h2
        rw [getD_set_self _ _ _ _ hi1, if_pos (by omega)]
        rw [getD_eq_getElem _ _ _ hilen,
          show i - 1 + 1 = i from by omega, getD_eq_getElem _ _ _ hilen]
      · rw [getD_set_ne _ _ _ _ _ (by omega)]
        by_cases h3 : i - 1 ≤ j ∧ j + 1 < cs.length
        · exfalso
          omega
        · rw [if_neg h3]

theorem shiftEntitiesGo_spec (g : Nat) :
    ∀ (es : List Nat) (sp : List (Option Nat)) (i : Nat),
    g = es.length - i → 1 ≤ i →
    (∀ a b, i ≤ a → a < es.length → i ≤ b → b < es.length →
      es.getD a 0 = es.getD b 0 → a = b) →
    (shiftEntitiesGo g es sp i).1.length = es.length ∧
    (shiftEntitiesGo g es sp i).2.length = sp.length ∧
    (∀ j d, (shiftEntitiesGo g es sp i).1.getD j d =
      if i - 1 ≤ j ∧ j + 1 < es.length then es.getD (j + 1) d
      else es.getD j d) ∧
    (∀ q, (∀ t, i ≤ t → t < es.length → es.getD t 0 ≠ q) →
      (shiftEntitiesGo g es sp i).2.getD q none = sp.getD q none) ∧
    (∀ t, i ≤ t → t < es.length → es.getD t 0 < sp.length →
      (shiftEntitiesGo g es sp i).2.getD (es.getD t 0) none =
        some (t - 1)) := by
  induction g with
  | zero =>
    intro es sp i hg hi _inj
    refine ⟨rfl, rfl, fun j d => ?_, fun q _ => rfl, fun t ht1 ht2 _ => ?_⟩
    · rw [if_neg (by omega)]
      rfl
    · omega
  | succ g ih =>
    intro es sp i hg hi inj
    have hilen : i < es.length := by omega
    have hi1 : i - 1 < es.length := by omega
    have hmv : (es.set (i - 1) (es.getD i 0)).getD (i - 1) 0 = es.getD i 0 :=
      getD_set_self _ _ _ _ hi1
    have hlen' : (es.set (i - 1) (es.getD i 0)).length = es.length :=
      List.length_set _ _ _
    have hes' : ∀ t, i ≤ t →
        (es.set (i - 1) (es.getD i 0)).getD t 0 = es.getD t 0 := by
      intro t ht
      exact getD_set_ne _ _ _ _ _ (by omega)
    simp only [shiftEntitiesGo]
    rw [hmv]
    set sp' := if es.getD i 0 < sp.length
      then sp.set (es.getD i 0) (some (i - 1)) else sp with hsp'
    have hsplen : sp'.length = sp.length := by
      rw [hsp']
      split
      · rw [List.length_set]
      · rfl
    obtain ⟨ih1, ih2, ih3, ih4, ih5⟩ := ih (es.set (i - 1) (es.getD i 0)) sp'
      (i + 1) (by rw [hlen']; omega) (by omega)
      (by
        intro a b ha1 ha2 hb1 hb2 heq
        rw [hlen'] at ha2 hb2
        rw [hes' a (by omega), hes' b (by omega)] at heq
        exact inj a b (by omega) ha2 (by omega) hb2 heq)
    rw [hlen'] at ih1 ih3
    rw [hsplen] at ih2
    refine ⟨ih1, ih2, fun j d => ?_, fun q hq => ?_, fun t ht1 ht2 ht3 => ?_⟩
    · rw [ih3 j d]
      by_cases h1 : i ≤ j ∧ j + 1 < es.length
      · rw [if_pos (by omega), if_pos (by omega),
          getD_set_ne _ _ _ _ _ (by omega)]
      · rw [if_neg (by omega)]
        by_cases h2 : j = i - 1
        · subst h2
          rw [getD_set_self _ _ _ _ hi1, if_pos (by omega)]
          rw [getD_eq_getElem _ _ _ hilen,
            show i - 1 + 1 = i from by omega, getD_eq_getElem _ _ _ hilen]
        · rw [getD_set_ne _ _ _ _ _ (by omega)]
          by_cases h3 : i - 1 ≤ j ∧ j + 1 < es.length
          · exfalso
            omega
          · rw [if_neg h3]
    · have hq' : ∀ t, i + 1 ≤ t → t < es.length →
          (es.set (i - 1) (es.getD i 0)).getD t 0 ≠ q := by
        intro t ht1 ht2
        rw [hes' t (by omega)]
        exact hq t (by omega) ht2
      rw [ih4 q (by
        intro t ht1 ht2
        rw [hlen'] at ht2
        exact hq' t ht1 ht2)]
      rw [hsp']
      split
      · rw [getD_set_ne _ _ _ _ _ (fun hh => hq i (le_refl i) hilen hh)]
      · rfl
    · by_cases hti : t = i
      · rw [hti] at ht2 ht3 ⊢
        rw [ih4 (es.getD i 0) (by
          intro u hu1 hu2
          rw [hlen'] at hu2
          rw [hes' u (by omega)]
          intro hc
          have := inj u i (by omega) hu2 (by omega) hilen hc
          omega)]
        rw [hsp', if_pos ht3, getD_set_self _ _ _ _ ht3]
      · have h5 := ih5 t (by omega) (by rw [hlen']; exact ht2)
        rw [hes' t (by omega)] at h5
        exact h5 (by rw [hsplen]; exact ht3)

end ComponentManager

namespace ComponentManager

variable {C : Type}

theorem shiftComponentsLoop_spec [Inhabited C] (cs : List C) (i : Nat)
    (hi : 1 ≤ i) :
    (shiftComponentsLoop cs i).length = cs.length ∧
    ∀ j d, (shiftComponentsLoop cs i).getD j d =
      if i - 1 ≤ j ∧ j + 1 < cs.length then cs.getD (j + 1) d
      else cs.getD j d :=
  shiftComponentsGo_spec _ cs i rfl hi

theorem shiftEntitiesLoop_spec (es : List Nat) (sp : List (Option Nat))
    (i : Nat) (hi : 1 ≤ i)
    (inj : ∀ a b, i ≤ a → a < es.length → i ≤ b → b < es.length →
      es.getD a 0 = es.getD b 0 → a = b) :
    (shiftEntitiesLoop es sp i).1.length = es.length ∧
    (shiftEntitiesLoop es sp i).2.length = sp.length ∧
    (∀ j d, (shiftEntitiesLoop es sp i).1.getD j d =
      if i - 1 ≤ j ∧ j + 1 < es.length then es.getD (j + 1) d
      else es.getD j d) ∧
    (∀ q, (∀ t, i ≤ t → t < es.length → es.getD t 0 ≠ q) →
      (shiftEntitiesLoop es sp i).2.getD q none = sp.getD q none) ∧
    (∀ t, i ≤ t → t < es.length → es.getD t 0 < sp.length →
      (shiftEntitiesLoop es sp i).2.getD (es.getD t 0) none =
        some (t - 1)) :=
  shiftEntitiesGo_spec _ es sp i rfl hi inj

theorem RemoveKS_eq [Inhabited C] (m : ComponentManager C) (r : ECSManager)
    (e i : Nat) (hInv : m.Inv) (hsp : m.sparse.getD e none = some i) :
    (m.Remove_KeepSorted r e).2 = r.OnComponentRemoved e ∧
    (i + 1 = m.entities.length →
      (m.Remove_KeepSorted r e).1 =
        ⟨m.components.dropLast, m.entities.dropLast, m.sparse.set e none⟩) ∧
    (i + 1 < m.entities.length →
      (m.Remove_KeepSorted r e).1 =
        ⟨(shiftComponentsLoop m.components (i + 1)).dropLast,
         ((shiftEntitiesLoop m.entities m.sparse (i + 1)).1).dropLast,
         ((shiftEntitiesLoop m.entities m.sparse (i + 1)).2).set e none⟩) := by
  obtain ⟨hil, hie⟩ := hInv.s2d e i hsp
  have he_lt : e < m.sparse.length := by
    have := (hInv.d2s i hil).1
    rwa [hie] at this
  have hguard : e < m.sparse.length ∧ (m.sparse.getD e none).isSome := by
    refine ⟨he_lt, ?_⟩
    rw [hsp]
    rfl
  unfold Remove_KeepSorted
  rw [if_pos hguard]
  simp only [hsp, Option.getD_some, hie]
  refine ⟨trivial, ?_, ?_⟩
  · intro hlast
    have hcond : ¬(i < m.components.length - 1) := by
      rw [hInv.len_eq]
      omega
    rw [if_neg hcond, if_pos he_lt]
  · intro hlt
    have hcond : i < m.components.length - 1 := by
      rw [hInv.len_eq]
      omega
    rw [if_pos hcond]
    have hsplen : (shiftEntitiesLoop m.entities m.sparse (i + 1)).2.length =
        m.sparse.length :=
      (shiftEntitiesLoop_spec m.entities m.sparse (i + 1) (by omega)
        (fun a b ha1 ha2 hb1 hb2 heq =>
          hInv.getD_inj a b ha2 hb2 heq)).2.1
    show (⟨(shiftComponentsLoop m.components (i + 1)).dropLast,
      ((shiftEntitiesLoop m.entities m.sparse (i + 1)).1).dropLast,
      if e < (shiftEntitiesLoop m.entities m.sparse (i + 1)).2.length then
        ((shiftEntitiesLoop m.entities m.sparse (i + 1)).2).set e none
      else (shiftEntitiesLoop m.entities m.sparse (i + 1)).2⟩ :
        ComponentManager C) = _
    rw [if_pos (by rw [hsplen]; exact he_lt)]

theorem Inv_of_erase (m : ComponentManager C) (e i : Nat)
    (m' : ComponentManager C) (hInv : m.Inv)
    (hsp : m.sparse.getD e none = some i)
    (hcm : m'.components = m.components.eraseIdx i)
    (hen : m'.entities = m.entities.eraseIdx i)
    (hl : m'.sparse.length = m.sparse.length)
    (he : m'.sparse.getD e none = none)
    (hw : ∀ j, i ≤ j → j + 1 < m.entities.length →
      m'.sparse.getD (m.entities.getD (j + 1) 0) none = some j)
    (hu : ∀ q, q ≠ e →
      (∀ t, i + 1 ≤ t → t < m.entities.length → m.entities.getD t 0 ≠ q) →
      m'.sparse.getD q none = m.sparse.getD q none) :
    m'.Inv := by
  obtain ⟨hil, hie⟩ := hInv.s2d e i hsp
  have hclen : m.components.length = m.entities.length := hInv.len_eq
  refine ⟨?_, ?_, ?_⟩
  · rw [hcm, hen, List.length_eraseIdx_of_lt (by omega),
      List.length_eraseIdx_of_lt hil, hclen]
  · intro j hj
    rw [hen] at hj ⊢
    rw [List.length_eraseIdx_of_lt hil] at hj
    rw [hl]
    rcases Nat.lt_or_ge j i with hji | hji
    · rw [getD_eraseIdx_lt _ _ _ _ hji]
      have hxe : m.entities.getD j 0 ≠ e := by
        intro hcc
        rw [← hie] at hcc
        have := hInv.getD_inj j i (by omega) hil hcc
        omega
      refine ⟨(hInv.d2s j (by omega)).1, ?_⟩
      rw [hu (m.entities.getD j 0) hxe (by
        intro t ht1 ht2 hcc
        have := hInv.getD_inj t j ht2 (by omega) hcc
        omega)]
      exact (hInv.d2s j (by omega)).2
    · rw [getD_eraseIdx_ge _ _ _ _ hji]
      refine ⟨(hInv.d2s (j + 1) (by omega)).1, ?_⟩
      exact hw j hji (by omega)
  · intro q hq jj hjj
    rw [hl] at hq
    by_cases hqe : q = e
    · subst hqe
      rw [he] at hjj
      cases hjj
    · have hjj2 : m'.sparse.getD q none = some jj := by
        cases hmem : m'.sparse.getD q none with
        | none => rw [hmem] at hjj; cases hjj
        | some v =>
          rw [hmem] at hjj
          cases hjj
          rfl
      by_cases hex : ∃ t, i + 1 ≤ t ∧ t < m.entities.length ∧
          m.entities.getD t 0 = q
      · obtain ⟨t, ht1, ht2, ht3⟩ := hex
        have hwt := hw (t - 1) (by omega) (by omega)
        rw [show t - 1 + 1 = t from by omega, ht3, hjj2] at hwt
        have hjjt : jj = t - 1 := by
          cases hwt
          rfl
        subst hjjt
        rw [hen, List.length_eraseIdx_of_lt hil]
        constructor
        · omega
        · rw [getD_eraseIdx_ge _ _ _ _ (by omega),
            show t - 1 + 1 = t from by omega]
          exact ht3
      · push_neg at hex
        rw [hu q hqe (fun t ht1 ht2 => hex t ht1 ht2)] at hjj2
        obtain ⟨hjl, hjq⟩ := hInv.s2d q jj hjj2
        have hjni : jj ≠ i := by
          intro hcc
          rw [hcc, hie] at hjq
          exact hqe hjq.symm
        have hjlt : jj < i := by
          by_contra hcon
          push_neg at hcon
          exact absurd hjq (hex jj (by omega) hjl)
        rw [hen, List.length_eraseIdx_of_lt hil]
        constructor
        · omega
        · rw [getD_eraseIdx_lt _ _ _ _ hjlt]
          exact hjq

theorem removeKS_spec [Inhabited C] (m : ComponentManager C) (r : ECSManager)
    (e i : Nat) (hInv : m.Inv) (hsp : m.sparse.getD e none = some i) :
    (m.Remove_KeepSorted r e).2 = r.OnComponentRemoved e ∧
    (m.Remove_KeepSorted r e).1.components = m.components.eraseIdx i ∧
    (m.Remove_KeepSorted r e).1.entities = m.entities.eraseIdx i ∧
    (m.Remove_KeepSorted r e).1.sparse.length = m.sparse.length ∧
    (m.Remove_KeepSorted r e).1.sparse.getD e none = none ∧
    (∀ j, i ≤ j → j + 1 < m.entities.length →
      (m.Remove_KeepSorted r e).1.sparse.getD (m.entities.getD (j + 1) 0) none
        = some j) ∧
    (∀ q, q ≠ e →
      (∀ t, i + 1 ≤ t → t < m.entities.length → m.entities.getD t 0 ≠ q) →
      (m.Remove_KeepSorted r e).1.sparse.getD q none =
        m.sparse.getD q none) ∧
    (m.Remove_KeepSorted r e).1.Inv := by
  obtain ⟨hil, hie⟩ := hInv.s2d e i hsp
  have he_lt : e < m.sparse.length := by
    have := (hInv.d2s i hil).1
    rwa [hie] at this
  obtain ⟨hreg, hlast, hshift⟩ := RemoveKS_eq m r e i hInv hsp
  have hclen : m.components.length = m.entities.length := hInv.len_eq
  have main : (m.Remove_KeepSorted r e).1.components =
        m.components.eraseIdx i ∧
      (m.Remove_KeepSorted r e).1.entities = m.entities.eraseIdx i ∧
      (m.Remove_KeepSorted r e).1.sparse.length = m.sparse.length ∧
      (m.Remove_KeepSorted r e).1.sparse.getD e none = none ∧
      (∀ j, i ≤ j → j + 1 < m.entities.length →
        (m.Remove_KeepSorted r e).1.sparse.getD
          (m.entities.getD (j + 1) 0) none = some j) ∧
      (∀ q, q ≠ e →
        (∀ t, i + 1 ≤ t → t < m.entities.length →
          m.entities.getD t 0 ≠ q) →
        (m.Remove_KeepSorted r e).1.sparse.getD q none =
          m.sparse.getD q none) := by
    rcases Nat.lt_or_ge (i + 1) m.entities.length with hc | hc
    · obtain ⟨hel, hspl, hev, hspu, hspw⟩ :=
        shiftEntitiesLoop_spec m.entities m.sparse (i + 1) (by omega)
          (fun a b ha1 ha2 hb1 hb2 heq => hInv.getD_inj a b ha2 hb2 heq)
      obtain ⟨hcl, hcv⟩ :=
        shiftComponentsLoop_spec m.components (i + 1) (by omega)
      rw [hshift hc]
      refine ⟨?_, ?_, ?_, ?_, ?_, ?_⟩
      · show (shiftComponentsLoop m.components (i + 1)).dropLast = _
        apply ext_getD _ _ default
        · rw [List.length_dropLast, hcl,
            List.length_eraseIdx_of_lt (by omega)]
        · intro j hj
          rw [List.length_dropLast, hcl] at hj
          rw [getD_dropLast _ _ _ (by rw [hcl]; exact hj), hcv j default]
          rcases Nat.lt_or_ge j i with hji | hji
          · rw [if_neg (by omega), getD_eraseIdx_lt _ _ _ _ hji]
          · rw [if_pos (by omega), getD_eraseIdx_ge _ _ _ _ hji]
      · show ((shiftEntitiesLoop m.entities m.sparse (i + 1)).1).dropLast = _
        apply ext_getD _ _ 0
        · rw [List.length_dropLast, hel,
            List.length_eraseIdx_of_lt (by omega)]
        · intro j hj
          rw [List.length_dropLast, hel] at hj
          rw [getD_dropLast _ _ _ (by rw [hel]; exact hj), hev j 0]
          rcases Nat.lt_or_ge j i with hji | hji
          · rw [if_neg (by omega), getD_eraseIdx_lt _ _ _ _ hji]
          · rw [if_pos (by omega), getD_eraseIdx_ge _ _ _ _ hji]
      · show (((shiftEntitiesLoop m.entities m.sparse (i + 1)).2).set e
          none).length = _
        rw [List.length_set, hspl]
      · show (((shiftEntitiesLoop m.entities m.sparse (i + 1)).2).set e
          none).getD e none = none
        rw [getD_set_self _ _ _ _ (by rw [hspl]; exact he_lt)]
      · intro j hji hjn
        show (((shiftEntitiesLoop m.entities m.sparse (i + 1)).2).set e
          none).getD (m.entities.getD (j + 1) 0) none = some j
        have hne : m.entities.getD (j + 1) 0 ≠ e := by
          intro hcc
          rw [← hie] at hcc
          have := hInv.getD_inj (j + 1) i (by omega) hil hcc
          omega
        rw [getD_set_ne _ _ _ _ _ (fun hh => hne hh.symm)]
        have := hspw (j + 1) (by omega) (by omega)
          ((hInv.d2s (j + 1) (by omega)).1)
        rw [this]
        exact congrArg some (by omega)
      · intro q hqe hqt
        show (((shiftEntitiesLoop m.entities m.sparse (i + 1)).2).set e
          none).getD q none = _
        rw [getD_set_ne _ _ _ _ _ (fun hh => hqe hh.symm)]
        exact hspu q (fun t ht1 ht2 => hqt t ht1 ht2)
    · have hc' : i + 1 = m.entities.length := by omega
      rw [hlast hc']
      refine ⟨?_, ?_, ?_, ?_, ?_, ?_⟩
      · show m.components.dropLast = _
        apply ext_getD _ _ default
        · rw [List.length_dropLast, List.length_eraseIdx_of_lt (by omega)]
        · intro j hj
          rw [List.length_dropLast] at hj
          rw [getD_dropLast _ _ _ (by omega),
            getD_eraseIdx_lt _ _ _ _ (by omega)]
      · show m.entities.dropLast = _
        apply ext_getD _ _ 0
        · rw [List.length_dropLast, List.length_eraseIdx_of_lt (by omega)]
        · intro j hj
          rw [List.length_dropLast] at hj
          rw [getD_dropLast _ _ _ (by omega),
            getD_eraseIdx_lt _ _ _ _ (by omega)]
      · show (m.sparse.set e none).length = _
        rw [List.length_set]
      · show (m.sparse.set e none).getD e none = none
        rw [getD_set_self _ _ _ _ he_lt]
      · intro j hji hjn
        omega
      · intro q hqe _
        show (m.sparse.set e none).getD q none = _
        rw [getD_set_ne _ _ _ _ _ (fun hh => hqe hh.symm)]
  obtain ⟨h1, h2, h3, h4, h5, h6⟩ := main
  exact ⟨hreg, h1, h2, h3, h4, h5, h6,
    Inv_of_erase m e i (m.Remove_KeepSorted r e).1 hInv hsp h1 h2 h3 h4 h5 h6⟩

end ComponentManager

/-- C4: for an entity `e` held at dense index `i` of a coherent store,
`Remove_KeepSorted(e)` removes `e` with the same membership outcome as
`Remove` (the entity is no longer contained), but preserves the relative
order of every other entry: the resulting dense arrays are the originals
with slot `i` deleted and every later element shifted one slot earlier;
`sparse` is repointed for every shifted entity, unshifted entities keep
their slots, the registry is notified of exactly one removal, and coherence
is preserved. -/
theorem C4_remove_keep_sorted {C : Type} [Inhabited C]
    (m : ComponentManager C) (r : ECSManager) (e i : Nat) (hInv : m.Inv)
    (hsp : m.sparse.getD e none = some i) :
    (m.Remove_KeepSorted r e).1.components = m.components.eraseIdx i ∧
    (m.Remove_KeepSorted r e).1.entities = m.entities.eraseIdx i ∧
    (m.Remove_KeepSorted r e).1.Contains e = false ∧
    (∀ j, i ≤ j → j + 1 < m.entities.length →
      (m.Remove_KeepSorted r e).1.sparse.getD
        (m.entities.getD (j + 1) 0) none = some j) ∧
    (∀ j, j < i →
      (m.Remove_KeepSorted r e).1.sparse.getD
        (m.entities.getD j 0) none = some j) ∧
    (m.Remove_KeepSorted r e).2 = r.OnComponentRemoved e ∧
    (m.Remove_KeepSorted r e).1.Inv := by
  obtain ⟨hil, hie⟩ := hInv.s2d e i hsp
  obtain ⟨hreg, hcm, hen, hslen, hse, hw, hu, hinv'⟩ :=
    ComponentManager.removeKS_spec m r e i hInv hsp
  refine ⟨hcm, hen, ?_, hw, ?_, hreg, hinv'⟩
  · exact (ComponentManager.Contains_false_iff _ e).mpr hse
  · intro j hj
    have hxe : m.entities.getD j 0 ≠ e := by
      intro hcc
      rw [← hie] at hcc
      have := hInv.getD_inj j i (by omega) hil hcc
      omega
    rw [hu (m.entities.getD j 0) hxe (by
      intro t ht1 ht2 hcc
      have := hInv.getD_inj t j ht2 (by omega) hcc
      omega)]
    exact (hInv.d2s j (by omega)).2

/-- Witness for C4 at a concrete input: removing entity 1 (dense index 0)
from the three-entity scenario store keeps relative order [2, 3]. -/
theorem C4_remove_keep_sorted_witness :
    (scnS3.Inv ∧ scnS3.sparse.getD 1 none = some 0) ∧
    ((scnS3.Remove_KeepSorted scnC3.1.2 1).1.entities =
        scnS3.entities.eraseIdx 0 ∧
      (scnS3.Remove_KeepSorted scnC3.1.2 1).1.Contains 1 = false ∧
      (scnS3.Remove_KeepSorted scnC3.1.2 1).1.Inv) :=
  ⟨⟨by decide, by decide⟩, by
    have h := C4_remove_keep_sorted scnS3 scnC3.1.2 1 0 (by decide) (by decide)
    exact ⟨h.2.1, h.2.2.1, h.2.2.2.2.2.2⟩⟩

namespace ComponentManager

variable {C : Type}

theorem Inv.nodup {m : ComponentManager C} (h : m.Inv) : m.entities.Nodup := by
  rw [List.nodup_iff_injective_get]
  rintro ⟨a, ha⟩ ⟨b, hb⟩ heq
  have ha' : m.entities.get ⟨a, ha⟩ = m.entities.getD a 0 := by
    rw [getD_eq_getElem _ _ _ ha]
    rfl
  have hb' : m.entities.get ⟨b, hb⟩ = m.entities.getD b 0 := by
    rw [getD_eq_getElem _ _ _ hb]
    rfl
  have : m.entities.getD a 0 = m.entities.getD b 0 := by
    rw [← ha', ← hb', heq]
  have := h.getD_inj a b ha hb this
  exact Fin.ext this

theorem Inv_pushEntry [Inhabited C] (m : ComponentManager C) (e : Nat) (c : C)
    (hInv : m.Inv) (habs : m.Contains e = false) :
    (m.pushEntry e c).Inv := by
  have hnone : m.sparse.getD e none = none :=
    (Contains_false_iff m e).mp habs
  refine ⟨?_, ?_, ?_⟩
  · rw [pushEntry_components, pushEntry_entities]
    simp [hInv.len_eq]
  · intro j hj
    rw [pushEntry_entities, List.length_append, List.length_cons,
      List.length_nil] at hj
    rw [pushEntry_entities]
    rcases Nat.lt_or_ge j m.entities.length with hjl | hjl
    · rw [getD_append_lt _ _ _ _ hjl]
      obtain ⟨hx1, hx2⟩ := hInv.d2s j hjl
      have hxe : m.entities.getD j 0 ≠ e := by
        intro hcc
        rw [hcc, hnone] at hx2
        cases hx2
      refine ⟨?_, ?_⟩
      · exact Nat.lt_of_lt_of_le hx1 (sparse_length_le_pushEntry m e c)
      · rw [pushEntry_sparse_other_lt m e c _ hxe hx1]
        exact hx2
    · have hje : j = m.entities.length := by omega
      subst hje
      rw [getD_append_ge _ _ _ _ (le_refl _), Nat.sub_self]
      show e < (m.pushEntry e c).sparse.length ∧
        (m.pushEntry e c).sparse.getD e none = some m.entities.length
      refine ⟨lt_pushEntry_sparse_length m e c, ?_⟩
      rw [pushEntry_sparse_self, hInv.len_eq]
  · intro q hq j hj
    rw [pushEntry_entities]
    by_cases hqe : q = e
    · rw [hqe, pushEntry_sparse_self] at hj
      have hjc : j = m.components.length := by
        cases hj
        rfl
      constructor
      · rw [hjc, List.length_append, List.length_cons, List.length_nil,
          hInv.len_eq]
        omega
      · rw [hjc, hqe, hInv.len_eq, getD_append_ge _ _ _ _ (le_refl _),
          Nat.sub_self]
        rfl
    · rcases Nat.lt_or_ge q m.sparse.length with hql | hql
      · rw [pushEntry_sparse_other_lt m e c _ hqe hql] at hj
        have hj' : m.sparse.getD q none = some j := by
          cases hmem : m.sparse.getD q none with
          | none => rw [hmem] at hj; cases hj
          | some v =>
            rw [hmem] at hj
            cases hj
            rfl
        obtain ⟨hjl, hjq⟩ := hInv.s2d q j hj'
        rw [List.length_append, List.length_cons, List.length_nil]
        refine ⟨by omega, ?_⟩
        rw [getD_append_lt _ _ _ _ hjl]
        exact hjq
      · rw [pushEntry_sparse_other_ge m e c _ hqe hql] at hj
        cases hj

theorem Contains_pushEntry (m : ComponentManager C) (e : Nat) (c : C)
    (x : Nat) :
    ((m.pushEntry e c).Contains x = true) ↔
      (x = e ∨ m.Contains x = true) := by
  rw [Contains_true_iff, Contains_true_iff]
  constructor
  · intro h
    by_cases hxe : x = e
    · exact Or.inl hxe
    · rcases Nat.lt_or_ge x m.sparse.length with hxl | hxl
      · rw [pushEntry_sparse_other_lt m e c _ hxe hxl] at h
        exact Or.inr h
      · rw [pushEntry_sparse_other_ge m e c _ hxe hxl] at h
        cases h
  · intro h
    rcases h with rfl | h
    · rw [pushEntry_sparse_self]
      rfl
    · by_cases hxe : x = e
      · subst hxe
        rw [pushEntry_sparse_self]
        rfl
      · rcases Nat.lt_or_ge x m.sparse.length with hxl | hxl
        · rw [pushEntry_sparse_other_lt m e c _ hxe hxl]
          exact h
        · rw [getD_oob _ _ _ hxl] at h
          cases h

theorem Inv_growSparse (m : ComponentManager C) (L : Nat)
    (hL : m.sparse.length ≤ L) (hInv : m.Inv) :
    Inv (⟨m.components, m.entities, vecResize m.sparse L none⟩ :
      ComponentManager C) := by
  refine ⟨hInv.len_eq, ?_, ?_⟩
  · intro j hj
    obtain ⟨hx1, hx2⟩ := hInv.d2s j hj
    show m.entities.getD j 0 < (vecResize m.sparse L none).length ∧ _
    rw [length_vecResize, getD_vecResize_grow _ _ _ _ _ hL, if_pos hx1]
    exact ⟨by omega, hx2⟩
  · intro q hq j hj
    show j < m.entities.length ∧ m.entities.getD j 0 = q
    rw [show (⟨m.components, m.entities, vecResize m.sparse L none⟩ :
      ComponentManager C).sparse = vecResize m.sparse L none from rfl,
      getD_vecResize_grow _ _ _ _ _ hL] at hj
    rcases Nat.lt_or_ge q m.sparse.length with hql | hql
    · rw [if_pos hql] at hj
      have hj' : m.sparse.getD q none = some j := by
        cases hmem : m.sparse.getD q none with
        | none => rw [hmem] at hj; cases hj
        | some v =>
          rw [hmem] at hj
          cases hj
          rfl
      exact hInv.s2d q j hj'
    · rw [if_neg (by omega)] at hj
      split at hj <;> cases hj

theorem Contains_growSparse (m : ComponentManager C) (L : Nat)
    (hL : m.sparse.length ≤ L) (x : Nat) :
    (⟨m.components, m.entities, vecResize m.sparse L none⟩ :
      ComponentManager C).Contains x = m.Contains x := by
  rcases hc : m.Contains x with _ | _
  · rw [← Bool.not_eq_true]
    intro hcc
    rw [Contains_true_iff] at hcc
    rw [Contains_false_iff] at hc
    show False
    have : (vecResize m.sparse L none).getD x none = none := by
      rw [getD_vecResize_grow _ _ _ _ _ hL]
      rcases Nat.lt_or_ge x m.sparse.length with hxl | hxl
      · rw [if_pos hxl]
        exact hc
      · rw [if_neg (by omega)]
        split <;> rfl
    rw [show (⟨m.components, m.entities, vecResize m.sparse L none⟩ :
      ComponentManager C).sparse.getD x none =
      (vecResize m.sparse L none).getD x none from rfl, this] at hcc
    cases hcc
  · rw [Contains_true_iff] at hc ⊢
    show ((vecResize m.sparse L none).getD x none).isSome
    rw [getD_vecResize_grow _ _ _ _ _ hL]
    have hxl : x < m.sparse.length := by
      by_contra hcon
      push_neg at hcon
      rw [getD_oob _ _ _ hcon] at hc
      cases hc
    rw [if_pos hxl]
    exact hc

end ComponentManager

theorem getD_map_range {α : Type} (n j : Nat) (f : Nat → α) (d : α) :
    ((List.range n).map f).getD j d = if j < n then f j else d := by
  rcases Nat.lt_or_ge j n with h | h
  · rw [if_pos h, getD_eq_getElem _ _ _ (by simp; exact h)]
    simp
  · rw [if_neg (by omega), getD_oob _ _ _ (by simp; omega)]

theorem map_getD_range {α : Type} (l : List α) (d : α) :
    (List.range l.length).map (fun k => l.getD k d) = l := by
  apply ext_getD _ _ d
  · simp
  · intro j hj
    simp only [List.length_map, List.length_range] at hj
    rw [getD_map_range _ _ _ _, if_pos hj]

namespace ComponentManager

variable {C : Type}

theorem mergeGo_spec [Inhabited C] (oes : List Nat) (ocs : List C) (g : Nat) :
    ∀ (m : ComponentManager C) (r : ECSManager) (i : Nat), m.Inv →
    (∀ t, i ≤ t → t < i + g → m.Contains (oes.getD t 0) = false) →
    (∀ a b, i ≤ a → a < i + g → i ≤ b → b < i + g →
      oes.getD a 0 = oes.getD b 0 → a = b) →
    (mergeGo oes ocs g m r i).1.components =
      m.components ++ (List.range g).map (fun k => ocs.getD (i + k) default) ∧
    (mergeGo oes ocs g m r i).1.entities =
      m.entities ++ (List.range g).map (fun k => oes.getD (i + k) 0) ∧
    (mergeGo oes ocs g m r i).1.Inv ∧
    (mergeGo oes ocs g m r i).2 =
      ((List.range g).map (fun k => oes.getD (i + k) 0)).foldl
        ECSManager.OnComponentAdded r := by
  induction g with
  | zero =>
    intro m r i hInv _ _
    refine ⟨by simp [mergeGo], by simp [mergeGo], hInv, by simp [mergeGo]⟩
  | succ g ih =>
    intro m r i hInv hdisj hdist
    have habs : m.Contains (oes.getD i 0) = false :=
      hdisj i (le_refl i) (by omega)
    have hInv' : (m.pushEntry (oes.getD i 0) (ocs.getD i default)).Inv :=
      Inv_pushEntry m _ _ hInv habs
    have hdisj' : ∀ t, i + 1 ≤ t → t < (i + 1) + g →
        (m.pushEntry (oes.getD i 0) (ocs.getD i default)).Contains
          (oes.getD t 0) = false := by
      intro t ht1 ht2
      rw [← Bool.not_eq_true]
      intro hcc
      rcases (Contains_pushEntry m _ _ _).mp hcc with heq | hcon
      · have := hdist t i (by omega) (by omega) (by omega) (by omega) heq
        omega
      · rw [hdisj t (by omega) (by omega)] at hcon
        cases hcon
    have hdist' : ∀ a b, i + 1 ≤ a → a < (i + 1) + g → i + 1 ≤ b →
        b < (i + 1) + g → oes.getD a 0 = oes.getD b 0 → a = b := by
      intro a b ha1 ha2 hb1 hb2 heq
      exact hdist a b (by omega) (by omega) (by omega) (by omega) heq
    obtain ⟨ih1, ih2, ih3, ih4⟩ := ih
      (m.pushEntry (oes.getD i 0) (ocs.getD i default))
      (r.OnComponentAdded (oes.getD i 0)) (i + 1) hInv' hdisj' hdist'
    simp only [mergeGo]
    rw [ih1, ih2, ih4, pushEntry_components, pushEntry_entities]
    refine ⟨?_, ?_, ih3, ?_⟩
    · rw [List.append_assoc, List.range_succ_eq_map, List.map_cons,
        List.map_map, List.singleton_append, Nat.add_zero]
      congr 2
      apply List.map_congr_left
      intro k _
      show ocs.getD (i + 1 + k) default = ocs.getD (i + (k + 1)) default
      congr 1
      omega
    · rw [List.append_assoc, List.range_succ_eq_map, List.map_cons,
        List.map_map, List.singleton_append, Nat.add_zero]
      congr 2
      apply List.map_congr_left
      intro k _
      show oes.getD (i + 1 + k) 0 = oes.getD (i + (k + 1)) 0
      congr 1
      omega
    · rw [List.range_succ_eq_map, List.map_cons, List.map_map]
      show List.foldl _ _ _ = List.foldl _ _ _
      simp only [List.foldl_cons, Nat.add_zero]
      apply congrArg (fun l => List.foldl ECSManager.OnComponentAdded
        (r.OnComponentAdded (oes.getD i 0)) l)
      apply List.map_congr_left
      intro k _
      show oes.getD (i + 1 + k) 0 = oes.getD (i + (k + 1)) 0
      congr 1
      omega

end ComponentManager

/-- C9: the spec's promise that a store "constructed with no arguments"
pre-reserves `DEFAULT_RESERVED_COUNT = 50000` unmapped sparse slots is
delivered only by the constructor taking a defaulted `reservedCount`
argument; the additional parameterless constructor `ComponentManager() {}`
reserves nothing (its `sparse` has zero slots), and its mere presence makes
a no-argument construction ambiguous between the two overloads. -/
theorem C9_default_construction_code_bug :
    (ComponentManager.mkBare Nat).components = [] ∧
    (ComponentManager.mkBare Nat).entities = [] ∧
    (ComponentManager.mkBare Nat).sparse = [] ∧
    (ComponentManager.mkBare Nat).GetSparseCount = 0 ∧
    (ComponentManager.mkReserved Nat DEFAULT_RESERVED_COUNT).components = [] ∧
    (ComponentManager.mkReserved Nat DEFAULT_RESERVED_COUNT).entities = [] ∧
    (ComponentManager.mkReserved Nat DEFAULT_RESERVED_COUNT).sparse =
      List.replicate 50000 none ∧
    DEFAULT_RESERVED_COUNT = 50000 :=
  ⟨rfl, rfl, rfl, rfl, rfl, rfl, rfl, rfl⟩

/-- C2: for `e ≠ 0` not already present, `Create(e)` appends a
default-constructed component and `e` at the end of the dense arrays, sets
`sparse[e]` to the new last dense index, notifies the registry of exactly one
addition, and returns the freshly appended (default) component; when `e` was
out of the sparse table's bounds the table is grown to exactly `e + 5000`
slots with every new slot unmapped. -/
theorem C2_create_spec {C : Type} [Inhabited C] (m : ComponentManager C)
    (r : ECSManager) (e : Nat) (hnz : e ≠ INVALID_ENTITY)
    (habs : m.Contains e = false) :
    ((m.Create r e).1.1.components = m.components ++ [default]) ∧
    ((m.Create r e).1.1.entities = m.entities ++ [e]) ∧
    ((m.Create r e).1.1.sparse.getD e none = some m.components.length) ∧
    ((m.Create r e).2 = default) ∧
    ((m.Create r e).1.2 = r.OnComponentAdded e) ∧
    (e < m.sparse.length →
      (m.Create r e).1.1.sparse.length = m.sparse.length ∧
      ∀ j, j ≠ e →
        (m.Create r e).1.1.sparse.getD j none = m.sparse.getD j none) ∧
    (m.sparse.length ≤ e →
      (m.Create r e).1.1.sparse.length = e + 5000 ∧
      (∀ j, j ≠ e → j < m.sparse.length →
        (m.Create r e).1.1.sparse.getD j none = m.sparse.getD j none) ∧
      (∀ j, j ≠ e → m.sparse.length ≤ j →
        (m.Create r e).1.1.sparse.getD j none = none)) := by
  refine ⟨ComponentManager.pushEntry_components m e default,
    ComponentManager.pushEntry_entities m e default,
    ComponentManager.pushEntry_sparse_self m e default,
    ?_, rfl, ?_, ?_⟩
  · show (m.pushEntry e default).components.getLastD default = default
    rw [ComponentManager.pushEntry_components, getLastD_eq_getD]
    simp only [List.length_append, List.length_cons, List.length_nil]
    rw [getD_append_ge _ _ _ _ (by omega)]
    simp
  · intro hlt
    refine ⟨?_, ?_⟩
    · show (m.pushEntry e default).sparse.length = m.sparse.length
      rw [ComponentManager.pushEntry_sparse_length, if_neg (Nat.not_le.mpr hlt)]
    · intro j hj
      show (m.pushEntry e default).sparse.getD j none = m.sparse.getD j none
      rcases Nat.lt_or_ge j m.sparse.length with hlt' | hge'
      · exact ComponentManager.pushEntry_sparse_other_lt m e default j hj hlt'
      · rw [ComponentManager.pushEntry_sparse_other_ge m e default j hj hge',
          getD_oob _ _ _ hge']
  · intro hge
    refine ⟨?_, fun j hj hlt' => ?_, fun j hj hge' => ?_⟩
    · show (m.pushEntry e default).sparse.length = e + 5000
      rw [ComponentManager.pushEntry_sparse_length, if_pos hge]
    · exact ComponentManager.pushEntry_sparse_other_lt m e default j hj hlt'
    · exact ComponentManager.pushEntry_sparse_other_ge m e default j hj hge'

/-- Witness for C2 at a concrete input (entity 2 in a freshly reserved
store, and entity 9 forcing growth of a 4-slot table to 9 + 5000 slots). -/
theorem C2_create_spec_witness :
    ((3 : Nat) ≠ INVALID_ENTITY ∧
      (ComponentManager.mkReserved Nat 4).Contains 3 = false) ∧
    ((ComponentManager.mkReserved Nat 4).Create ECSManager.fresh 3).1.1.entities
      = [3] ∧
    ((9 : Nat) ≠ INVALID_ENTITY ∧
      (ComponentManager.mkReserved Nat 4).Contains 9 = false) ∧
    ((ComponentManager.mkReserved Nat 4).Create ECSManager.fresh 9).1.1.sparse.length
      = 9 + 5000 := by
  have h3 := C2_create_spec (ComponentManager.mkReserved Nat 4)
    ECSManager.fresh 3 (by decide) (by decide)
  have h9 := C2_create_spec (ComponentManager.mkReserved Nat 4)
    ECSManager.fresh 9 (by decide) (by decide)
  refine ⟨⟨by decide, by decide⟩, ?_, ⟨by decide, by decide⟩, ?_⟩
  · rw [h3.2.1]; rfl
  · exact (h9.2.2.2.2.2.2 (by decide)).1

/-- C8: benign misses are total no-ops: `GetComponent` on an absent entity
returns the null sentinel, `Remove` on an absent entity changes neither the
store nor the registry, and `OnComponentRemoved` for an untracked entity
leaves the registry untouched. -/
theorem C8_benign_misses {C : Type} [Inhabited C] (m : ComponentManager C)
    (r : ECSManager) (e a : Nat) (habs : m.Contains e = false)
    (ha : assocFind? r.m_componentCounts a = none) :
    m.GetComponent e = none ∧ m.Remove r e = (m, r) ∧
    r.OnComponentRemoved a = r := by
  have hguard : ¬(e < m.sparse.length ∧ (m.sparse.getD e none).isSome) := by
    rintro ⟨h1, h2⟩
    rw [(ComponentManager.Contains_false_iff m e).mp habs] at h2
    simp at h2
  refine ⟨?_, ?_, ?_⟩
  · unfold ComponentManager.GetComponent
    rw [if_neg hguard]
  · unfold ComponentManager.Remove
    rw [if_neg hguard]
  · unfold ECSManager.OnComponentRemoved
    rw [ha]

section AssocKit

variable {α β : Type} [DecidableEq α]

theorem assocFind?_assocSet_self (m : List (α × β)) (k : α) (v : β) :
    assocFind? (assocSet m k v) k = some v := by
  induction m with
  | nil => simp [assocSet, assocFind?]
  | cons p rest ih =>
    obtain ⟨k', v'⟩ := p
    by_cases h : k' = k
    · simp [assocSet, assocFind?, h]
    · simp only [assocSet, assocFind?, if_neg h]
      exact ih

theorem assocFind?_assocSet_ne (m : List (α × β)) (k k' : α) (v : β)
    (h : k' ≠ k) : assocFind? (assocSet m k v) k' = assocFind? m k' := by
  have hkk : ¬(k = k') := fun hh => h hh.symm
  induction m with
  | nil =>
    simp only [assocSet, assocFind?]
    rw [if_neg hkk]
  | cons p rest ih =>
    obtain ⟨k₀, v₀⟩ := p
    by_cases h0 : k₀ = k
    · rw [show assocSet ((k₀, v₀) :: rest) k v = (k, v) :: rest from by
        simp [assocSet, h0]]
      simp only [assocFind?]
      rw [if_neg hkk, if_neg (by rw [h0]; exact hkk)]
    · rw [show assocSet ((k₀, v₀) :: rest) k v = (k₀, v₀) :: assocSet rest k v
        from by simp [assocSet, h0]]
      simp only [assocFind?]
      by_cases h1 : k₀ = k'
      · rw [if_pos h1, if_pos h1]
      · rw [if_neg h1, if_neg h1]
        exact ih

theorem assocSet_assocSet (m : List (α × β)) (k : α) (v w : β) :
    assocSet (assocSet m k v) k w = assocSet m k w := by
  induction m with
  | nil => simp [assocSet]
  | cons p rest ih =>
    obtain ⟨k₀, v₀⟩ := p
    by_cases h0 : k₀ = k
    · simp [assocSet, h0]
    · simp only [assocSet, if_neg h0, List.cons.injEq, true_and]
      exact ih

theorem assocErase_assocSet (m : List (α × β)) (k : α) (v : β) :
    assocErase (assocSet m k v) k = assocErase m k := by
  induction m with
  | nil => simp [assocSet, assocErase]
  | cons p rest ih =>
    obtain ⟨k₀, v₀⟩ := p
    by_cases h0 : k₀ = k
    · simp [assocSet, assocErase, h0]
    · simp only [assocSet, assocErase, if_neg h0, List.cons.injEq, true_and]
      exact ih

theorem assocErase_of_find?_none (m : List (α × β)) (k : α)
    (h : assocFind? m k = none) : assocErase m k = m := by
  induction m with
  | nil => rfl
  | cons p rest ih =>
    obtain ⟨k₀, v₀⟩ := p
    simp only [assocFind?] at h
    by_cases h0 : k₀ = k
    · rw [if_pos h0] at h; cases h
    · rw [if_neg h0] at h
      simp only [assocErase, if_neg h0, List.cons.injEq, true_and]
      exact ih h

end AssocKit

theorem createRun_no_free (n : Nat) :
    ∀ r : ECSManager, r.m_freeIDs = [] → r.m_nextID < UINT32_LIMIT →
    (createRun r n).1 =
      (List.range n).map (fun k => (r.m_nextID + k) % UINT32_LIMIT) ∧
    (createRun r n).2 =
      { r with m_nextID := (r.m_nextID + n) % UINT32_LIMIT } := by
  induction n with
  | zero =>
    intro r hf hlt
    refine ⟨rfl, ?_⟩
    show r = _
    rw [Nat.add_zero, Nat.mod_eq_of_lt hlt]
  | succ n ih =>
    intro r hf hlt
    have hstep : r.CreateEntity =
        (r.m_nextID, { r with m_nextID := (r.m_nextID + 1) % UINT32_LIMIT }) := by
      unfold ECSManager.CreateEntity
      rw [hf]
      rfl
    have hpos : (0 : Nat) < UINT32_LIMIT := by norm_num [UINT32_LIMIT]
    obtain ⟨ih1, ih2⟩ := ih { r with m_nextID := (r.m_nextID + 1) % UINT32_LIMIT } hf (Nat.mod_lt _ hpos)
    constructor
    · show r.CreateEntity.1 :: (createRun r.CreateEntity.2 n).1 = _
      rw [hstep]
      show r.m_nextID :: (createRun _ n).1 = _
      rw [ih1, List.range_succ_eq_map, List.map_cons, List.map_map]
      congr 1
      · rw [Nat.add_zero, Nat.mod_eq_of_lt hlt]
      · apply List.map_congr_left
        intro k _
        show ((r.m_nextID + 1) % UINT32_LIMIT + k) % UINT32_LIMIT = _
        rw [Nat.mod_add_mod]
        congr 1
        omega
    · show (createRun r.CreateEntity.2 n).2 = _
      rw [hstep]
      show (createRun _ n).2 = _
      rw [ih2]
      congr 1
      rw [Nat.mod_add_mod]
      congr 1
      omega

theorem createRun_pop_all (l : List Nat) :
    ∀ r : ECSManager, r.m_freeIDs = l → r.m_reusedIDCount < UINT32_LIMIT →
    (createRun r l.length).1 = l.reverse ∧
    (createRun r l.length).2 =
      { r with m_freeIDs := [],
               m_reusedIDCount :=
                 (r.m_reusedIDCount + l.length) % UINT32_LIMIT } := by
  induction l using List.reverseRecOn with
  | nil =>
    intro r hf hlt
    refine ⟨rfl, ?_⟩
    show r = _
    rw [List.length_nil, Nat.add_zero, Nat.mod_eq_of_lt hlt, ← hf]
  | append_singleton l e ih =>
    intro r hf hlt
    have hpos : (0 : Nat) < UINT32_LIMIT := by norm_num [UINT32_LIMIT]
    have hstep : r.CreateEntity =
        (e, { r with m_freeIDs := l, m_reusedIDCount := (r.m_reusedIDCount + 1) % UINT32_LIMIT }) := by
      unfold ECSManager.CreateEntity
      rw [hf]
      simp
    obtain ⟨ih1, ih2⟩ :=
      ih { r with m_freeIDs := l, m_reusedIDCount := (r.m_reusedIDCount + 1) % UINT32_LIMIT } rfl (Nat.mod_lt _ hpos)
    have hlen : (l ++ [e]).length = l.length + 1 := by simp
    constructor
    · rw [hlen]
      show r.CreateEntity.1 :: (createRun r.CreateEntity.2 l.length).1 = _
      rw [hstep]
      show e :: (createRun _ l.length).1 = _
      rw [ih1, List.reverse_append]
      rfl
    · rw [hlen]
      show (createRun r.CreateEntity.2 l.length).2 = _
      rw [hstep]
      show (createRun _ l.length).2 = _
      rw [ih2]
      congr 1
      rw [Nat.mod_add_mod]
      congr 1
      omega

theorem assocSet_eq_of_find? {α β : Type} [DecidableEq α]
    (m : List (α × β)) (k : α) (v : β) (h : assocFind? m k = some v) :
    assocSet m k v = m := by
  induction m with
  | nil => cases h
  | cons p rest ih =>
    obtain ⟨k₀, v₀⟩ := p
    simp only [assocFind?] at h
    by_cases h0 : k₀ = k
    · rw [if_pos h0] at h
      cases h
      simp [assocSet, h0]
    · rw [if_neg h0] at h
      simp only [assocSet, if_neg h0, List.cons.injEq, true_and]
      exact ih h

theorem assocSet_comm {α β : Type} [DecidableEq α]
    (m : List (α × β)) (k k' : α) (v w : β) (u : β)
    (hk : assocFind? m k = some u) (hne : k ≠ k') :
    assocSet (assocSet m k v) k' w = assocSet (assocSet m k' w) k v := by
  induction m with
  | nil => cases hk
  | cons p rest ih =>
    obtain ⟨k₀, v₀⟩ := p
    simp only [assocFind?] at hk
    by_cases h0 : k₀ = k
    · have e1 : assocSet ((k₀, v₀) :: rest) k v = (k, v) :: rest := by
        show (if k₀ = k then (k, v) :: rest else
          (k₀, v₀) :: assocSet rest k v) = _
        rw [if_pos h0]
      have e2 : assocSet ((k, v) :: rest) k' w =
          (k, v) :: assocSet rest k' w := by
        show (if k = k' then (k', w) :: rest else
          (k, v) :: assocSet rest k' w) = _
        rw [if_neg hne]
      have e3 : assocSet ((k₀, v₀) :: rest) k' w =
          (k₀, v₀) :: assocSet rest k' w := by
        show (if k₀ = k' then (k', w) :: rest else
          (k₀, v₀) :: assocSet rest k' w) = _
        rw [if_neg (by rw [h0]; exact hne)]
      have e4 : assocSet ((k₀, v₀) :: assocSet rest k' w) k v =
          (k, v) :: assocSet rest k' w := by
        show (if k₀ = k then (k, v) :: assocSet rest k' w else
          (k₀, v₀) :: assocSet (assocSet rest k' w) k v) = _
        rw [if_pos h0]
      rw [e1, e2, e3, e4]
    · rw [if_neg h0] at hk
      by_cases h1 : k₀ = k'
      · have e1 : assocSet ((k₀, v₀) :: rest) k v =
            (k₀, v₀) :: assocSet rest k v := by
          show (if k₀ = k then (k, v) :: rest else
            (k₀, v₀) :: assocSet rest k v) = _
          rw [if_neg h0]
        have e2 : assocSet ((k₀, v₀) :: assocSet rest k v) k' w =
            (k', w) :: assocSet rest k v := by
          show (if k₀ = k' then (k', w) :: assocSet rest k v else
            (k₀, v₀) :: assocSet (assocSet rest k v) k' w) = _
          rw [if_pos h1]
        have e3 : assocSet ((k₀, v₀) :: rest) k' w = (k', w) :: rest := by
          show (if k₀ = k' then (k', w) :: rest else
            (k₀, v₀) :: assocSet rest k' w) = _
          rw [if_pos h1]
        have e4 : assocSet ((k', w) :: rest) k v =
            (k', w) :: assocSet rest k v := by
          show (if k' = k then (k, v) :: rest else
            (k', w) :: assocSet rest k v) = _
          rw [if_neg (fun hh => hne hh.symm)]
        rw [e1, e2, e3, e4]
      · have e1 : assocSet ((k₀, v₀) :: rest) k v =
            (k₀, v₀) :: assocSet rest k v := by
          show (if k₀ = k then (k, v) :: rest else
            (k₀, v₀) :: assocSet rest k v) = _
          rw [if_neg h0]
        have e2 : assocSet ((k₀, v₀) :: assocSet rest k v) k' w =
            (k₀, v₀) :: assocSet (assocSet rest k v) k' w := by
          show (if k₀ = k' then (k', w) :: assocSet rest k v else
            (k₀, v₀) :: assocSet (assocSet rest k v) k' w) = _
          rw [if_neg h1]
        have e3 : assocSet ((k₀, v₀) :: rest) k' w =
            (k₀, v₀) :: assocSet rest k' w := by
          show (if k₀ = k' then (k', w) :: rest else
            (k₀, v₀) :: assocSet rest k' w) = _
          rw [if_neg h1]
        have e4 : assocSet ((k₀, v₀) :: assocSet rest k' w) k v =
            (k₀, v₀) :: assocSet (assocSet rest k' w) k v := by
          show (if k₀ = k then (k, v) :: assocSet rest k' w else
            (k₀, v₀) :: assocSet (assocSet rest k' w) k v) = _
          rw [if_neg h0]
        rw [e1, e2, e3, e4, ih hk]

theorem remove_comm_addRun (rest : List Nat) :
    ∀ (r : ECSManager) (e : Nat) (d : Nat), e ∉ rest →
    (∀ x ∈ rest, (assocFind? r.m_componentCounts x).isSome) →
    assocFind? r.m_componentCounts e = some d → 2 ≤ d →
    rest.foldl ECSManager.OnComponentAdded (r.OnComponentRemoved e) =
      (rest.foldl ECSManager.OnComponentAdded r).OnComponentRemoved e := by
  induction rest with
  | nil =>
    intro r e d _ _ _ _
    rfl
  | cons x rest' ih =>
    intro r e d hnm hsome hd h2d
    have hxe : x ≠ e := by
      intro hcc
      exact hnm (by rw [hcc]; exact List.mem_cons_self _ _)
    obtain ⟨cx, hcx⟩ := Option.isSome_iff_exists.mp
      (hsome x (List.mem_cons_self _ _))
    have hrem : r.OnComponentRemoved e =
        { r with m_componentCounts := assocSet r.m_componentCounts e (d - 1) } := by
      unfold ECSManager.OnComponentRemoved
      rw [hd]
      show (if d - 1 = 0 then _ else _) = _
      rw [if_neg (by omega)]
    have hfx : assocFind? (assocSet r.m_componentCounts e (d - 1)) x =
        some cx := by
      rw [assocFind?_assocSet_ne _ _ _ _ hxe]
      exact hcx
    have hswap : (r.OnComponentRemoved e).OnComponentAdded x =
        (r.OnComponentAdded x).OnComponentRemoved e := by
      have hadd1 : (r.OnComponentRemoved e).OnComponentAdded x =
          { r with m_componentCounts := assocSet (assocSet r.m_componentCounts e (d - 1)) x (cx + 1) } := by
        rw [hrem]
        unfold ECSManager.OnComponentAdded
        rw [show assocFind? (assocSet r.m_componentCounts e (d - 1)) x = some cx from hfx]
        rfl
      have hadd2 : r.OnComponentAdded x =
          { r with m_componentCounts := assocSet r.m_componentCounts x (cx + 1) } := by
        unfold ECSManager.OnComponentAdded
        rw [hcx]
        rfl
      have hrem2 : ECSManager.OnComponentRemoved
          { r with m_componentCounts := assocSet r.m_componentCounts x (cx + 1) } e =
          { r with m_componentCounts := assocSet (assocSet r.m_componentCounts x (cx + 1)) e (d - 1) } := by
        unfold ECSManager.OnComponentRemoved
        rw [show assocFind? (assocSet r.m_componentCounts x (cx + 1)) e =
          some d from by
            rw [assocFind?_assocSet_ne _ _ _ _ (fun hh => hxe hh.symm)]
            exact hd]
        show (if d - 1 = 0 then _ else _) = _
        rw [if_neg (by omega)]
      rw [hadd1, hadd2, hrem2]
      congr 1
      exact assocSet_comm _ _ _ _ _ _ hd (fun hh => hxe hh.symm)
    show List.foldl _ ((r.OnComponentRemoved e).OnComponentAdded x) rest' = _
    rw [hswap]
    exact ih (r.OnComponentAdded x) e d
      (fun hh => hnm (List.mem_cons_of_mem _ hh))
      (by
        intro y hy
        have hay : r.OnComponentAdded x =
            { r with m_componentCounts := assocSet r.m_componentCounts x (cx + 1) } := by
          unfold ECSManager.OnComponentAdded
          rw [hcx]
          rfl
        rw [hay]
        show (assocFind? (assocSet r.m_componentCounts x (cx + 1)) y).isSome
        by_cases hyx : y = x
        · subst hyx
          rw [assocFind?_assocSet_self]
          rfl
        · rw [assocFind?_assocSet_ne _ _ _ _ hyx]
          exact hsome y (List.mem_cons_of_mem _ hy))
      (by
        have hay : r.OnComponentAdded x =
            { r with m_componentCounts := assocSet r.m_componentCounts x (cx + 1) } := by
          unfold ECSManager.OnComponentAdded
          rw [hcx]
          rfl
        rw [hay]
        show assocFind? (assocSet r.m_componentCounts x (cx + 1)) e = some d
        rw [assocFind?_assocSet_ne _ _ _ _ (fun hh => hxe hh.symm)]
        exact hd)
      h2d

theorem addRun_removeRun_cancel (l : List Nat) :
    ∀ r : ECSManager, l.Nodup →
    (∀ x ∈ l, ∃ c, assocFind? r.m_componentCounts x = some c ∧ 1 ≤ c) →
    l.foldl ECSManager.OnComponentRemoved
      (l.foldl ECSManager.OnComponentAdded r) = r := by
  induction l with
  | nil => intro r _ _; rfl
  | cons e rest ih =>
    intro r hnd hc
    obtain ⟨c, hce, hc1⟩ := hc e (List.mem_cons_self _ _)
    have hnm : e ∉ rest := (List.nodup_cons.mp hnd).1
    have hadd : r.OnComponentAdded e =
        { r with m_componentCounts :=
            assocSet r.m_componentCounts e (c + 1) } := by
      unfold ECSManager.OnComponentAdded
      rw [hce]
      rfl
    show List.foldl ECSManager.OnComponentRemoved
      ((List.foldl ECSManager.OnComponentAdded (r.OnComponentAdded e)
        rest).OnComponentRemoved e) rest = r
    rw [← remove_comm_addRun rest (r.OnComponentAdded e) e (c + 1) hnm
      (by
        intro y hy
        rw [hadd]
        show (assocFind? (assocSet r.m_componentCounts e (c + 1)) y).isSome
        by_cases hye : y = e
        · subst hye
          rw [assocFind?_assocSet_self]
          rfl
        · rw [assocFind?_assocSet_ne _ _ _ _ hye]
          obtain ⟨cy, hcy, _⟩ := hc y (List.mem_cons_of_mem _ hy)
          rw [hcy]
          rfl)
      (by
        rw [hadd]
        show assocFind? (assocSet r.m_componentCounts e (c + 1)) e = _
        rw [assocFind?_assocSet_self])
      (by omega)]
    have hcancel : (r.OnComponentAdded e).OnComponentRemoved e = r := by
      rw [hadd]
      unfold ECSManager.OnComponentRemoved
      rw [show assocFind? (assocSet r.m_componentCounts e (c + 1)) e =
        some (c + 1) from assocFind?_assocSet_self _ _ _]
      show (if c + 1 - 1 = 0 then _ else _) = _
      rw [if_neg (by omega)]
      show ECSManager.mk _ _ _ _ = r
      rw [Nat.add_sub_cancel, assocSet_assocSet,
        assocSet_eq_of_find? _ _ _ hce]
    rw [hcancel]
    exact ih r (List.nodup_cons.mp hnd).2
      (fun y hy => hc y (List.mem_cons_of_mem _ hy))

theorem merge_core {C : Type} [Inhabited C]
    (m0 other : ComponentManager C) (r : ECSManager)
    (h0 : m0.Inv) (ho : other.Inv)
    (hdisj : ∀ e ∈ other.entities, m0.Contains e = false)
    (hcounts : ∀ e ∈ other.entities,
      ∃ c, assocFind? r.m_componentCounts e = some c ∧ 1 ≤ c) :
    (ComponentManager.mergeGo other.entities other.components
        other.components.length m0 r 0).1.components =
      m0.components ++ other.components ∧
    (ComponentManager.mergeGo other.entities other.components
        other.components.length m0 r 0).1.entities =
      m0.entities ++ other.entities ∧
    (ComponentManager.mergeGo other.entities other.components
        other.components.length m0 r 0).1.Inv ∧
    other.entities.foldl ECSManager.OnComponentRemoved
      (ComponentManager.mergeGo other.entities other.components
        other.components.length m0 r 0).2 = r := by
  have hlen : other.components.length = other.entities.length := ho.len_eq
  have hmem : ∀ t, t < other.entities.length →
      other.entities.getD t 0 ∈ other.entities := by
    intro t ht
    exact (mem_iff_getD other.entities _ 0).mpr ⟨t, ht, rfl⟩
  obtain ⟨g1, g2, g3, g4⟩ :=
    ComponentManager.mergeGo_spec other.entities other.components
      other.components.length m0 r 0 h0
      (by
        intro t _ ht2
        exact hdisj _ (hmem t (by omega)))
      (by
        intro a b _ ha2 _ hb2 heq
        exact ho.getD_inj a b (by omega) (by omega) heq)
  have hre : (List.range other.components.length).map
      (fun k => other.entities.getD (0 + k) 0) = other.entities := by
    have hf : (fun k => other.entities.getD (0 + k) 0) =
        (fun k => other.entities.getD k 0) := by
      funext k
      rw [Nat.zero_add]
    rw [hf, hlen, map_getD_range]
  have hrc : (List.range other.components.length).map
      (fun k => other.components.getD (0 + k) default) =
      other.components := by
    have hf : (fun k => other.components.getD (0 + k) default) =
        (fun k => other.components.getD k default) := by
      funext k
      rw [Nat.zero_add]
    rw [hf, map_getD_range]
  refine ⟨by rw [g1, hrc], by rw [g2, hre], g3, ?_⟩
  rw [g4, hre]
  exact addRun_removeRun_cancel other.entities r ho.nodup hcounts

/-- C6: `Merge(A, B)` on stores with disjoint entity sets leaves `A` holding
`A`'s original dense entries followed by `B`'s in `B`'s dense order, with the
sparse/dense invariant intact; `B` ends empty (dense arrays empty, every
sparse slot unmapped); and the registry comes back literally unchanged: every
merged entity's component count after the merge equals its value before, and
since each merged id enters via `OnComponentAdded` before `B.Clear`'s
`OnComponentRemoved`, its count never reaches zero mid-merge, so no merged id
is pushed to the free list (the free list is unchanged). -/
theorem C6_merge {C : Type} [Inhabited C]
    (m other : ComponentManager C) (r : ECSManager)
    (hm : m.Inv) (ho : other.Inv)
    (hdisj : ∀ e ∈ other.entities, m.Contains e = false)
    (hcounts : ∀ e ∈ other.entities,
      1 ≤ (assocFind? r.m_componentCounts e).getD 0) :
    (m.Merge other r).1.1.components = m.components ++ other.components ∧
    (m.Merge other r).1.1.entities = m.entities ++ other.entities ∧
    (m.Merge other r).1.1.Inv ∧
    (m.Merge other r).1.2.components = [] ∧
    (m.Merge other r).1.2.entities = [] ∧
    (∀ q, (m.Merge other r).1.2.sparse.getD q none = none) ∧
    (m.Merge other r).2 = r := by
  have hcounts' : ∀ e ∈ other.entities,
      ∃ c, assocFind? r.m_componentCounts e = some c ∧ 1 ≤ c := by
    intro e he
    have h1 := hcounts e he
    cases hfe : assocFind? r.m_componentCounts e with
    | none =>
      rw [hfe] at h1
      simp at h1
    | some c =>
      rw [hfe] at h1
      exact ⟨c, rfl, h1⟩
  have hsp : ∀ q, (List.replicate other.sparse.length
      (none : Option Nat)).getD q none = none := by
    intro q
    rcases Nat.lt_or_ge q other.sparse.length with hq | hq
    · exact getD_replicate _ _ _ _ hq
    · exact getD_oob _ _ _ (by rw [List.length_replicate]; omega)
  by_cases hgrow : m.sparse.length < other.sparse.length
  · have h0 : (⟨m.components, m.entities,
        vecResize m.sparse (other.sparse.length + 5000) none⟩ :
        ComponentManager C).Inv :=
      ComponentManager.Inv_growSparse m (other.sparse.length + 5000)
        (by omega) hm
    have hc0 : ∀ e ∈ other.entities,
        ComponentManager.Contains (⟨m.components, m.entities,
          vecResize m.sparse (other.sparse.length + 5000) none⟩ :
          ComponentManager C) e = false := by
      intro e he
      rw [ComponentManager.Contains_growSparse m _ (by omega)]
      exact hdisj e he
    obtain ⟨k1, k2, k3, k4⟩ := merge_core
      (⟨m.components, m.entities,
        vecResize m.sparse (other.sparse.length + 5000) none⟩ :
        ComponentManager C) other r h0 ho hc0 hcounts'
    simp only [ComponentManager.Merge, ComponentManager.mergeLoop,
      ComponentManager.Clear, if_pos hgrow, Nat.sub_zero]
    exact ⟨k1, k2, k3, trivial, trivial, hsp, k4⟩
  · have hmm : (⟨m.components, m.entities, m.sparse⟩ :
        ComponentManager C) = m := rfl
    obtain ⟨k1, k2, k3, k4⟩ := merge_core m other r hm ho hdisj hcounts'
    simp only [ComponentManager.Merge, ComponentManager.mergeLoop,
      ComponentManager.Clear, if_neg hgrow, Nat.sub_zero]
    rw [hmm]
    exact ⟨k1, k2, k3, trivial, trivial, hsp, k4⟩

theorem C6_merge_witness :
    ((⟨[10, 20], [1, 2], [none, some 0, some 1]⟩ :
        ComponentManager Nat).Inv ∧
     (⟨[30], [3], [none, none, none, some 0]⟩ :
        ComponentManager Nat).Inv ∧
     (∀ e ∈ (⟨[30], [3], [none, none, none, some 0]⟩ :
        ComponentManager Nat).entities,
       (⟨[10, 20], [1, 2], [none, some 0, some 1]⟩ :
        ComponentManager Nat).Contains e = false) ∧
     (∀ e ∈ (⟨[30], [3], [none, none, none, some 0]⟩ :
        ComponentManager Nat).entities,
       1 ≤ (assocFind? (⟨[], 4, [(1, 1), (2, 1), (3, 1)], 0⟩ :
         ECSManager).m_componentCounts e).getD 0)) ∧
    (((⟨[10, 20], [1, 2], [none, some 0, some 1]⟩ :
        ComponentManager Nat).Merge
        (⟨[30], [3], [none, none, none, some 0]⟩ : ComponentManager Nat)
        (⟨[], 4, [(1, 1), (2, 1), (3, 1)], 0⟩ :
          ECSManager)).1.1.components = [10, 20] ++ [30] ∧
     ((⟨[10, 20], [1, 2], [none, some 0, some 1]⟩ :
        ComponentManager Nat).Merge
        (⟨[30], [3], [none, none, none, some 0]⟩ : ComponentManager Nat)
        (⟨[], 4, [(1, 1), (2, 1), (3, 1)], 0⟩ :
          ECSManager)).1.1.entities = [1, 2] ++ [3] ∧
     ((⟨[10, 20], [1, 2], [none, some 0, some 1]⟩ :
        ComponentManager Nat).Merge
        (⟨[30], [3], [none, none, none, some 0]⟩ : ComponentManager Nat)
        (⟨[], 4, [(1, 1), (2, 1), (3, 1)], 0⟩ :
          ECSManager)).1.1.Inv ∧
     ((⟨[10, 20], [1, 2], [none, some 0, some 1]⟩ :
        ComponentManager Nat).Merge
        (⟨[30], [3], [none, none, none, some 0]⟩ : ComponentManager Nat)
        (⟨[], 4, [(1, 1), (2, 1), (3, 1)], 0⟩ :
          ECSManager)).1.2.components = [] ∧
     ((⟨[10, 20], [1, 2], [none, some 0, some 1]⟩ :
        ComponentManager Nat).Merge
        (⟨[30], [3], [none, none, none, some 0]⟩ : ComponentManager Nat)
        (⟨[], 4, [(1, 1), (2, 1), (3, 1)], 0⟩ :
          ECSManager)).1.2.entities = [] ∧
     (∀ q, ((⟨[10, 20], [1, 2], [none, some 0, some 1]⟩ :
        ComponentManager Nat).Merge
        (⟨[30], [3], [none, none, none, some 0]⟩ : ComponentManager Nat)
        (⟨[], 4, [(1, 1), (2, 1), (3, 1)], 0⟩ :
          ECSManager)).1.2.sparse.getD q none = none) ∧
     ((⟨[10, 20], [1, 2], [none, some 0, some 1]⟩ :
        ComponentManager Nat).Merge
        (⟨[30], [3], [none, none, none, some 0]⟩ : ComponentManager Nat)
        (⟨[], 4, [(1, 1), (2, 1), (3, 1)], 0⟩ :
          ECSManager)).2 =
       (⟨[], 4, [(1, 1), (2, 1), (3, 1)], 0⟩ : ECSManager)) :=
  ⟨⟨by decide, by decide, by decide, by decide⟩,
   C6_merge
     (⟨[10, 20], [1, 2], [none, some 0, some 1]⟩ : ComponentManager Nat)
     (⟨[30], [3], [none, none, none, some 0]⟩ : ComponentManager Nat)
     (⟨[], 4, [(1, 1), (2, 1), (3, 1)], 0⟩ : ECSManager)
     (by decide) (by decide) (by decide) (by decide)⟩

theorem flatten_map_singleton (l : List Nat) :
    (l.map SerializeEntityWrite).flatten = l := by
  induction l with
  | nil => rfl
  | cons e l' ih =>
    rw [List.map_cons, List.flatten_cons]
    show e :: (l'.map SerializeEntityWrite).flatten = e :: l'
    rw [ih]

theorem readComponents_spec {C : Type} (cs : ComponentSerializer C)
    (hdec : ∀ (c : C) (rs : Archive), cs.decode (cs.encode c ++ rs) = (c, rs)) :
    ∀ (l : List C) (tail : Archive),
    ComponentManager.readComponents cs l.length
      ((l.map cs.encode).flatten ++ tail) = (l, tail) := by
  intro l
  induction l with
  | nil => intro tail; rfl
  | cons c l' ih =>
    intro tail
    rw [List.map_cons, List.flatten_cons, List.append_assoc]
    show ((cs.decode (cs.encode c ++ ((l'.map cs.encode).flatten ++ tail))).1 ::
        (ComponentManager.readComponents cs l'.length
          (cs.decode (cs.encode c ++
            ((l'.map cs.encode).flatten ++ tail))).2).1,
      (ComponentManager.readComponents cs l'.length
        (cs.decode (cs.encode c ++
          ((l'.map cs.encode).flatten ++ tail))).2).2) = (c :: l', tail)
    rw [hdec]
    show (c :: (ComponentManager.readComponents cs l'.length
        ((l'.map cs.encode).flatten ++ tail)).1,
      (ComponentManager.readComponents cs l'.length
        ((l'.map cs.encode).flatten ++ tail)).2) = (c :: l', tail)
    rw [ih]

theorem readEntities_spec (seri : EntitySerializer)
    (hmap : seri.allow_remap = false) :
    ∀ (es : List Nat) (r : ECSManager) (tail : Archive) (maxe : Nat),
    (∀ e ∈ es, e < UINT32_LIMIT) →
    (ComponentManager.readEntities r seri (es ++ tail) maxe es.length).1 =
      es ∧
    (ComponentManager.readEntities r seri (es ++ tail) maxe es.length).2.1 =
      es.foldl ECSManager.OnComponentAdded r ∧
    (ComponentManager.readEntities r seri
      (es ++ tail) maxe es.length).2.2.1 = seri ∧
    (ComponentManager.readEntities r seri
      (es ++ tail) maxe es.length).2.2.2.2 = tail := by
  intro es
  induction es with
  | nil =>
    intro r tail maxe _
    exact ⟨rfl, rfl, rfl, rfl⟩
  | cons e es' ih =>
    intro r tail maxe h
    have hee : e % UINT32_LIMIT = e :=
      Nat.mod_eq_of_lt (h e (List.mem_cons_self _ _))
    have hser : SerializeEntityRead r seri ((e :: es') ++ tail) =
        (e, r, seri, es' ++ tail) := by
      unfold SerializeEntityRead
      rw [hmap]
      show (e % UINT32_LIMIT, r, seri, es' ++ tail) = _
      rw [hee]
    obtain ⟨i1, i2, i3, i4⟩ := ih (r.OnComponentAdded e) tail
      (if maxe < e then e else maxe)
      (fun x hx => h x (List.mem_cons_of_mem _ hx))
    have hun : ComponentManager.readEntities r seri ((e :: es') ++ tail)
        maxe (e :: es').length =
        (e :: (ComponentManager.readEntities (r.OnComponentAdded e) seri
          (es' ++ tail) (if maxe < e then e else maxe) es'.length).1,
         (ComponentManager.readEntities (r.OnComponentAdded e) seri
          (es' ++ tail) (if maxe < e then e else maxe) es'.length).2) := by
      show ((SerializeEntityRead r seri ((e :: es') ++ tail)).1 ::
          (ComponentManager.readEntities
            (((SerializeEntityRead r seri ((e :: es') ++ tail)).2.1).OnComponentAdded
              (SerializeEntityRead r seri ((e :: es') ++ tail)).1)
            (SerializeEntityRead r seri ((e :: es') ++ tail)).2.2.1
            (SerializeEntityRead r seri ((e :: es') ++ tail)).2.2.2
            (if maxe < (SerializeEntityRead r seri ((e :: es') ++ tail)).1 then
              (SerializeEntityRead r seri ((e :: es') ++ tail)).1 else maxe)
            es'.length).1,
          (ComponentManager.readEntities
            (((SerializeEntityRead r seri ((e :: es') ++ tail)).2.1).OnComponentAdded
              (SerializeEntityRead r seri ((e :: es') ++ tail)).1)
            (SerializeEntityRead r seri ((e :: es') ++ tail)).2.2.1
            (SerializeEntityRead r seri ((e :: es') ++ tail)).2.2.2
            (if maxe < (SerializeEntityRead r seri ((e :: es') ++ tail)).1 then
              (SerializeEntityRead r seri ((e :: es') ++ tail)).1 else maxe)
            es'.length).2) = _
      rw [hser]
    rw [hun]
    refine ⟨?_, ?_, ?_, ?_⟩
    · show e :: (ComponentManager.readEntities (r.OnComponentAdded e) seri
        (es' ++ tail) (if maxe < e then e else maxe) es'.length).1 = e :: es'
      rw [i1]
    · show (ComponentManager.readEntities (r.OnComponentAdded e) seri
        (es' ++ tail) (if maxe < e then e else maxe) es'.length).2.1 = _
      rw [i2, List.foldl_cons]
    · show (ComponentManager.readEntities (r.OnComponentAdded e) seri
        (es' ++ tail) (if maxe < e then e else maxe) es'.length).2.2.1 = _
      rw [i3]
    · show (ComponentManager.readEntities (r.OnComponentAdded e) seri
        (es' ++ tail) (if maxe < e then e else maxe) es'.length).2.2.2.2 = _
      rw [i4]

/-- C7: round-trip (spec-modelled payload/stream layer). Writing a valid
store with `Serialize` and reading the stream back with `Serialize` into a
store, with remap disabled so stored values cast directly to identity
values, reproduces exactly the same dense component list and the same dense
entity list (the same (entity, payload) pairs in the same dense order),
leaves the serializer state untouched, and consumes exactly the words the
write produced, leaving any trailing stream intact — the reads are type- and
order-symmetric with the writes. -/
theorem C7_serialize_roundtrip {C : Type} [Inhabited C]
    (m mt : ComponentManager C) (r : ECSManager)
    (cs : ComponentSerializer C) (seri : EntitySerializer) (rest : Archive)
    (hm : m.Inv)
    (hdec : ∀ (c : C) (rs : Archive),
      cs.decode (cs.encode c ++ rs) = (c, rs))
    (hmap : seri.allow_remap = false)
    (hent : ∀ e ∈ m.entities, e < UINT32_LIMIT) :
    (ComponentManager.SerializeRead mt r cs seri
      (m.SerializeWrite cs ++ rest)).1.components = m.components ∧
    (ComponentManager.SerializeRead mt r cs seri
      (m.SerializeWrite cs ++ rest)).1.entities = m.entities ∧
    (ComponentManager.SerializeRead mt r cs seri
      (m.SerializeWrite cs ++ rest)).2.2.1 = seri ∧
    (ComponentManager.SerializeRead mt r cs seri
      (m.SerializeWrite cs ++ rest)).2.2.2 = rest := by
  have hlen : m.components.length = m.entities.length := hm.len_eq
  have hflat : (m.entities.map SerializeEntityWrite).flatten = m.entities :=
    flatten_map_singleton _
  have hcomp : ComponentManager.readComponents cs m.components.length
      (((m.components.map cs.encode).flatten ++
        (m.entities.map SerializeEntityWrite).flatten) ++ rest) =
      (m.components, (m.entities.map SerializeEntityWrite).flatten ++ rest) := by
    rw [List.append_assoc]
    exact readComponents_spec cs hdec m.components _
  have hcomp' : ComponentManager.readComponents cs m.components.length
      (((m.components.map cs.encode).flatten ++
        (m.entities.map SerializeEntityWrite).flatten) ++ rest) =
      (m.components, m.entities ++ rest) := by
    rw [hcomp, hflat]
  obtain ⟨e1, e2, e3, e4⟩ := readEntities_spec seri hmap m.entities
    ((mt.Clear r).2) rest 0 hent
  refine ⟨?_, ?_, ?_, ?_⟩
  · show (ComponentManager.readComponents cs m.components.length
      (((m.components.map cs.encode).flatten ++
        (m.entities.map SerializeEntityWrite).flatten) ++ rest)).1 =
      m.components
    rw [hcomp']
  · show (ComponentManager.readEntities ((mt.Clear r).2) seri
      (ComponentManager.readComponents cs m.components.length
        (((m.components.map cs.encode).flatten ++
          (m.entities.map SerializeEntityWrite).flatten) ++ rest)).2 0
      m.components.length).1 = m.entities
    rw [hcomp', hlen]
    exact e1
  · show (ComponentManager.readEntities ((mt.Clear r).2) seri
      (ComponentManager.readComponents cs m.components.length
        (((m.components.map cs.encode).flatten ++
          (m.entities.map SerializeEntityWrite).flatten) ++ rest)).2 0
      m.components.length).2.2.1 = seri
    rw [hcomp', hlen]
    exact e3
  · show (ComponentManager.readEntities ((mt.Clear r).2) seri
      (ComponentManager.readComponents cs m.components.length
        (((m.components.map cs.encode).flatten ++
          (m.entities.map SerializeEntityWrite).flatten) ++ rest)).2 0
      m.components.length).2.2.2.2 = rest
    rw [hcomp', hlen]
    exact e4

theorem C7_serialize_roundtrip_witness :
    ((⟨[10, 20], [1, 2], [none, some 0, some 1]⟩ :
        ComponentManager Nat).Inv ∧
     (∀ (c : Nat) (rs : Archive),
       ComponentSerializer.decode ⟨fun c => [c], fun s => (s.headD 0, s.tail)⟩
         (ComponentSerializer.encode
           (⟨fun c => [c], fun s => (s.headD 0, s.tail)⟩ :
             ComponentSerializer Nat) c ++ rs) = (c, rs)) ∧
     EntitySerializer.allow_remap ⟨[], false⟩ = false ∧
     (∀ e ∈ (⟨[10, 20], [1, 2], [none, some 0, some 1]⟩ :
        ComponentManager Nat).entities, e < UINT32_LIMIT)) ∧
    ((ComponentManager.SerializeRead
        (⟨[], [], []⟩ : ComponentManager Nat)
        (⟨[], 4, [(1, 1), (2, 1)], 0⟩ : ECSManager)
        (⟨fun c => [c], fun s => (s.headD 0, s.tail)⟩ :
          ComponentSerializer Nat)
        (⟨[], false⟩ : EntitySerializer)
        ((⟨[10, 20], [1, 2], [none, some 0, some 1]⟩ :
          ComponentManager Nat).SerializeWrite
          ⟨fun c => [c], fun s => (s.headD 0, s.tail)⟩ ++
         [99])).1.components = [10, 20] ∧
     (ComponentManager.SerializeRead
        (⟨[], [], []⟩ : ComponentManager Nat)
        (⟨[], 4, [(1, 1), (2, 1)], 0⟩ : ECSManager)
        (⟨fun c => [c], fun s => (s.headD 0, s.tail)⟩ :
          ComponentSerializer Nat)
        (⟨[], false⟩ : EntitySerializer)
        ((⟨[10, 20], [1, 2], [none, some 0, some 1]⟩ :
          ComponentManager Nat).SerializeWrite
          ⟨fun c => [c], fun s => (s.headD 0, s.tail)⟩ ++
         [99])).1.entities = [1, 2] ∧
     (ComponentManager.SerializeRead
        (⟨[], [], []⟩ : ComponentManager Nat)
        (⟨[], 4, [(1, 1), (2, 1)], 0⟩ : ECSManager)
        (⟨fun c => [c], fun s => (s.headD 0, s.tail)⟩ :
          ComponentSerializer Nat)
        (⟨[], false⟩ : EntitySerializer)
        ((⟨[10, 20], [1, 2], [none, some 0, some 1]⟩ :
          ComponentManager Nat).SerializeWrite
          ⟨fun c => [c], fun s => (s.headD 0, s.tail)⟩ ++
         [99])).2.2.1 = (⟨[], false⟩ : EntitySerializer) ∧
     (ComponentManager.SerializeRead
        (⟨[], [], []⟩ : ComponentManager Nat)
        (⟨[], 4, [(1, 1), (2, 1)], 0⟩ : ECSManager)
        (⟨fun c => [c], fun s => (s.headD 0, s.tail)⟩ :
          ComponentSerializer Nat)
        (⟨[], false⟩ : EntitySerializer)
        ((⟨[10, 20], [1, 2], [none, some 0, some 1]⟩ :
          ComponentManager Nat).SerializeWrite
          ⟨fun c => [c], fun s => (s.headD 0, s.tail)⟩ ++
         [99])).2.2.2 = [99]) :=
  ⟨⟨by decide, fun c rs => rfl, rfl, by decide⟩,
   C7_serialize_roundtrip
     (⟨[10, 20], [1, 2], [none, some 0, some 1]⟩ : ComponentManager Nat)
     (⟨[], [], []⟩ : ComponentManager Nat)
     (⟨[], 4, [(1, 1), (2, 1)], 0⟩ : ECSManager)
     (⟨fun c => [c], fun s => (s.headD 0, s.tail)⟩ :
       ComponentSerializer Nat)
     (⟨[], false⟩ : EntitySerializer) [99]
     (by decide) (fun c rs => rfl) rfl (by decide)⟩

theorem moveItemGoUp_spec {C : Type} [Inhabited C] (g : Nat) :
    ∀ (cs : List C) (es : List Nat) (sp : List (Option Nat)) (i : Nat),
    i + g < cs.length → i + g < es.length →
    (∀ a b, i ≤ a → a ≤ i + g → i ≤ b → b ≤ i + g →
      es.getD a 0 = es.getD b 0 → a = b) →
    (ComponentManager.moveItemGoUp g cs es sp i).1.length = cs.length ∧
    (ComponentManager.moveItemGoUp g cs es sp i).2.1.length = es.length ∧
    (ComponentManager.moveItemGoUp g cs es sp i).2.2.length = sp.length ∧
    (∀ j d, (ComponentManager.moveItemGoUp g cs es sp i).1.getD j d =
      if i ≤ j ∧ j < i + g then cs.getD (j + 1) d else cs.getD j d) ∧
    (∀ j d, (ComponentManager.moveItemGoUp g cs es sp i).2.1.getD j d =
      if i ≤ j ∧ j < i + g then es.getD (j + 1) d else es.getD j d) ∧
    (∀ q, (∀ t, i + 1 ≤ t → t ≤ i + g → es.getD t 0 ≠ q) →
      (ComponentManager.moveItemGoUp g cs es sp i).2.2.getD q none =
        sp.getD q none) ∧
    (∀ t, i + 1 ≤ t → t ≤ i + g → es.getD t 0 < sp.length →
      (ComponentManager.moveItemGoUp g cs es sp i).2.2.getD
        (es.getD t 0) none = some (t - 1)) := by
  induction g with
  | zero =>
    intro cs es sp i _ _ _
    refine ⟨rfl, rfl, rfl, fun j d => ?_, fun j d => ?_,
      fun q _ => rfl, fun t ht1 ht2 _ => ?_⟩
    · rw [if_neg (by omega)]
      rfl
    · rw [if_neg (by omega)]
      rfl
    · omega
  | succ g ih =>
    intro cs es sp i hc he inj
    have hielen : i < es.length := by omega
    have hiclen : i < cs.length := by omega
    have hi1e : i + 1 < es.length := by omega
    have hi1c : i + 1 < cs.length := by omega
    have hmv : (es.set i (es.getD (i + 1) 0)).getD i 0 = es.getD (i + 1) 0 :=
      getD_set_self _ _ _ _ hielen
    have hlen' : (es.set i (es.getD (i + 1) 0)).length = es.length :=
      List.length_set _ _ _
    have hlenc' : (cs.set i (cs.getD (i + 1) default)).length = cs.length :=
      List.length_set _ _ _
    have hes' : ∀ t, i + 1 ≤ t →
        (es.set i (es.getD (i + 1) 0)).getD t 0 = es.getD t 0 := by
      intro t ht
      exact getD_set_ne _ _ _ _ _ (by omega)
    simp only [ComponentManager.moveItemGoUp]
    rw [hmv]
    set sp' := if es.getD (i + 1) 0 < sp.length
      then sp.set (es.getD (i + 1) 0) (some i) else sp with hsp'
    have hsplen : sp'.length = sp.length := by
      rw [hsp']
      split
      · rw [List.length_set]
      · rfl
    obtain ⟨ih1, ih2, ih3, ih4, ih5, ih6, ih7⟩ := ih
      (cs.set i (cs.getD (i + 1) default))
      (es.set i (es.getD (i + 1) 0)) sp' (i + 1)
      (by rw [hlenc']; omega) (by rw [hlen']; omega)
      (by
        intro a b ha1 ha2 hb1 hb2 heq
        rw [hes' a (by omega), hes' b (by omega)] at heq
        exact inj a b (by omega) (by omega) (by omega) (by omega) heq)
    rw [hlenc'] at ih1
    rw [hlen'] at ih2
    rw [hsplen] at ih3
    refine ⟨ih1, ih2, ih3, fun j d => ?_, fun j d => ?_, fun q hq => ?_,
      fun t ht1 ht2 ht3 => ?_⟩
    · rw [ih4 j d]
      by_cases h1 : i + 1 ≤ j ∧ j < i + 1 + g
      · rw [if_pos h1, if_pos (by omega), getD_set_ne _ _ _ _ _ (by omega)]
      · rw [if_neg h1]
        by_cases h2 : j = i
        · rw [h2, getD_set_self _ _ _ _ hiclen, if_pos (by omega),
            getD_eq_getElem cs (i + 1) default hi1c,
            getD_eq_getElem cs (i + 1) d hi1c]
        · rw [getD_set_ne _ _ _ _ _ (by omega), if_neg (by omega)]
    · rw [ih5 j d]
      by_cases h1 : i + 1 ≤ j ∧ j < i + 1 + g
      · rw [if_pos h1, if_pos (by omega), getD_set_ne _ _ _ _ _ (by omega)]
      · rw [if_neg h1]
        by_cases h2 : j = i
        · rw [h2, getD_set_self _ _ _ _ hielen, if_pos (by omega),
            getD_eq_getElem es (i + 1) 0 hi1e,
            getD_eq_getElem es (i + 1) d hi1e]
        · rw [getD_set_ne _ _ _ _ _ (by omega), if_neg (by omega)]
    · rw [ih6 q (by
        intro t ht1 ht2
        rw [hes' t (by omega)]
        exact hq t (by omega) (by omega))]
      rw [hsp']
      split
      · rw [getD_set_ne _ _ _ _ _
          (fun hh => hq (i + 1) (by omega) (by omega) hh)]
      · rfl
    · by_cases hti : t = i + 1
      · rw [hti] at ht3 ⊢
        rw [ih6 (es.getD (i + 1) 0) (by
          intro u hu1 hu2
          rw [hes' u (by omega)]
          intro hcon
          have := inj u (i + 1) (by omega) (by omega) (by omega) (by omega)
            hcon
          omega)]
        rw [hsp', if_pos ht3, getD_set_self _ _ _ _ ht3]
        exact congrArg some (by omega)
      · have h7 := ih7 t (by omega) (by omega)
          (by rw [hes' t (by omega), hsplen]; exact ht3)
        rw [hes' t (by omega)] at h7
        exact h7

theorem moveItemGoDown_spec {C : Type} [Inhabited C] (g : Nat) :
    ∀ (cs : List C) (es : List Nat) (sp : List (Option Nat)) (i : Nat),
    g ≤ i → i < cs.length → i < es.length →
    (∀ a b, i - g ≤ a → a ≤ i → i - g ≤ b → b ≤ i →
      es.getD a 0 = es.getD b 0 → a = b) →
    (ComponentManager.moveItemGoDown g cs es sp i).1.length = cs.length ∧
    (ComponentManager.moveItemGoDown g cs es sp i).2.1.length = es.length ∧
    (ComponentManager.moveItemGoDown g cs es sp i).2.2.length = sp.length ∧
    (∀ j d, (ComponentManager.moveItemGoDown g cs es sp i).1.getD j d =
      if i - g < j ∧ j ≤ i then cs.getD (j - 1) d else cs.getD j d) ∧
    (∀ j d, (ComponentManager.moveItemGoDown g cs es sp i).2.1.getD j d =
      if i - g < j ∧ j ≤ i then es.getD (j - 1) d else es.getD j d) ∧
    (∀ q, (∀ t, i - g ≤ t → t < i → es.getD t 0 ≠ q) →
      (ComponentManager.moveItemGoDown g cs es sp i).2.2.getD q none =
        sp.getD q none) ∧
    (∀ t, i - g ≤ t → t < i → es.getD t 0 < sp.length →
      (ComponentManager.moveItemGoDown g cs es sp i).2.2.getD
        (es.getD t 0) none = some (t + 1)) := by
  induction g with
  | zero =>
    intro cs es sp i _ _ _ _
    refine ⟨rfl, rfl, rfl, fun j d => ?_, fun j d => ?_,
      fun q _ => rfl, fun t ht1 ht2 _ => ?_⟩
    · rw [if_neg (by omega)]
      rfl
    · rw [if_neg (by omega)]
      rfl
    · omega
  | succ g ih =>
    intro cs es sp i hgi hc he inj
    have hi1 : 1 ≤ i := by omega
    have hi1e : i - 1 < es.length := by omega
    have hi1c : i - 1 < cs.length := by omega
    have hmv : (es.set i (es.getD (i - 1) 0)).getD i 0 = es.getD (i - 1) 0 :=
      getD_set_self _ _ _ _ he
    have hlen' : (es.set i (es.getD (i - 1) 0)).length = es.length :=
      List.length_set _ _ _
    have hlenc' : (cs.set i (cs.getD (i - 1) default)).length = cs.length :=
      List.length_set _ _ _
    have hes' : ∀ t, t < i →
        (es.set i (es.getD (i - 1) 0)).getD t 0 = es.getD t 0 := by
      intro t ht
      exact getD_set_ne _ _ _ _ _ (by omega)
    simp only [ComponentManager.moveItemGoDown]
    rw [hmv]
    set sp' := if es.getD (i - 1) 0 < sp.length
      then sp.set (es.getD (i - 1) 0) (some i) else sp with hsp'
    have hsplen : sp'.length = sp.length := by
      rw [hsp']
      split
      · rw [List.length_set]
      · rfl
    obtain ⟨ih1, ih2, ih3, ih4, ih5, ih6, ih7⟩ := ih
      (cs.set i (cs.getD (i - 1) default))
      (es.set i (es.getD (i - 1) 0)) sp' (i - 1)
      (by omega) (by rw [hlenc']; omega) (by rw [hlen']; omega)
      (by
        intro a b ha1 ha2 hb1 hb2 heq
        rw [hes' a (by omega), hes' b (by omega)] at heq
        exact inj a b (by omega) (by omega) (by omega) (by omega) heq)
    rw [hlenc'] at ih1
    rw [hlen'] at ih2
    rw [hsplen] at ih3
    refine ⟨ih1, ih2, ih3, fun j d => ?_, fun j d => ?_, fun q hq => ?_,
      fun t ht1 ht2 ht3 => ?_⟩
    · rw [ih4 j d]
      by_cases h1 : i - 1 - g < j ∧ j ≤ i - 1
      · rw [if_pos h1, if_pos (by omega), getD_set_ne _ _ _ _ _ (by omega)]
      · rw [if_neg h1]
        by_cases h2 : j = i
        · rw [h2, getD_set_self _ _ _ _ hc, if_pos (by omega),
            getD_eq_getElem cs (i - 1) default hi1c,
            getD_eq_getElem cs (i - 1) d hi1c]
        · rw [getD_set_ne _ _ _ _ _ (by omega), if_neg (by omega)]
    · rw [ih5 j d]
      by_cases h1 : i - 1 - g < j ∧ j ≤ i - 1
      · rw [if_pos h1, if_pos (by omega), getD_set_ne _ _ _ _ _ (by omega)]
      · rw [if_neg h1]
        by_cases h2 : j = i
        · rw [h2, getD_set_self _ _ _ _ he, if_pos (by omega),
            getD_eq_getElem es (i - 1) 0 hi1e,
            getD_eq_getElem es (i - 1) d hi1e]
        · rw [getD_set_ne _ _ _ _ _ (by omega), if_neg (by omega)]
    · rw [ih6 q (by
        intro t ht1 ht2
        rw [hes' t (by omega)]
        exact hq t (by omega) (by omega))]
      rw [hsp']
      split
      · rw [getD_set_ne _ _ _ _ _
          (fun hh => hq (i - 1) (by omega) (by omega) hh)]
      · rfl
    · by_cases hti : t = i - 1
      · rw [hti] at ht3 ⊢
        rw [ih6 (es.getD (i - 1) 0) (by
          intro u hu1 hu2
          rw [hes' u (by omega)]
          intro hcon
          have := inj u (i - 1) (by omega) (by omega) (by omega) (by omega)
            hcon
          omega)]
        rw [hsp', if_pos ht3, getD_set_self _ _ _ _ ht3]
        exact congrArg some (by omega)
      · have h7 := ih7 t (by omega) (by omega)
          (by rw [hes' t (by omega), hsplen]; exact ht3)
        rw [hes' t (by omega)] at h7
        rw [h7]

theorem MoveItem_spec {C : Type} [Inhabited C] (m : ComponentManager C)
    (f t : Nat) (hInv : m.Inv)
    (hf : f < m.components.length) (ht : t < m.components.length) :
    (m.MoveItem f t).Inv ∧
    (m.MoveItem f t).components.length = m.components.length ∧
    (m.MoveItem f t).entities.length = m.entities.length ∧
    (∀ e ∈ (m.MoveItem f t).entities, e ∈ m.entities) := by
  have hlen := hInv.len_eq
  have hfe : f < m.entities.length := by omega
  have hte : t < m.entities.length := by omega
  by_cases hft : f = t
  · have hid : m.MoveItem f t = m := by
      unfold ComponentManager.MoveItem
      rw [if_pos hft]
    rw [hid]
    exact ⟨hInv, rfl, rfl, fun e he => he⟩
  rcases Nat.lt_or_ge f t with hlt | hge
  · obtain ⟨l1, l2, l3, l4, l5, l6, l7⟩ := moveItemGoUp_spec (t - f)
      m.components m.entities m.sparse f (by omega) (by omega)
      (fun a b ha1 ha2 hb1 hb2 heq =>
        hInv.getD_inj a b (by omega) (by omega) heq)
    have htf : f + (t - f) = t := by omega
    rw [htf] at l4 l5 l6 l7
    have hguard : m.entities.getD f 0 <
        (ComponentManager.moveItemGoUp (t - f) m.components m.entities
          m.sparse f).2.2.length := by
      rw [l3]
      exact (hInv.d2s f hfe).1
    have hR : m.MoveItem f t = ⟨(ComponentManager.moveItemGoUp (t - f)
        m.components m.entities m.sparse f).1.set t
          (m.components.getD f default),
        (ComponentManager.moveItemGoUp (t - f) m.components m.entities
          m.sparse f).2.1.set t (m.entities.getD f 0),
        (ComponentManager.moveItemGoUp (t - f) m.components m.entities
          m.sparse f).2.2.set (m.entities.getD f 0) (some t)⟩ := by
      unfold ComponentManager.MoveItem
      rw [if_neg hft, if_pos hlt]
      show (⟨(ComponentManager.moveItemGoUp (t - f) m.components m.entities
          m.sparse f).1.set t (m.components.getD f default),
        (ComponentManager.moveItemGoUp (t - f) m.components m.entities
          m.sparse f).2.1.set t (m.entities.getD f 0),
        if m.entities.getD f 0 < (ComponentManager.moveItemGoUp (t - f)
            m.components m.entities m.sparse f).2.2.length then
          (ComponentManager.moveItemGoUp (t - f) m.components m.entities
            m.sparse f).2.2.set (m.entities.getD f 0) (some t)
        else (ComponentManager.moveItemGoUp (t - f) m.components m.entities
          m.sparse f).2.2⟩ : ComponentManager C) = _
      rw [if_pos hguard]
    rw [hR]
    have hEL : ((ComponentManager.moveItemGoUp (t - f) m.components
        m.entities m.sparse f).2.1.set t (m.entities.getD f 0)).length =
        m.entities.length := by
      rw [List.length_set, l2]
    have hENT : ∀ j, ((ComponentManager.moveItemGoUp (t - f) m.components
        m.entities m.sparse f).2.1.set t (m.entities.getD f 0)).getD j 0 =
        if f ≤ j ∧ j < t then m.entities.getD (j + 1) 0
        else if j = t then m.entities.getD f 0
        else m.entities.getD j 0 := by
      intro j
      by_cases hjt : j = t
      · rw [hjt, getD_set_self _ _ _ _ (by rw [l2]; omega),
          if_neg (by omega), if_pos rfl]
      · rw [getD_set_ne _ _ _ _ _ (fun hh => hjt hh.symm), l5 j 0]
        by_cases h1 : f ≤ j ∧ j < t
        · rw [if_pos h1, if_pos h1]
        · rw [if_neg h1, if_neg h1, if_neg hjt]
    have hSPlen : ((ComponentManager.moveItemGoUp (t - f) m.components
        m.entities m.sparse f).2.2.set (m.entities.getD f 0)
          (some t)).length = m.sparse.length := by
      rw [List.length_set, l3]
    have hSP1 : ((ComponentManager.moveItemGoUp (t - f) m.components
        m.entities m.sparse f).2.2.set (m.entities.getD f 0)
          (some t)).getD (m.entities.getD f 0) none = some t :=
      getD_set_self _ _ _ _ hguard
    have hSP2 : ∀ u, f + 1 ≤ u → u ≤ t →
        ((ComponentManager.moveItemGoUp (t - f) m.components m.entities
          m.sparse f).2.2.set (m.entities.getD f 0) (some t)).getD
            (m.entities.getD u 0) none = some (u - 1) := by
      intro u hu1 hu2
      rw [getD_set_ne _ _ _ _ _ (fun hh => by
        have := hInv.getD_inj f u hfe (by omega) hh
        omega)]
      exact l7 u hu1 hu2 ((hInv.d2s u (by omega)).1)
    have hSP3 : ∀ q, (∀ u, u < m.entities.length →
        m.entities.getD u 0 ≠ q) →
        ((ComponentManager.moveItemGoUp (t - f) m.components m.entities
          m.sparse f).2.2.set (m.entities.getD f 0) (some t)).getD q none =
        m.sparse.getD q none := by
      intro q hq
      rw [getD_set_ne _ _ _ _ _ (hq f hfe)]
      exact l6 q (fun u hu1 hu2 => hq u (by omega))
    have hSP4 : ∀ u, u < m.entities.length → ¬(f ≤ u ∧ u ≤ t) →
        ((ComponentManager.moveItemGoUp (t - f) m.components m.entities
          m.sparse f).2.2.set (m.entities.getD f 0) (some t)).getD
            (m.entities.getD u 0) none = some u := by
      intro u hu hout
      rw [getD_set_ne _ _ _ _ _ (fun hh => by
        have := hInv.getD_inj f u hfe hu hh
        omega)]
      rw [l6 (m.entities.getD u 0) (fun v hv1 hv2 hcc => by
        have := hInv.getD_inj v u (by omega) hu hcc
        omega)]
      exact (hInv.d2s u hu).2
    refine ⟨⟨?_, ?_, ?_⟩, ?_, ?_, ?_⟩
    · show ((ComponentManager.moveItemGoUp (t - f) m.components m.entities
        m.sparse f).1.set t (m.components.getD f default)).length = _
      rw [List.length_set, l1, hEL, hlen]
    · intro j hj
      rw [hEL] at hj
      show _ < ((ComponentManager.moveItemGoUp (t - f) m.components
        m.entities m.sparse f).2.2.set (m.entities.getD f 0)
          (some t)).length ∧ _
      rw [hENT j, hSPlen]
      by_cases h1 : f ≤ j ∧ j < t
      · rw [if_pos h1]
        refine ⟨(hInv.d2s (j + 1) (by omega)).1, ?_⟩
        rw [hSP2 (j + 1) (by omega) (by omega)]
        exact congrArg some (by omega)
      · rw [if_neg h1]
        by_cases h2 : j = t
        · rw [if_pos h2]
          refine ⟨(hInv.d2s f hfe).1, ?_⟩
          rw [hSP1]
          exact congrArg some h2.symm
        · rw [if_neg h2]
          exact ⟨(hInv.d2s j hj).1, hSP4 j hj (by omega)⟩
    · intro q hq k hk
      rw [Option.mem_def] at hk
      rw [hEL, hENT k]
      by_cases hqm : ∃ u, u < m.entities.length ∧ m.entities.getD u 0 = q
      · obtain ⟨u, hu, huq⟩ := hqm
        subst huq
        by_cases hu1 : u = f
        · rw [hu1] at hk
          rw [hSP1] at hk
          have hkt : t = k := Option.some.inj hk
          rw [← hkt, if_neg (by omega), if_pos rfl, hu1]
          exact ⟨by omega, rfl⟩
        · by_cases hu2 : f + 1 ≤ u ∧ u ≤ t
          · rw [hSP2 u hu2.1 hu2.2] at hk
            have hku : u - 1 = k := Option.some.inj hk
            rw [← hku, if_pos ⟨by omega, by omega⟩]
            refine ⟨by omega, ?_⟩
            rw [show u - 1 + 1 = u from by omega]
          · rw [hSP4 u hu (by omega)] at hk
            have hku : u = k := Option.some.inj hk
            rw [← hku, if_neg (by omega), if_neg (by omega)]
            exact ⟨hu, rfl⟩
      · push_neg at hqm
        rw [hSP3 q hqm] at hk
        obtain ⟨hk1, hk2⟩ := hInv.s2d q k hk
        exact absurd hk2 (hqm k hk1)
    · show ((ComponentManager.moveItemGoUp (t - f) m.components m.entities
        m.sparse f).1.set t (m.components.getD f default)).length = _
      rw [List.length_set, l1]
    · exact hEL
    · intro e he
      obtain ⟨j, hj, hje⟩ := (mem_iff_getD _ e 0).mp he
      rw [hEL] at hj
      rw [hENT j] at hje
      by_cases h1 : f ≤ j ∧ j < t
      · rw [if_pos h1] at hje
        exact (mem_iff_getD _ _ 0).mpr ⟨j + 1, by omega, hje⟩
      · rw [if_neg h1] at hje
        by_cases h2 : j = t
        · rw [if_pos h2] at hje
          exact (mem_iff_getD _ _ 0).mpr ⟨f, hfe, hje⟩
        · rw [if_neg h2] at hje
          exact (mem_iff_getD _ _ 0).mpr ⟨j, hj, hje⟩
  · have hgt : t < f := by omega
    obtain ⟨l1, l2, l3, l4, l5, l6, l7⟩ := moveItemGoDown_spec (f - t)
      m.components m.entities m.sparse f (by omega) (by omega) (by omega)
      (fun a b ha1 ha2 hb1 hb2 heq =>
        hInv.getD_inj a b (by omega) (by omega) heq)
    have htf : f - (f - t) = t := by omega
    rw [htf] at l4 l5 l6 l7
    have hguard : m.entities.getD f 0 <
        (ComponentManager.moveItemGoDown (f - t) m.components m.entities
          m.sparse f).2.2.length := by
      rw [l3]
      exact (hInv.d2s f hfe).1
    have hR : m.MoveItem f t = ⟨(ComponentManager.moveItemGoDown (f - t)
        m.components m.entities m.sparse f).1.set t
          (m.components.getD f default),
        (ComponentManager.moveItemGoDown (f - t) m.components m.entities
          m.sparse f).2.1.set t (m.entities.getD f 0),
        (ComponentManager.moveItemGoDown (f - t) m.components m.entities
          m.sparse f).2.2.set (m.entities.getD f 0) (some t)⟩ := by
      unfold ComponentManager.MoveItem
      rw [if_neg hft, if_neg (by omega)]
      show (⟨(ComponentManager.moveItemGoDown (f - t) m.components
          m.entities m.sparse f).1.set t (m.components.getD f default),
        (ComponentManager.moveItemGoDown (f - t) m.components m.entities
          m.sparse f).2.1.set t (m.entities.getD f 0),
        if m.entities.getD f 0 < (ComponentManager.moveItemGoDown (f - t)
            m.components m.entities m.sparse f).2.2.length then
          (ComponentManager.moveItemGoDown (f - t) m.components m.entities
            m.sparse f).2.2.set (m.entities.getD f 0) (some t)
        else (ComponentManager.moveItemGoDown (f - t) m.components
          m.entities m.sparse f).2.2⟩ : ComponentManager C) = _
      rw [if_pos hguard]
    rw [hR]
    have hEL : ((ComponentManager.moveItemGoDown (f - t) m.components
        m.entities m.sparse f).2.1.set t (m.entities.getD f 0)).length =
        m.entities.length := by
      rw [List.length_set, l2]
    have hENT : ∀ j, ((ComponentManager.moveItemGoDown (f - t) m.components
        m.entities m.sparse f).2.1.set t (m.entities.getD f 0)).getD j 0 =
        if t < j ∧ j ≤ f then m.entities.getD (j - 1) 0
        else if j = t then m.entities.getD f 0
        else m.entities.getD j 0 := by
      intro j
      by_cases hjt : j = t
      · rw [hjt, getD_set_self _ _ _ _ (by rw [l2]; omega),
          if_neg (by omega), if_pos rfl]
      · rw [getD_set_ne _ _ _ _ _ (fun hh => hjt hh.symm), l5 j 0]
        by_cases h1 : t < j ∧ j ≤ f
        · rw [if_pos h1, if_pos h1]
        · rw [if_neg h1, if_neg h1, if_neg hjt]
    have hSPlen : ((ComponentManager.moveItemGoDown (f - t) m.components
        m.entities m.sparse f).2.2.set (m.entities.getD f 0)
          (some t)).length = m.sparse.length := by
      rw [List.length_set, l3]
    have hSP1 : ((ComponentManager.moveItemGoDown (f - t) m.components
        m.entities m.sparse f).2.2.set (m.entities.getD f 0)
          (some t)).getD (m.entities.getD f 0) none = some t :=
      getD_set_self _ _ _ _ hguard
    have hSP2 : ∀ u, t ≤ u → u < f →
        ((ComponentManager.moveItemGoDown (f - t) m.components m.entities
          m.sparse f).2.2.set (m.entities.getD f 0) (some t)).getD
            (m.entities.getD u 0) none = some (u + 1) := by
      intro u hu1 hu2
      rw [getD_set_ne _ _ _ _ _ (fun hh => by
        have := hInv.getD_inj f u hfe (by omega) hh
        omega)]
      exact l7 u hu1 hu2 ((hInv.d2s u (by omega)).1)
    have hSP3 : ∀ q, (∀ u, u < m.entities.length →
        m.entities.getD u 0 ≠ q) →
        ((ComponentManager.moveItemGoDown (f - t) m.components m.entities
          m.sparse f).2.2.set (m.entities.getD f 0) (some t)).getD q none =
        m.sparse.getD q none := by
      intro q hq
      rw [getD_set_ne _ _ _ _ _ (hq f hfe)]
      exact l6 q (fun u hu1 hu2 => hq u (by omega))
    have hSP4 : ∀ u, u < m.entities.length → ¬(t ≤ u ∧ u ≤ f) →
        ((ComponentManager.moveItemGoDown (f - t) m.components m.entities
          m.sparse f).2.2.set (m.entities.getD f 0) (some t)).getD
            (m.entities.getD u 0) none = some u := by
      intro u hu hout
      rw [getD_set_ne _ _ _ _ _ (fun hh => by
        have := hInv.getD_inj f u hfe hu hh
        omega)]
      rw [l6 (m.entities.getD u 0) (fun v hv1 hv2 hcc => by
        have := hInv.getD_inj v u (by omega) hu hcc
        omega)]
      exact (hInv.d2s u hu).2
    refine ⟨⟨?_, ?_, ?_⟩, ?_, ?_, ?_⟩
    · show ((ComponentManager.moveItemGoDown (f - t) m.components
        m.entities m.sparse f).1.set t (m.components.getD f default)).length
        = _
      rw [List.length_set, l1, hEL, hlen]
    · intro j hj
      rw [hEL] at hj
      show _ < ((ComponentManager.moveItemGoDown (f - t) m.components
        m.entities m.sparse f).2.2.set (m.entities.getD f 0)
          (some t)).length ∧ _
      rw [hENT j, hSPlen]
      by_cases h1 : t < j ∧ j ≤ f
      · rw [if_pos h1]
        refine ⟨(hInv.d2s (j - 1) (by omega)).1, ?_⟩
        rw [hSP2 (j - 1) (by omega) (by omega)]
        exact congrArg some (by omega)
      · rw [if_neg h1]
        by_cases h2 : j = t
        · rw [if_pos h2]
          refine ⟨(hInv.d2s f hfe).1, ?_⟩
          rw [hSP1]
          exact congrArg some h2.symm
        · rw [if_neg h2]
          exact ⟨(hInv.d2s j hj).1, hSP4 j hj (by omega)⟩
    · intro q hq k hk
      rw [Option.mem_def] at hk
      rw [hEL, hENT k]
      by_cases hqm : ∃ u, u < m.entities.length ∧ m.entities.getD u 0 = q
      · obtain ⟨u, hu, huq⟩ := hqm
        subst huq
        by_cases hu1 : u = f
        · rw [hu1] at hk
          rw [hSP1] at hk
          have hkt : t = k := Option.some.inj hk
          rw [← hkt, if_neg (by omega), if_pos rfl, hu1]
          exact ⟨by omega, rfl⟩
        · by_cases hu2 : t ≤ u ∧ u < f
          · rw [hSP2 u hu2.1 hu2.2] at hk
            have hku : u + 1 = k := Option.some.inj hk
            rw [← hku, if_pos ⟨by omega, by omega⟩]
            refine ⟨by omega, ?_⟩
            rw [show u + 1 - 1 = u from by omega]
          · rw [hSP4 u hu (by omega)] at hk
            have hku : u = k := Option.some.inj hk
            rw [← hku, if_neg (by omega), if_neg (by omega)]
            exact ⟨hu, rfl⟩
      · push_neg at hqm
        rw [hSP3 q hqm] at hk
        obtain ⟨hk1, hk2⟩ := hInv.s2d q k hk
        exact absurd hk2 (hqm k hk1)
    · show ((ComponentManager.moveItemGoDown (f - t) m.components
        m.entities m.sparse f).1.set t (m.components.getD f default)).length
        = _
      rw [List.length_set, l1]
    · exact hEL
    · intro e he
      obtain ⟨j, hj, hje⟩ := (mem_iff_getD _ e 0).mp he
      rw [hEL] at hj
      rw [hENT j] at hje
      by_cases h1 : t < j ∧ j ≤ f
      · rw [if_pos h1] at hje
        exact (mem_iff_getD _ _ 0).mpr ⟨j - 1, by omega, hje⟩
      · rw [if_neg h1] at hje
        by_cases h2 : j = t
        · rw [if_pos h2] at hje
          exact (mem_iff_getD _ _ 0).mpr ⟨f, hfe, hje⟩
        · rw [if_neg h2] at hje
          exact (mem_iff_getD _ _ 0).mpr ⟨j, hj, hje⟩

theorem Inv_emptyStore {C : Type} (n : Nat) :
    (⟨[], [], List.replicate n none⟩ : ComponentManager C).Inv := by
  refine ⟨rfl, ?_, ?_⟩
  · intro i hi
    exact absurd hi (by simp)
  · intro e _ j hj
    rw [Option.mem_def] at hj
    rcases Nat.lt_or_ge e n with he | he
    · rw [show (⟨[], [], List.replicate n none⟩ :
        ComponentManager C).sparse = List.replicate n none from rfl,
        getD_replicate _ _ _ _ he] at hj
      cases hj
    · rw [show (⟨[], [], List.replicate n none⟩ :
        ComponentManager C).sparse = List.replicate n none from rfl,
        getD_oob _ _ _ (by rw [List.length_replicate]; omega)] at hj
      cases hj

theorem WF_Create {C : Type} [Inhabited C] (m : ComponentManager C)
    (r : ECSManager) (e : Nat) (h : m.WF) (he0 : e ≠ 0)
    (habs : m.Contains e = false) : (m.Create r e).1.1.WF := by
  have hE : (m.Create r e).1.1 = m.pushEntry e default := rfl
  rw [hE]
  refine ⟨ComponentManager.Inv_pushEntry m e default h.1 habs, ?_⟩
  intro x hx
  rw [ComponentManager.pushEntry_entities] at hx
  rcases List.mem_append.mp hx with hx1 | hx2
  · exact h.2 x hx1
  · rw [List.mem_singleton] at hx2
    rw [hx2]
    exact he0

theorem WF_Remove {C : Type} [Inhabited C] (m : ComponentManager C)
    (r : ECSManager) (e : Nat) (h : m.WF) : (m.Remove r e).1.WF := by
  cases hsp : m.sparse.getD e none with
  | none =>
    have hno : m.Remove r e = (m, r) := by
      unfold ComponentManager.Remove
      rw [if_neg (by
        rintro ⟨_, h2⟩
        rw [hsp] at h2
        cases h2)]
    rw [hno]
    exact h
  | some i =>
    obtain ⟨hil, hie⟩ := h.1.s2d e i hsp
    have hlast0 : m.entities.getLastD 0 ∈ m.entities := by
      rw [getLastD_eq_getD]
      exact (mem_iff_getD _ _ 0).mpr ⟨m.entities.length - 1, by omega, rfl⟩
    rcases Nat.lt_or_ge (i + 1) m.entities.length with hlt | hge
    · rw [(ComponentManager.Remove_present m r e i h.1 hsp).2.2 hlt]
      refine ⟨ComponentManager.Inv_remove_swap m e i h.1 hsp hlt, ?_⟩
      intro x hx
      have hx1 : x ∈ m.entities.set i (m.entities.getLastD 0) :=
        List.dropLast_subset _ hx
      rcases List.mem_or_eq_of_mem_set hx1 with hx2 | hx3
      · exact h.2 x hx2
      · rw [hx3]
        exact h.2 _ hlast0
    · have hlast : i + 1 = m.entities.length := by omega
      rw [(ComponentManager.Remove_present m r e i h.1 hsp).2.1 hlast]
      refine ⟨ComponentManager.Inv_remove_last m e i h.1 hsp hlast, ?_⟩
      intro x hx
      exact h.2 x (List.dropLast_subset _ hx)

theorem WF_RemoveKS {C : Type} [Inhabited C] (m : ComponentManager C)
    (r : ECSManager) (e : Nat) (h : m.WF) :
    (m.Remove_KeepSorted r e).1.WF := by
  cases hsp : m.sparse.getD e none with
  | none =>
    have hno : m.Remove_KeepSorted r e = (m, r) := by
      unfold ComponentManager.Remove_KeepSorted
      rw [if_neg (by
        rintro ⟨_, h2⟩
        rw [hsp] at h2
        cases h2)]
    rw [hno]
    exact h
  | some i =>
    obtain ⟨_, _, hent, _, _, _, _, hInv'⟩ :=
      ComponentManager.removeKS_spec m r e i h.1 hsp
    refine ⟨hInv', ?_⟩
    intro x hx
    rw [hent] at hx
    exact h.2 x (List.eraseIdx_subset _ _ hx)

theorem WF_Clear {C : Type} [Inhabited C] (m : ComponentManager C)
    (r : ECSManager) : (m.Clear r).1.WF := by
  refine ⟨Inv_emptyStore m.sparse.length, ?_⟩
  intro x hx
  cases hx

theorem WF_Copy {C : Type} [Inhabited C] (m other : ComponentManager C)
    (r : ECSManager) (h : other.WF) : (m.Copy other r).1.WF := by
  have : (m.Copy other r).1 = other := rfl
  rw [this]
  exact h

theorem merge_core_inv {C : Type} [Inhabited C]
    (m0 other : ComponentManager C) (r : ECSManager)
    (h0 : m0.Inv) (ho : other.Inv)
    (hdisj : ∀ e ∈ other.entities, m0.Contains e = false) :
    (ComponentManager.mergeGo other.entities other.components
        other.components.length m0 r 0).1.entities =
      m0.entities ++ other.entities ∧
    (ComponentManager.mergeGo other.entities other.components
        other.components.length m0 r 0).1.Inv := by
  have hlen : other.components.length = other.entities.length := ho.len_eq
  have hmem : ∀ t, t < other.entities.length →
      other.entities.getD t 0 ∈ other.entities := by
    intro t ht
    exact (mem_iff_getD other.entities _ 0).mpr ⟨t, ht, rfl⟩
  obtain ⟨_, g2, g3, _⟩ :=
    ComponentManager.mergeGo_spec other.entities other.components
      other.components.length m0 r 0 h0
      (by
        intro t _ ht2
        exact hdisj _ (hmem t (by omega)))
      (by
        intro a b _ ha2 _ hb2 heq
        exact ho.getD_inj a b (by omega) (by omega) heq)
  have hre : (List.range other.components.length).map
      (fun k => other.entities.getD (0 + k) 0) = other.entities := by
    have hfq : (fun k => other.entities.getD (0 + k) 0) =
        (fun k => other.entities.getD k 0) := by
      funext k
      rw [Nat.zero_add]
    rw [hfq, hlen, map_getD_range]
  exact ⟨by rw [g2, hre], g3⟩

theorem Merge_store {C : Type} [Inhabited C]
    (m other : ComponentManager C) (r : ECSManager)
    (hm : m.Inv) (ho : other.Inv)
    (hdisj : ∀ e ∈ other.entities, m.Contains e = false) :
    (m.Merge other r).1.1.entities = m.entities ++ other.entities ∧
    (m.Merge other r).1.1.Inv := by
  by_cases hgrow : m.sparse.length < other.sparse.length
  · have h0 : (⟨m.components, m.entities,
        vecResize m.sparse (other.sparse.length + 5000) none⟩ :
        ComponentManager C).Inv :=
      ComponentManager.Inv_growSparse m (other.sparse.length + 5000)
        (by omega) hm
    have hc0 : ∀ e ∈ other.entities,
        ComponentManager.Contains (⟨m.components, m.entities,
          vecResize m.sparse (other.sparse.length + 5000) none⟩ :
          ComponentManager C) e = false := by
      intro e he
      rw [ComponentManager.Contains_growSparse m _ (by omega)]
      exact hdisj e he
    obtain ⟨k1, k2⟩ := merge_core_inv
      (⟨m.components, m.entities,
        vecResize m.sparse (other.sparse.length + 5000) none⟩ :
        ComponentManager C) other r h0 ho hc0
    simp only [ComponentManager.Merge, ComponentManager.mergeLoop,
      ComponentManager.Clear, if_pos hgrow, Nat.sub_zero]
    exact ⟨k1, k2⟩
  · have hmm : (⟨m.components, m.entities, m.sparse⟩ :
        ComponentManager C) = m := rfl
    obtain ⟨k1, k2⟩ := merge_core_inv m other r hm ho hdisj
    simp only [ComponentManager.Merge, ComponentManager.mergeLoop,
      ComponentManager.Clear, if_neg hgrow, Nat.sub_zero]
    rw [hmm]
    exact ⟨k1, k2⟩

theorem WF_Merge {C : Type} [Inhabited C] (m other : ComponentManager C)
    (r : ECSManager) (h : m.WF) (ho : other.WF)
    (hdisj : ∀ e ∈ other.entities, m.Contains e = false) :
    (m.Merge other r).1.1.WF := by
  obtain ⟨k1, k2⟩ := Merge_store m other r h.1 ho.1 hdisj
  refine ⟨k2, ?_⟩
  intro x hx
  rw [k1] at hx
  rcases List.mem_append.mp hx with hx1 | hx2
  · exact h.2 x hx1
  · exact ho.2 x hx2

theorem WF_applyOp {C : Type} [Inhabited C] (op : StoreOp C)
    (s : ComponentManager C × ECSManager) (h : s.1.WF) (hp : opPre op s) :
    (applyOp s op).1.WF := by
  cases op with
  | create e =>
    have hp' : e ≠ 0 ∧ s.1.Contains e = false := hp
    exact WF_Create s.1 s.2 e h hp'.1 hp'.2
  | remove e => exact WF_Remove s.1 s.2 e h
  | removeKeepSorted e => exact WF_RemoveKS s.1 s.2 e h
  | moveItem f t =>
    have hp' : f < s.1.components.length ∧ t < s.1.components.length := hp
    obtain ⟨hi, _, _, hmem⟩ := MoveItem_spec s.1 f t h.1 hp'.1 hp'.2
    exact ⟨hi, fun x hx => h.2 x (hmem x hx)⟩
  | clear => exact WF_Clear s.1 s.2
  | copy other => exact WF_Copy s.1 other s.2 hp
  | merge other =>
    have hp' : other.WF ∧ ∀ e ∈ other.entities, s.1.Contains e = false := hp
    exact WF_Merge s.1 other s.2 h hp'.1 hp'.2

theorem WF_execOps {C : Type} [Inhabited C] :
    ∀ (ops : List (StoreOp C)) (s : ComponentManager C × ECSManager),
    s.1.WF → PreSeq ops s → (execOps ops s).1.WF
  | [], _, h, _ => h
  | op :: ops, s, h, hp => by
      have hp' : opPre op s ∧ PreSeq ops (applyOp s op) := hp
      exact WF_execOps ops (applyOp s op) (WF_applyOp op s h hp'.1) hp'.2

/-- C1: executing any sequence of public store operations whose documented
preconditions hold at each step, from any well-formed store, keeps the
sparse/dense coherence invariant: the dense arrays stay the same length,
`sparse[e]` is the unmapped sentinel exactly when `e` holds no component,
and a mapped slot `sparse[e] = i` always points to an in-range dense slot
whose entity entry is `e`. -/
theorem C1_invariant_after_ops {C : Type} [Inhabited C]
    (ops : List (StoreOp C)) (s : ComponentManager C × ECSManager)
    (h : s.1.WF) (hp : PreSeq ops s) :
    (execOps ops s).1.Inv ∧
    (execOps ops s).1.components.length = (execOps ops s).1.entities.length ∧
    (∀ e, (execOps ops s).1.sparse.getD e none = none ↔
      e ∉ (execOps ops s).1.entities) ∧
    (∀ e i, (execOps ops s).1.sparse.getD e none = some i →
      i < (execOps ops s).1.entities.length ∧
      (execOps ops s).1.entities.getD i 0 = e) := by
  have hw := WF_execOps ops s h hp
  refine ⟨hw.1, hw.1.len_eq, ?_, ?_⟩
  · intro e
    constructor
    · intro h0 hmem
      exact (hw.1.mem_entities_iff e).mp hmem h0
    · intro hnm
      by_contra hne
      exact hnm ((hw.1.mem_entities_iff e).mpr hne)
  · intro e i hsp
    exact hw.1.s2d e i hsp

theorem C1_invariant_after_ops_witness :
    (((ComponentManager.mkReserved Nat 4, ECSManager.fresh) :
        ComponentManager Nat × ECSManager).1.WF ∧
     PreSeq [StoreOp.create 1, StoreOp.create 2, StoreOp.create 3,
        StoreOp.moveItem 0 2, StoreOp.remove 2, StoreOp.removeKeepSorted 1,
        StoreOp.merge (⟨[30], [2], [none, none, some 0, none]⟩ :
          ComponentManager Nat),
        StoreOp.clear,
        StoreOp.copy (⟨[5], [1], [none, some 0]⟩ : ComponentManager Nat)]
       (ComponentManager.mkReserved Nat 4, ECSManager.fresh)) ∧
    ((execOps [StoreOp.create 1, StoreOp.create 2, StoreOp.create 3,
        StoreOp.moveItem 0 2, StoreOp.remove 2, StoreOp.removeKeepSorted 1,
        StoreOp.merge (⟨[30], [2], [none, none, some 0, none]⟩ :
          ComponentManager Nat),
        StoreOp.clear,
        StoreOp.copy (⟨[5], [1], [none, some 0]⟩ : ComponentManager Nat)]
       (ComponentManager.mkReserved Nat 4, ECSManager.fresh)).1.Inv ∧
     (execOps [StoreOp.create 1, StoreOp.create 2, StoreOp.create 3,
        StoreOp.moveItem 0 2, StoreOp.remove 2, StoreOp.removeKeepSorted 1,
        StoreOp.merge (⟨[30], [2], [none, none, some 0, none]⟩ :
          ComponentManager Nat),
        StoreOp.clear,
        StoreOp.copy (⟨[5], [1], [none, some 0]⟩ : ComponentManager Nat)]
       (ComponentManager.mkReserved Nat 4,
         ECSManager.fresh)).1.components.length =
     (execOps [StoreOp.create 1, StoreOp.create 2, StoreOp.create 3,
        StoreOp.moveItem 0 2, StoreOp.remove 2, StoreOp.removeKeepSorted 1,
        StoreOp.merge (⟨[30], [2], [none, none, some 0, none]⟩ :
          ComponentManager Nat),
        StoreOp.clear,
        StoreOp.copy (⟨[5], [1], [none, some 0]⟩ : ComponentManager Nat)]
       (ComponentManager.mkReserved Nat 4,
         ECSManager.fresh)).1.entities.length ∧
     (∀ e, (execOps [StoreOp.create 1, StoreOp.create 2, StoreOp.create 3,
        StoreOp.moveItem 0 2, StoreOp.remove 2, StoreOp.removeKeepSorted 1,
        StoreOp.merge (⟨[30], [2], [none, none, some 0, none]⟩ :
          ComponentManager Nat),
        StoreOp.clear,
        StoreOp.copy (⟨[5], [1], [none, some 0]⟩ : ComponentManager Nat)]
       (ComponentManager.mkReserved Nat 4,
         ECSManager.fresh)).1.sparse.getD e none = none ↔
      e ∉ (execOps [StoreOp.create 1, StoreOp.create 2, StoreOp.create 3,
        StoreOp.moveItem 0 2, StoreOp.remove 2, StoreOp.removeKeepSorted 1,
        StoreOp.merge (⟨[30], [2], [none, none, some 0, none]⟩ :
          ComponentManager Nat),
        StoreOp.clear,
        StoreOp.copy (⟨[5], [1], [none, some 0]⟩ : ComponentManager Nat)]
       (ComponentManager.mkReserved Nat 4, ECSManager.fresh)).1.entities) ∧
     (∀ e i, (execOps [StoreOp.create 1, StoreOp.create 2, StoreOp.create 3,
        StoreOp.moveItem 0 2, StoreOp.remove 2, StoreOp.removeKeepSorted 1,
        StoreOp.merge (⟨[30], [2], [none, none, some 0, none]⟩ :
          ComponentManager Nat),
        StoreOp.clear,
        StoreOp.copy (⟨[5], [1], [none, some 0]⟩ : ComponentManager Nat)]
       (ComponentManager.mkReserved Nat 4,
         ECSManager.fresh)).1.sparse.getD e none = some i →
      i < (execOps [StoreOp.create 1, StoreOp.create 2, StoreOp.create 3,
        StoreOp.moveItem 0 2, StoreOp.remove 2, StoreOp.removeKeepSorted 1,
        StoreOp.merge (⟨[30], [2], [none, none, some 0, none]⟩ :
          ComponentManager Nat),
        StoreOp.clear,
        StoreOp.copy (⟨[5], [1], [none, some 0]⟩ : ComponentManager Nat)]
       (ComponentManager.mkReserved Nat 4,
         ECSManager.fresh)).1.entities.length ∧
      (execOps [StoreOp.create 1, StoreOp.create 2, StoreOp.create 3,
        StoreOp.moveItem 0 2, StoreOp.remove 2, StoreOp.removeKeepSorted 1,
        StoreOp.merge (⟨[30], [2], [none, none, some 0, none]⟩ :
          ComponentManager Nat),
        StoreOp.clear,
        StoreOp.copy (⟨[5], [1], [none, some 0]⟩ : ComponentManager Nat)]
       (ComponentManager.mkReserved Nat 4,
         ECSManager.fresh)).1.entities.getD i 0 = e)) :=
  ⟨⟨by decide, by decide⟩,
   C1_invariant_after_ops
     [StoreOp.create 1, StoreOp.create 2, StoreOp.create 3,
      StoreOp.moveItem 0 2, StoreOp.remove 2, StoreOp.removeKeepSorted 1,
      StoreOp.merge (⟨[30], [2], [none, none, some 0, none]⟩ :
        ComponentManager Nat),
      StoreOp.clear,
      StoreOp.copy (⟨[5], [1], [none, some 0]⟩ : ComponentManager Nat)]
     (ComponentManager.mkReserved Nat 4, ECSManager.fresh)
     (by decide) (by decide)⟩

/-- C10: executing any sequence of public store operations whose documented
preconditions hold at each step, from any well-formed store, keeps the store
well formed; in particular every entity held in the dense `entities` array is
nonzero and strictly below the sparse table's size, so every held entity's
sparse slot is addressable and the bounds guards on `sparse` inside `Remove`,
`Remove_KeepSorted` and `MoveItem` (including the `entities.back() <
sparse.size()` check on the swapped-in last entity) always pass. -/
theorem C10_entities_nonzero_bounded {C : Type} [Inhabited C]
    (ops : List (StoreOp C)) (s : ComponentManager C × ECSManager)
    (h : s.1.WF) (hp : PreSeq ops s) :
    (execOps ops s).1.WF ∧
    (∀ i < (execOps ops s).1.entities.length,
      0 < (execOps ops s).1.entities.getD i 0 ∧
      (execOps ops s).1.entities.getD i 0 <
        (execOps ops s).1.sparse.length) ∧
    (0 < (execOps ops s).1.entities.length →
      (execOps ops s).1.entities.getLastD 0 <
        (execOps ops s).1.sparse.length) := by
  have hw := WF_execOps ops s h hp
  refine ⟨hw, ?_, ?_⟩
  · intro i hi
    refine ⟨?_, (hw.1.d2s i hi).1⟩
    have hmem : (execOps ops s).1.entities.getD i 0 ∈
        (execOps ops s).1.entities :=
      (mem_iff_getD _ _ 0).mpr ⟨i, hi, rfl⟩
    have hnz := hw.2 _ hmem
    omega
  · intro hlen0
    rw [getLastD_eq_getD]
    exact (hw.1.d2s ((execOps ops s).1.entities.length - 1) (by omega)).1

theorem C10_entities_nonzero_bounded_witness :
    (((ComponentManager.mkReserved Nat 5, ECSManager.fresh) :
        ComponentManager Nat × ECSManager).1.WF ∧
     PreSeq [StoreOp.create 2, StoreOp.create 4, StoreOp.moveItem 1 0,
        StoreOp.remove 4, StoreOp.removeKeepSorted 2, StoreOp.create 3]
       (ComponentManager.mkReserved Nat 5, ECSManager.fresh)) ∧
    ((execOps [StoreOp.create 2, StoreOp.create 4, StoreOp.moveItem 1 0,
        StoreOp.remove 4, StoreOp.removeKeepSorted 2, StoreOp.create 3]
       (ComponentManager.mkReserved Nat 5, ECSManager.fresh)).1.WF ∧
     (∀ i < (execOps [StoreOp.create 2, StoreOp.create 4,
        StoreOp.moveItem 1 0, StoreOp.remove 4, StoreOp.removeKeepSorted 2,
        StoreOp.create 3]
       (ComponentManager.mkReserved Nat 5,
         ECSManager.fresh)).1.entities.length,
      0 < (execOps [StoreOp.create 2, StoreOp.create 4,
        StoreOp.moveItem 1 0, StoreOp.remove 4, StoreOp.removeKeepSorted 2,
        StoreOp.create 3]
       (ComponentManager.mkReserved Nat 5,
         ECSManager.fresh)).1.entities.getD i 0 ∧
      (execOps [StoreOp.create 2, StoreOp.create 4, StoreOp.moveItem 1 0,
        StoreOp.remove 4, StoreOp.removeKeepSorted 2, StoreOp.create 3]
       (ComponentManager.mkReserved Nat 5,
         ECSManager.fresh)).1.entities.getD i 0 <
      (execOps [StoreOp.create 2, StoreOp.create 4, StoreOp.moveItem 1 0,
        StoreOp.remove 4, StoreOp.removeKeepSorted 2, StoreOp.create 3]
       (ComponentManager.mkReserved Nat 5,
         ECSManager.fresh)).1.sparse.length) ∧
     (0 < (execOps [StoreOp.create 2, StoreOp.create 4,
        StoreOp.moveItem 1 0, StoreOp.remove 4, StoreOp.removeKeepSorted 2,
        StoreOp.create 3]
       (ComponentManager.mkReserved Nat 5,
         ECSManager.fresh)).1.entities.length →
      (execOps [StoreOp.create 2, StoreOp.create 4, StoreOp.moveItem 1 0,
        StoreOp.remove 4, StoreOp.removeKeepSorted 2, StoreOp.create 3]
       (ComponentManager.mkReserved Nat 5,
         ECSManager.fresh)).1.entities.getLastD 0 <
      (execOps [StoreOp.create 2, StoreOp.create 4, StoreOp.moveItem 1 0,
        StoreOp.remove 4, StoreOp.removeKeepSorted 2, StoreOp.create 3]
       (ComponentManager.mkReserved Nat 5,
         ECSManager.fresh)).1.sparse.length)) :=
  ⟨⟨by decide, by decide⟩,
   C10_entities_nonzero_bounded
     [StoreOp.create 2, StoreOp.create 4, StoreOp.moveItem 1 0,
      StoreOp.remove 4, StoreOp.removeKeepSorted 2, StoreOp.create 3]
     (ComponentManager.mkReserved Nat 5, ECSManager.fresh)
     (by decide) (by decide)⟩

theorem attachN_tracked (e : Nat) (k : Nat) :
    ∀ (r : ECSManager) (j : Nat),
    assocFind? r.m_componentCounts e = some j →
    attachN r e k =
      { r with m_componentCounts := assocSet r.m_componentCounts e (j + k) } := by
  induction k with
  | zero =>
    intro r j hj
    show r = _
    rw [Nat.add_zero, assocSet_eq_of_find? _ _ _ hj]
  | succ k ih =>
    intro r j hj
    show attachN (r.OnComponentAdded e) e k = _
    have hadd : r.OnComponentAdded e =
        { r with m_componentCounts := assocSet r.m_componentCounts e (j + 1) } := by
      unfold ECSManager.OnComponentAdded
      rw [hj]
      rfl
    rw [hadd, ih _ (j + 1) (by
      show assocFind? (assocSet r.m_componentCounts e (j + 1)) e = _
      rw [assocFind?_assocSet_self])]
    simp only [assocSet_assocSet]
    rw [show j + 1 + k = j + (k + 1) from by omega]

theorem attachN_untracked (e : Nat) (c : Nat) (hc : 1 ≤ c) :
    ∀ r : ECSManager, assocFind? r.m_componentCounts e = none →
    attachN r e c =
      { r with m_componentCounts := assocSet r.m_componentCounts e c } := by
  obtain ⟨k, rfl⟩ : ∃ k, c = k + 1 := ⟨c - 1, by omega⟩
  intro r hnone
  show attachN (r.OnComponentAdded e) e k = _
  have hadd : r.OnComponentAdded e =
      { r with m_componentCounts := assocSet r.m_componentCounts e 1 } := by
    unfold ECSManager.OnComponentAdded
    rw [hnone]
    rfl
  rw [hadd, attachN_tracked e k _ 1 (by
    show assocFind? (assocSet r.m_componentCounts e 1) e = _
    rw [assocFind?_assocSet_self])]
  simp only [assocSet_assocSet]
  rw [show 1 + k = k + 1 from by omega]

theorem detachN_full (e : Nat) (k : Nat) :
    ∀ r : ECSManager, assocFind? r.m_componentCounts e = some (k + 1) →
    detachN r e (k + 1) =
      { r with m_freeIDs := r.m_freeIDs ++ [e],
               m_componentCounts := assocErase r.m_componentCounts e } := by
  induction k with
  | zero =>
    intro r hj
    show detachN (r.OnComponentRemoved e) e 0 = _
    show r.OnComponentRemoved e = _
    unfold ECSManager.OnComponentRemoved
    rw [hj]
    rfl
  | succ k ih =>
    intro r hj
    show detachN (r.OnComponentRemoved e) e (k + 1) = _
    have hrem : r.OnComponentRemoved e =
        { r with m_componentCounts := assocSet r.m_componentCounts e (k + 1) } := by
      unfold ECSManager.OnComponentRemoved
      rw [hj]
      show (if k + 1 + 1 - 1 = 0 then _ else _) = _
      rw [if_neg (by omega)]
      rfl
    rw [hrem, ih _ (by
      show assocFind? (assocSet r.m_componentCounts e (k + 1)) e = _
      rw [assocFind?_assocSet_self])]
    simp only [assocErase_assocSet]

theorem fullRelease_spec (e : Nat) (c : Nat) (hc : 1 ≤ c)
    (r : ECSManager) (hnone : assocFind? r.m_componentCounts e = none) :
    fullRelease r e c = { r with m_freeIDs := r.m_freeIDs ++ [e] } := by
  unfold fullRelease
  rw [attachN_untracked e c hc r hnone]
  obtain ⟨k, rfl⟩ : ∃ k, c = k + 1 := ⟨c - 1, by omega⟩
  rw [detachN_full e k _ (by
    show assocFind? (assocSet r.m_componentCounts e (k + 1)) e = _
    rw [assocFind?_assocSet_self])]
  simp only [assocErase_assocSet]
  rw [assocErase_of_find?_none _ _ hnone]

theorem releaseRun_spec (rel : List (Nat × Nat)) :
    ∀ r : ECSManager,
    (∀ p ∈ rel, assocFind? r.m_componentCounts p.1 = none ∧ 1 ≤ p.2) →
    releaseRun r rel =
      { r with m_freeIDs := r.m_freeIDs ++ rel.map Prod.fst } := by
  induction rel with
  | nil =>
    intro r _
    show r = _
    simp
  | cons p rest ih =>
    obtain ⟨e, c⟩ := p
    intro r hp
    show releaseRun (fullRelease r e c) rest = _
    obtain ⟨hnone, hc⟩ := hp (e, c) (List.mem_cons_self _ _)
    rw [fullRelease_spec e c hc r hnone]
    rw [ih { r with m_freeIDs := r.m_freeIDs ++ [e] }
      (fun q hq => hp q (List.mem_cons_of_mem _ hq))]
    simp

theorem nodup_length_le (l : List Nat) (N : Nat) (hnd : l.Nodup)
    (hmem : ∀ x ∈ l, 1 ≤ x ∧ x ≤ N) : l.length ≤ N := by
  classical
  have hsub : l.toFinset ⊆ Finset.Icc 1 N := by
    intro x hx
    rcases hmem x (List.mem_toFinset.mp hx) with ⟨h1, h2⟩
    exact Finset.mem_Icc.mpr ⟨h1, h2⟩
  calc l.length = l.toFinset.card := (List.toFinset_card_of_nodup hnd).symm
    _ ≤ (Finset.Icc 1 N).card := Finset.card_le_card hsub
    _ = N := by rw [Nat.card_Icc]; omega

/-- C5 counterexample: the claim's unconditional "CreateEntity never returns
the invalid id 0" fails at the concrete input N = 2^32, K = 0: starting from
a fresh registry, the 2^32-th fresh allocation wraps the 32-bit `m_nextID`
counter and returns the invalid id 0. -/
theorem C5_counterexample :
    INVALID_ENTITY ∈ (createRun ECSManager.fresh UINT32_LIMIT).1 := by
  have h := createRun_no_free UINT32_LIMIT ECSManager.fresh rfl
    (by norm_num [UINT32_LIMIT, ECSManager.fresh, INVALID_ENTITY])
  rw [h.1]
  refine List.mem_map.mpr ⟨UINT32_LIMIT - 1, List.mem_range.mpr ?_, ?_⟩
  · norm_num [UINT32_LIMIT]
  · show (ECSManager.fresh.m_nextID + (UINT32_LIMIT - 1)) % UINT32_LIMIT =
      INVALID_ENTITY
    have h1 : ECSManager.fresh.m_nextID = 1 := rfl
    rw [h1, show 1 + (UINT32_LIMIT - 1) = UINT32_LIMIT from by
      norm_num [UINT32_LIMIT]]
    rw [Nat.mod_self]
    rfl

/-- C5 (amended with the bound `N < 2^32` that the 32-bit wraparound
counterexample forces): creating `N` fresh entities from a fresh registry
returns ids `1, …, N`, none invalid; fully releasing the components of the
`K` distinct entities listed in `rel` (each in `1..N`, each having had at
least one component) puts exactly those `K` ids in the free list in release
order; the next `K` `CreateEntity` calls return exactly那 set in
reverse-of-free (LIFO) order, the reuse counter grows by exactly `K`, and no
call in the whole sequence returns the invalid id 0. -/
theorem C5_reuse_law (N : Nat) (hN : N < UINT32_LIMIT)
    (rel : List (Nat × Nat)) (hnd : (rel.map Prod.fst).Nodup)
    (hmem : ∀ p ∈ rel, 1 ≤ p.1 ∧ p.1 ≤ N ∧ 1 ≤ p.2) :
    (createRun ECSManager.fresh N).1 = (List.range N).map (fun k => k + 1) ∧
    (∀ id ∈ (createRun ECSManager.fresh N).1, id ≠ INVALID_ENTITY) ∧
    (releaseRun (createRun ECSManager.fresh N).2 rel).m_freeIDs =
      rel.map Prod.fst ∧
    (createRun (releaseRun (createRun ECSManager.fresh N).2 rel)
      rel.length).1 = (rel.map Prod.fst).reverse ∧
    (createRun (releaseRun (createRun ECSManager.fresh N).2 rel)
      rel.length).2.m_reusedIDCount =
      (createRun ECSManager.fresh N).2.m_reusedIDCount + rel.length ∧
    (createRun (releaseRun (createRun ECSManager.fresh N).2 rel)
      rel.length).2.m_freeIDs = [] ∧
    (∀ id ∈ (createRun (releaseRun (createRun ECSManager.fresh N).2 rel)
      rel.length).1, id ≠ INVALID_ENTITY) := by
  have hfr : ECSManager.fresh.m_nextID = 1 := rfl
  have h1 := createRun_no_free N ECSManager.fresh rfl
    (by norm_num [UINT32_LIMIT, ECSManager.fresh, INVALID_ENTITY])
  have hids : (createRun ECSManager.fresh N).1 =
      (List.range N).map (fun k => k + 1) := by
    rw [h1.1]
    apply List.map_congr_left
    intro k hk
    have hk' : k < N := List.mem_range.mp hk
    have key : ∀ j : Nat, j < N →
        (ECSManager.fresh.m_nextID + j) % UINT32_LIMIT = j + 1 := by
      intro j hj
      have hjlt : ECSManager.fresh.m_nextID + j < UINT32_LIMIT := by
        rw [hfr]
        omega
      rw [Nat.mod_eq_of_lt hjlt, hfr]
      omega
    exact key k hk'
  have hKle : rel.length ≤ N := by
    have := nodup_length_le (rel.map Prod.fst) N hnd (by
      intro x hx
      obtain ⟨p, hp, rfl⟩ := List.mem_map.mp hx
      exact ⟨(hmem p hp).1, (hmem p hp).2.1⟩)
    simpa using this
  have hrel := releaseRun_spec rel (createRun ECSManager.fresh N).2 (by
    intro p hp
    refine ⟨?_, (hmem p hp).2.2⟩
    rw [h1.2]
    rfl)
  have hfree : (releaseRun (createRun ECSManager.fresh N).2 rel).m_freeIDs =
      rel.map Prod.fst := by
    rw [hrel, h1.2]
    show ECSManager.fresh.m_freeIDs ++ rel.map Prod.fst = rel.map Prod.fst
    rfl
  have hlen : rel.length = (rel.map Prod.fst).length := by simp
  have h2 := createRun_pop_all (rel.map Prod.fst)
    (releaseRun (createRun ECSManager.fresh N).2 rel) hfree (by
      rw [hrel, h1.2]
      show (0 : Nat) < UINT32_LIMIT
      norm_num [UINT32_LIMIT])
  rw [← hlen] at h2
  refine ⟨hids, ?_, hfree, ?_, ?_, ?_, ?_⟩
  · intro id hid
    rw [hids] at hid
    obtain ⟨k, _, rfl⟩ := List.mem_map.mp hid
    simp [INVALID_ENTITY]
  · exact h2.1
  · have hKlt : rel.length < UINT32_LIMIT := Nat.lt_of_le_of_lt hKle hN
    have hr2reused :
        (releaseRun (createRun ECSManager.fresh N).2 rel).m_reusedIDCount
          = 0 := by
      rw [hrel, h1.2]
      rfl
    have hcN : (createRun ECSManager.fresh N).2.m_reusedIDCount = 0 := by
      rw [h1.2]
      rfl
    rw [h2.2]
    show ((releaseRun (createRun ECSManager.fresh N).2 rel).m_reusedIDCount
      + rel.length) % UINT32_LIMIT = _
    rw [hr2reused, hcN, Nat.zero_add]
    exact Nat.mod_eq_of_lt hKlt
  · rw [h2.2]
  · intro id hid
    rw [h2.1] at hid
    rw [List.mem_reverse] at hid
    obtain ⟨p, hp, rfl⟩ := List.mem_map.mp hid
    have h1p := (hmem p hp).1
    simp only [INVALID_ENTITY]
    exact Nat.pos_iff_ne_zero.mp h1p

/-- Witness for C5_reuse_law at the concrete input N = 3,
rel = [(2, 1), (3, 2)]. -/
theorem C5_reuse_law_witness :
    ((3 : Nat) < UINT32_LIMIT ∧
      (([(2, 1), (3, 2)] : List (Nat × Nat)).map Prod.fst).Nodup ∧
      (∀ p ∈ ([(2, 1), (3, 2)] : List (Nat × Nat)),
        1 ≤ p.1 ∧ p.1 ≤ 3 ∧ 1 ≤ p.2)) ∧
    (releaseRun (createRun ECSManager.fresh 3).2
      [(2, 1), (3, 2)]).m_freeIDs = [2, 3] ∧
    (createRun (releaseRun (createRun ECSManager.fresh 3).2
      [(2, 1), (3, 2)]) 2).1 = [3, 2] :=
  ⟨⟨by decide, by decide, by decide⟩, by
    have h := C5_reuse_law 3 (by decide) [(2, 1), (3, 2)] (by decide)
      (by decide)
    exact ⟨h.2.2.1, h.2.2.2.1⟩⟩

/-- Witness for C8 at a concrete input. -/
theorem C8_benign_misses_witness :
    ((ComponentManager.mkReserved Nat 4).Contains 2 = false ∧
      assocFind? ECSManager.fresh.m_componentCounts 7 = none) ∧
    ((ComponentManager.mkReserved Nat 4).GetComponent 2 = none ∧
      (ComponentManager.mkReserved Nat 4).Remove ECSManager.fresh 2 =
        (ComponentManager.mkReserved Nat 4, ECSManager.fresh) ∧
      ECSManager.fresh.OnComponentRemoved 7 = ECSManager.fresh) :=
  ⟨⟨by decide, by decide⟩,
    C8_benign_misses (ComponentManager.mkReserved Nat 4) ECSManager.fresh 2 7
      (by decide) (by decide)⟩

end WiECS
